import Mathlib

/-!
# headless-meeting-bot: audio frame codec and audio bus

A shallow embedding of `server/pkg/audio` (`frame.go`, `bus.go`) and the
properties of the wire encoding, the subscriber filter and the bus operations.

Conventions of the embedding

* Go's `uint64` values are natural numbers; a conversion or an increment that
  can wrap is written with an explicit `% 2 ^ 64`.
* A `[]byte` is a `List Nat` whose elements are below 256.
* A Go `map` is an association list without duplicate keys (`GoMap`); the order
  of its entries stands for the (unspecified) iteration order of `range`.
* `*Subscriber` values are addresses into a heap of subscribers, so that two
  references to one subscriber are told apart from two equal subscribers.
* A buffered channel is its capacity, the queue of the frames sent and not yet
  received, and a flag set by `close`; the non-blocking send of `select` with a
  `default` case succeeds exactly when the queue is shorter than the capacity.
* `time.Now()` is a parameter of every operation that reads the clock.
* A run-time panic (send on, or close of, a closed channel) is the result
  `none`.
* Every method runs as one step: the mutexes make the methods of a subscriber
  atomic, and the interleaving of two methods of the bus is not modelled.
-/

namespace Audio

/-! ## frame.go -/

/-- The byte slice type `[]byte`. -/
abbrev Bytes := List Nat

/-- The constant `AudioTypeMixed`. -/
def AudioTypeMixed : Nat := 0

/-- The constant `AudioTypeOneWay`. -/
def AudioTypeOneWay : Nat := 1

/-- The constant `AudioTypeShare`. -/
def AudioTypeShare : Nat := 2

/-- The struct `AudioFrame`: `Typ` is the field `Type AudioType` (a `uint64`;
`Type` is reserved in Lean), `UserID` a `uint64`, `Data` a byte slice. -/
structure AudioFrame where
  Typ : Nat
  UserID : Nat
  Data : Bytes
deriving DecidableEq, Repr

/-- The values a Go `AudioFrame` can hold: both integers fit 64 bits and every
element of the payload is a byte. -/
def AudioFrame.WF (f : AudioFrame) : Prop :=
  f.Typ < 2 ^ 64 ∧ f.UserID < 2 ^ 64 ∧ ∀ b ∈ f.Data, b < 256

instance (f : AudioFrame) : Decidable f.WF := by
  unfold AudioFrame.WF; exact inferInstance

/-- The conversion `byte(v)`. -/
def byte (v : Nat) : Nat := v % 256

/-- The sub-slice expression `b[lo:hi]`. -/
def slice (b : Bytes) (lo hi : Nat) : Bytes := (b.take hi).drop lo

/-- The effect on `b` of a callee that leaves the value `new` in `b[lo:hi]`. -/
def setSlice (b : Bytes) (lo hi : Nat) (new : Bytes) : Bytes :=
  b.take lo ++ new ++ b.drop hi

/-- The function `binary.LittleEndian.PutUint64(b, v)`: the first eight bytes of
`b` become `byte(v)`, `byte(v >> 8)`, ..., `byte(v >> 56)`. -/
def PutUint64 (b : Bytes) (v : Nat) : Bytes :=
  [byte v, byte (v >>> 8), byte (v >>> 16), byte (v >>> 24),
   byte (v >>> 32), byte (v >>> 40), byte (v >>> 48), byte (v >>> 56)] ++ b.drop 8

/-- The function `binary.LittleEndian.Uint64(b)`, defined on slices of at least
eight bytes. -/
def Uint64 (b : Bytes) : Option Nat :=
  match b with
  | b0 :: b1 :: b2 :: b3 :: b4 :: b5 :: b6 :: b7 :: _ =>
    some ((b0 ||| b1 <<< 8 ||| b2 <<< 16 ||| b3 <<< 24 |||
      b4 <<< 32 ||| b5 <<< 40 ||| b6 <<< 48 ||| b7 <<< 56) % 2 ^ 64)
  | _ => none

/-- The builtin `copy(dst, src)`: the value of `dst` afterwards. -/
def copy (dst src : Bytes) : Bytes :=
  src.take dst.length ++ dst.drop src.length

/-- The variable `BinaryFrameHeaderSize = 2 * binary.Size(uint64(0))`. -/
def BinaryFrameHeaderSize : Nat := 2 * 8

/-- The method `AudioFrame.Encode`. -/
def AudioFrame.Encode (f : AudioFrame) : Bytes :=
  let buf := List.replicate (BinaryFrameHeaderSize + f.Data.length) 0
  let buf := setSlice buf 0 8 (PutUint64 (slice buf 0 8) (f.Typ % 2 ^ 64))
  let buf := setSlice buf 8 16 (PutUint64 (slice buf 8 16) f.UserID)
  setSlice buf BinaryFrameHeaderSize buf.length (copy (buf.drop BinaryFrameHeaderSize) f.Data)

/-! ## bus.go -/

/-- A Go `map[κ]ν`: an association list with pairwise distinct keys. -/
abbrev GoMap (κ : Type) (ν : Type) := AList (fun _ : κ => ν)

/-- The builtin `len(m)` of a map. -/
def GoMap.len {κ ν : Type} (m : GoMap κ ν) : Nat := m.entries.length

/-- The index expression `m[k]`: the stored value, or the zero value of the
element type when `k` has no entry. -/
def GoMap.index {κ ν : Type} [DecidableEq κ] [Inhabited ν] (m : GoMap κ ν) (k : κ) : ν :=
  (m.lookup k).getD default

/-- The two-valued index expression `v, ok := m[k]`. -/
def GoMap.get? {κ ν : Type} [DecidableEq κ] (m : GoMap κ ν) (k : κ) : Option ν :=
  m.lookup k

/-- The assignment `m[k] = v`. -/
def GoMap.set {κ ν : Type} [DecidableEq κ] (m : GoMap κ ν) (k : κ) (v : ν) : GoMap κ ν :=
  m.insert k v

/-- The builtin `delete(m, k)`. -/
def GoMap.delete {κ ν : Type} [DecidableEq κ] (m : GoMap κ ν) (k : κ) : GoMap κ ν :=
  m.erase k

/-- A `time.Time`, in nanoseconds since the zero time. -/
abbrev Time := Int

/-- A `time.Duration`, in nanoseconds (an `int64`). -/
abbrev Duration := Int

/-- The largest `time.Duration`. -/
def maxDuration : Duration := 2 ^ 63 - 1

/-- The smallest `time.Duration`. -/
def minDuration : Duration := -(2 ^ 63)

/-- The method `t.Sub(u)`: the difference, saturated to the range of a
`Duration`. -/
def Time.Sub (t u : Time) : Duration :=
  if t - u > maxDuration then maxDuration
  else if t - u < minDuration then minDuration
  else t - u

/-- A buffered channel `chan *AudioFrame`: its capacity, the frames sent and not
yet received (oldest first) and whether `close` was called on it. -/
structure Chan where
  cap : Nat
  queue : List AudioFrame
  closed : Bool
deriving DecidableEq, Repr

/-- The builtin `make(chan *AudioFrame, bufferSize)`. -/
def Chan.make (bufferSize : Nat) : Chan := { cap := bufferSize, queue := [], closed := false }

/-- The struct `Subscriber` (the mutex apart). -/
structure Subscriber where
  ID : String
  MeetingID : String
  AudioTypes : GoMap Nat Bool
  UserIDs : GoMap Nat Bool
  Channel : Chan
  LastActivity : Time
  connected : Bool
deriving DecidableEq

/-- The function `NewSubscriber`; `now` is the value of `time.Now()`. -/
def NewSubscriber (id : String) (bufferSize : Nat) (now : Time) : Subscriber :=
  { ID := id
    MeetingID := ""
    AudioTypes := ∅
    UserIDs := ∅
    Channel := Chan.make bufferSize
    LastActivity := now
    connected := true }

/-- The method `Subscriber.SetMeetingFilter`. -/
def Subscriber.SetMeetingFilter (s : Subscriber) (meetingID : String) : Subscriber :=
  { s with MeetingID := meetingID }

/-- The method `Subscriber.SetAudioTypeFilter`. -/
def Subscriber.SetAudioTypeFilter (s : Subscriber) (audioTypes : List Nat) : Subscriber :=
  { s with AudioTypes := audioTypes.foldl (fun m t => m.set t true) ∅ }

/-- The method `Subscriber.SetUserIDFilter`. -/
def Subscriber.SetUserIDFilter (s : Subscriber) (userIDs : List Nat) : Subscriber :=
  { s with UserIDs := userIDs.foldl (fun m id => m.set id true) ∅ }

/-- The method `Subscriber.ShouldReceive`. -/
def Subscriber.ShouldReceive (s : Subscriber) (meetingID : String) (frame : AudioFrame) : Bool :=
  if !s.connected then false
  else if s.MeetingID != "" && s.MeetingID != meetingID then false
  else if decide (s.AudioTypes.len > 0) && !s.AudioTypes.index frame.Typ then false
  else if decide (s.UserIDs.len > 0) && !s.UserIDs.index frame.UserID then false
  else true

/-- The method `Subscriber.Send`; `now` is the value of `time.Now()`. The
`select` takes its send case when the queue has room and its default case when
the queue is full; on a closed channel the send case panics. -/
def Subscriber.Send (s : Subscriber) (frame : AudioFrame) (now : Time) :
    Option (Subscriber × Bool) :=
  if !s.connected then some (s, false)
  else if s.Channel.closed then none
  else if s.Channel.queue.length < s.Channel.cap then
    some ({ s with Channel := { s.Channel with queue := s.Channel.queue ++ [frame] }
                   LastActivity := now }, true)
  else some (s, false)

/-- The method `Subscriber.Close`; closing a closed channel panics. -/
def Subscriber.Close (s : Subscriber) : Option Subscriber :=
  if s.connected then
    if s.Channel.closed then none
    else some { s with connected := false, Channel := { s.Channel with closed := true } }
  else some s

/-- The method `Subscriber.IsConnected`. -/
def Subscriber.IsConnected (s : Subscriber) : Bool := s.connected

/-- The struct `BusStats`. -/
structure BusStats where
  TotalFrames : Nat
  DroppedFrames : Nat
  ActiveSubscribers : Nat
  LastFrameTime : Time
deriving DecidableEq, Repr

/-- A `*Subscriber`. -/
abbrev Ptr := Nat

/-- The struct `Bus` (the mutex apart), together with the memory its
`*Subscriber` values point into: `heap p` is the subscriber at address `p`. -/
structure Bus where
  heap : Ptr → Subscriber
  subscribers : GoMap String Ptr
  stats : BusStats

/-- The function `NewBus`, over a given memory. -/
def NewBus (heap : Ptr → Subscriber) : Bus :=
  { heap := heap
    subscribers := ∅
    stats := { TotalFrames := 0, DroppedFrames := 0, ActiveSubscribers := 0, LastFrameTime := 0 } }

/-- The method `Bus.Subscribe`. -/
def Bus.Subscribe (b : Bus) (subscriber : Ptr) : Bus :=
  let subscribers := b.subscribers.set (b.heap subscriber).ID subscriber
  { b with subscribers := subscribers
           stats := { b.stats with ActiveSubscribers := subscribers.len } }

/-- The method `Bus.Unsubscribe`. -/
def Bus.Unsubscribe (b : Bus) (subscriberID : String) : Option Bus :=
  match b.subscribers.get? subscriberID with
  | some subscriber =>
    match (b.heap subscriber).Close with
    | none => none
    | some s =>
      let subscribers := b.subscribers.delete subscriberID
      some { heap := Function.update b.heap subscriber s
             subscribers := subscribers
             stats := { b.stats with ActiveSubscribers := subscribers.len } }
  | none => some b

/-- The first loop of `Bus.Publish`: the subscribers of the registry, in
iteration order, that should receive the frame. -/
def Bus.snapshot (b : Bus) (meetingID : String) (frame : AudioFrame) : List Ptr :=
  (b.subscribers.entries.filter
    (fun e => (b.heap e.2).ShouldReceive meetingID frame)).map (fun e => e.2)

/-- The second loop of `Bus.Publish`, over the matched subscribers, with the
counter `sent`; `clock i` is the value of `time.Now()` in the `i`-th iteration. -/
def Bus.deliver (frame : AudioFrame) : List Ptr → (Nat → Time) → Bus → Nat → Option (Bus × Nat)
  | [], _, b, sent => some (b, sent)
  | subscriber :: rest, clock, b, sent =>
    if !(b.heap subscriber).IsConnected then
      Bus.deliver frame rest (fun i => clock (i + 1)) b sent
    else
      match (b.heap subscriber).Send frame (clock 0) with
      | none => none
      | some (s, true) =>
        Bus.deliver frame rest (fun i => clock (i + 1))
          { b with heap := Function.update b.heap subscriber s } (sent + 1)
      | some (s, false) =>
        Bus.deliver frame rest (fun i => clock (i + 1))
          { b with heap := Function.update b.heap subscriber s
                   stats := { b.stats with
                     DroppedFrames := (b.stats.DroppedFrames + 1) % 2 ^ 64 } } sent

/-- The method `Bus.Publish`; `now` is the value of `time.Now()` read for the
statistics and `clock` the values read by the sends. -/
def Bus.Publish (b : Bus) (meetingID : String) (frame : AudioFrame) (now : Time)
    (clock : Nat → Time) : Option (Bus × Bool) :=
  let subscribers := b.snapshot meetingID frame
  let b := { b with stats := { b.stats with
    TotalFrames := (b.stats.TotalFrames + 1) % 2 ^ 64, LastFrameTime := now } }
  if subscribers.length = 0 then some (b, true)
  else
    match Bus.deliver frame subscribers clock b 0 with
    | none => none
    | some (b, sent) => some (b, decide (sent > 0))

/-- The method `Bus.GetSubscriber`. -/
def Bus.GetSubscriber (b : Bus) (subscriberID : String) : Option Ptr :=
  b.subscribers.get? subscriberID

/-- The method `Bus.GetSubscriberCount`. -/
def Bus.GetSubscriberCount (b : Bus) : Nat := b.subscribers.len

/-- The loop of `Bus.CleanupInactiveSubscribers` over the entries of the
registry, with the counter `removed`. -/
def Bus.cleanupLoop (now : Time) (timeout : Duration) :
    List (Sigma (fun _ : String => Ptr)) → Bus → Nat → Option (Bus × Nat)
  | [], b, removed => some (b, removed)
  | ⟨id, subscriber⟩ :: rest, b, removed =>
    if !(b.heap subscriber).IsConnected ||
        decide (Time.Sub now (b.heap subscriber).LastActivity > timeout) then
      match (b.heap subscriber).Close with
      | none => none
      | some s =>
        Bus.cleanupLoop now timeout rest
          { b with heap := Function.update b.heap subscriber s
                   subscribers := b.subscribers.delete id } (removed + 1)
    else Bus.cleanupLoop now timeout rest b removed

/-- The method `Bus.CleanupInactiveSubscribers`; `now` is the value of
`time.Now()`. -/
def Bus.CleanupInactiveSubscribers (b : Bus) (timeout : Duration) (now : Time) :
    Option (Bus × Nat) :=
  match Bus.cleanupLoop now timeout b.subscribers.entries b 0 with
  | none => none
  | some (b, removed) =>
    if removed > 0 then
      some ({ b with stats := { b.stats with ActiveSubscribers := b.subscribers.len } }, removed)
    else some (b, removed)

/-! ## Notions used to state the properties -/

/-- The subscriber `s` was made by `NewSubscriber` and its filters were set only
through the three setters, the last values set being `m`, `ts` and `us` (the
values of a fresh subscriber being the empty string and the empty lists). Sends
and `Close` may have happened in between. -/
inductive Subscriber.FiltersSet : Subscriber → String → List Nat → List Nat → Prop
  | new (id : String) (bufferSize : Nat) (now : Time) :
      Subscriber.FiltersSet (NewSubscriber id bufferSize now) "" [] []
  | meeting {s : Subscriber} {m : String} {ts us : List Nat} (m' : String) :
      Subscriber.FiltersSet s m ts us → Subscriber.FiltersSet (s.SetMeetingFilter m') m' ts us
  | types {s : Subscriber} {m : String} {ts us : List Nat} (ts' : List Nat) :
      Subscriber.FiltersSet s m ts us → Subscriber.FiltersSet (s.SetAudioTypeFilter ts') m ts' us
  | users {s : Subscriber} {m : String} {ts us : List Nat} (us' : List Nat) :
      Subscriber.FiltersSet s m ts us → Subscriber.FiltersSet (s.SetUserIDFilter us') m ts us'
  | send {s s' : Subscriber} {m : String} {ts us : List Nat} (frame : AudioFrame) (now : Time)
      (r : Bool) :
      Subscriber.FiltersSet s m ts us → s.Send frame now = some (s', r) →
      Subscriber.FiltersSet s' m ts us
  | close {s s' : Subscriber} {m : String} {ts us : List Nat} :
      Subscriber.FiltersSet s m ts us → s.Close = some s' → Subscriber.FiltersSet s' m ts us

/-- The queue of `s` has room for one more frame. -/
def Subscriber.hasRoom (s : Subscriber) : Bool :=
  decide (s.Channel.queue.length < s.Channel.cap)

/-- The subscriber `s` after it accepted `frame` at time `now`: the frame is
the new tail of the queue and `now` the last activity. -/
def Subscriber.accepted (s : Subscriber) (frame : AudioFrame) (now : Time) : Subscriber :=
  { s with Channel := { s.Channel with queue := s.Channel.queue ++ [frame] }
           LastActivity := now }

/-- A send to `s` is attempted and succeeds: `s` is connected and has room. -/
def Subscriber.accepts (s : Subscriber) : Bool := s.connected && s.hasRoom

/-- A send to `s` is attempted and fails: `s` is connected and its queue is
full. -/
def Subscriber.rejects (s : Subscriber) : Bool := s.connected && !s.hasRoom

/-- The channel of a connected subscriber is open. `NewSubscriber` establishes
it and `Close`, the only place that closes the channel, keeps it. -/
def Subscriber.Safe (s : Subscriber) : Prop :=
  s.connected = true → s.Channel.closed = false

instance (s : Subscriber) : Decidable s.Safe := by
  unfold Subscriber.Safe; exact inferInstance

/-- The registry holds every subscriber under its own `ID` (as `Subscribe`
stores it), the channel of every registered connected subscriber is open, and
the two `uint64` counters are in range. -/
def Bus.WF (b : Bus) : Prop :=
  (∀ e ∈ b.subscribers.entries, (b.heap e.2).ID = e.1 ∧ (b.heap e.2).Safe) ∧
  b.stats.TotalFrames < 2 ^ 64 ∧ b.stats.DroppedFrames < 2 ^ 64

instance (b : Bus) : Decidable b.WF := by
  unfold Bus.WF; exact inferInstance

/-- The subscriber at address `p` is in the registry. -/
def Bus.registered (b : Bus) (p : Ptr) : Prop :=
  ∃ id, b.subscribers.get? id = some p

/-- The test of the cleanup loop: `s` is disconnected, or its last activity is
more than `timeout` before `now`. -/
def Subscriber.inactive (s : Subscriber) (now : Time) (timeout : Duration) : Bool :=
  !s.IsConnected || decide (Time.Sub now s.LastActivity > timeout)

/-- The subscriber left by a `Close` that does not panic. -/
def Subscriber.afterClose (s : Subscriber) : Subscriber :=
  if s.connected then
    { s with connected := false, Channel := { s.Channel with closed := true } }
  else s

/-- The matched subscribers of a publication whose queue is full. -/
def Bus.fullMatches (b : Bus) (meetingID : String) (frame : AudioFrame) : List Ptr :=
  (b.snapshot meetingID frame).filter (fun p => !(b.heap p).hasRoom)

/-! ## Concrete states -/

/-- A frame of type one-way from speaker 7. -/
def oneWayFrame : AudioFrame := { Typ := AudioTypeOneWay, UserID := 7, Data := [1, 2] }

/-- Subscriber A of the scenario: it filters on the audio type mixed only. -/
def scenarioSubA : Subscriber := (NewSubscriber "A" 4 0).SetAudioTypeFilter [AudioTypeMixed]

/-- Subscriber B of the scenario: no filter. -/
def scenarioSubB : Subscriber := NewSubscriber "B" 4 0

/-- Subscriber C: no filter, a queue of capacity one that holds one frame. -/
def scenarioSubC : Subscriber := (NewSubscriber "C" 1 0).accepted oneWayFrame 1

/-- Subscriber B after `Close`. -/
def closedSubB : Subscriber :=
  { scenarioSubB with connected := false, Channel := { scenarioSubB.Channel with closed := true } }

/-- A memory with A at address 0, B at address 1, a second subscriber of
identity "A" at address 3 and C elsewhere. -/
def scenarioHeap : Ptr → Subscriber :=
  fun p => if p = 0 then scenarioSubA else if p = 1 then scenarioSubB
    else if p = 3 then NewSubscriber "A" 8 2 else scenarioSubC

/-- The bus of the scenario: A and B are subscribed. -/
def scenarioBus : Bus := ((NewBus scenarioHeap).Subscribe 0).Subscribe 1

/-- A bus on which B (with room) and C (full) are subscribed. -/
def fullQueueBus : Bus := ((NewBus scenarioHeap).Subscribe 1).Subscribe 2

/-- A bus on which only C (full) is subscribed. -/
def onlyFullBus : Bus := (NewBus scenarioHeap).Subscribe 2

/-- A `select` with one send case on `c` and a `default` case: the frame is
queued when there is room, otherwise the default case runs; on a closed channel
the send panics. The result tells whether the frame was queued. -/
def Chan.trySend (c : Chan) (frame : AudioFrame) : Option (Chan × Bool) :=
  if c.closed then none
  else if c.queue.length < c.cap then
    some ({ c with queue := c.queue ++ [frame] }, true)
  else some (c, false)

end Audio

/-!
# Meeting instances: `server/pkg/zoomsdk` (`meeting.go`, `bridge.go`, `manager.go`)

The native SDK is outside the model: a packet it delivers is an argument of the
callback, and the outcome of `MeetingInstance.Start` is an argument of
`Manager.JoinMeeting`. The bus an instance publishes to (`m.audioBus`, possibly
nil) is passed next to the instance.
-/

namespace Zoomsdk

open Audio

/-- The type `MeetingStatus` (an `int`). -/
abbrev MeetingStatus := Int

/-- The constant `StatusIdle`. -/
def StatusIdle : MeetingStatus := 0

/-- The constant `StatusConnecting`. -/
def StatusConnecting : MeetingStatus := 1

/-- The constant `StatusInMeeting`. -/
def StatusInMeeting : MeetingStatus := 3

/-- The constant `StatusReconnecting`. -/
def StatusReconnecting : MeetingStatus := 5

/-- The constant `StatusFailed`. -/
def StatusFailed : MeetingStatus := 6

/-- The constant `StatusEnded`. -/
def StatusEnded : MeetingStatus := 7

/-- The constant `StatusUnknown`. -/
def StatusUnknown : MeetingStatus := 8

/-- The struct `MeetingStats`; the three counters are `uint64`. -/
structure MeetingStats where
  StartTime : Time
  FramesReceived : Nat
  FramesDropped : Nat
  BytesReceived : Nat
  LastFrameTime : Time
deriving DecidableEq, Repr

/-- The struct `MeetingInstance`, without the SDK handles and the OS thread:
`stopChan` tells whether the channel of that name is closed. -/
structure MeetingInstance where
  meetingID : String
  audioChannel : Chan
  stopChan : Bool
  stopped : Bool
  stats : MeetingStats
deriving DecidableEq, Repr

/-- The function `NewMeetingInstance`; `now` is the value of `time.Now()`. -/
def NewMeetingInstance (meetingID : String) (now : Time) : MeetingInstance :=
  { meetingID := meetingID
    audioChannel := Chan.make 1000
    stopChan := false
    stopped := false
    stats := { StartTime := now, FramesReceived := 0, FramesDropped := 0, BytesReceived := 0,
               LastFrameTime := 0 } }

/-- The statistics update of the frame processor and of the relay:
`FramesReceived++`, `BytesReceived += uint64(len(frame.Data))`,
`LastFrameTime = time.Now()`. -/
def MeetingStats.received (st : MeetingStats) (frame : AudioFrame) (now : Time) : MeetingStats :=
  { st with FramesReceived := (st.FramesReceived + 1) % 2 ^ 64
            BytesReceived := (st.BytesReceived + frame.Data.length % 2 ^ 64) % 2 ^ 64
            LastFrameTime := now }

/-- The statement `FramesDropped++`. -/
def MeetingStats.dropped (st : MeetingStats) : MeetingStats :=
  { st with FramesDropped := (st.FramesDropped + 1) % 2 ^ 64 }

/-- One turn of the loop of `MeetingInstance.processAudioFrames` that takes the
receive case of the `select`: the oldest frame of `audioChannel` is received,
counted, and published when there is a bus. With an empty queue the receive
case is not ready and nothing happens. `now` is the time read for the
statistics, `pubNow` and `clock` the times read by `Publish`. -/
def MeetingInstance.processAudioFrames (m : MeetingInstance) (audioBus : Option Bus)
    (now pubNow : Time) (clock : Nat → Time) : Option (MeetingInstance × Option Bus) :=
  match m.audioChannel.queue with
  | [] => some (m, audioBus)
  | frame :: rest =>
    let m := { m with audioChannel := { m.audioChannel with queue := rest } }
    let m := { m with stats := m.stats.received frame now }
    match audioBus with
    | none => some (m, none)
    | some b =>
      match b.Publish m.meetingID frame pubNow clock with
      | none => none
      | some (b, published) =>
        if !published then some ({ m with stats := m.stats.dropped }, some b)
        else some (m, some b)

/-- The `select` at the end of `goOnAudioDataReceived`, on the instance the
handle routes to. -/
def MeetingInstance.enqueue (inst : MeetingInstance) (frame : AudioFrame) :
    Option MeetingInstance :=
  match inst.audioChannel.trySend frame with
  | none => none
  | some (c, _) => some { inst with audioChannel := c }

/-- The exported callback `goOnAudioDataReceived`. `handleRegistry` maps a
handle to the instance registered for it (no entry: `getMeetingInstance`
returns nil); `audioData` is the value of `C.GoBytes(data, length)`,
`audioType` a C `int` and `nodeID` a C `unsigned int`. -/
def goOnAudioDataReceived (handleRegistry : GoMap Nat MeetingInstance) (meetingHandle : Nat)
    (audioData : Bytes) (audioType : Int) (nodeID : Nat) : Option (GoMap Nat MeetingInstance) :=
  match handleRegistry.get? meetingHandle with
  | none => some handleRegistry
  | some inst =>
    let frame : AudioFrame :=
      { Typ := (audioType % 2 ^ 64).toNat, UserID := nodeID % 2 ^ 64, Data := audioData }
    match inst.enqueue frame with
    | none => none
    | some inst => some (handleRegistry.set meetingHandle inst)

/-- The error values of the two managers. -/
inductive ManagerError
  | alreadyExists (meetingID : String)
  | notFound (meetingID : String)
  | noAvailablePorts
  | failedToSpawn
  | failedToStart (meetingID : String)
deriving DecidableEq, Repr

/-- The struct `Manager` (in-process manager): the registry `meetings`, and the
number of instances created so far. -/
structure Manager where
  meetings : GoMap String MeetingInstance
  created : Nat

/-- The method `Manager.JoinMeeting`; `startOk` tells whether `instance.Start()`
succeeded and `now` is the value of `time.Now()`. The result is the new state
and the error returned (`none` for nil). -/
def Manager.JoinMeeting (m : Manager) (meetingID : String) (startOk : Bool) (now : Time) :
    Manager × Option ManagerError :=
  match m.meetings.get? meetingID with
  | some _ => (m, some (ManagerError.alreadyExists meetingID))
  | none =>
    let inst := NewMeetingInstance meetingID now
    let m := { m with created := m.created + 1 }
    if !startOk then (m, some (ManagerError.failedToStart meetingID))
    else
      match m.meetings.get? meetingID with
      | some _ => (m, some (ManagerError.alreadyExists meetingID))
      | none => ({ m with meetings := m.meetings.set meetingID inst }, none)

end Zoomsdk

/-!
# Process manager: `server/cmd/headless-meeting-bot/manager.go`

* A `*WorkerProcess` is an address into a memory of workers (`heap`); the
  addresses below `allocated` are the workers created so far.
* The two `sync.Map` fields are maps; every method of the manager runs as one
  step. What the operating system decides (whether the process starts, whether
  it answers the readiness probe, whether and how it exits) is an argument.
* The goroutine `monitorWorker` is the operation of the same name, run when the
  process exits; the argument `err` tells whether `cmd.Wait()` returned an error.
* Ports are natural numbers (Go `int`), `nextPort` is a `uint32`.
-/

namespace Main

open Audio Zoomsdk

/-- A `*WorkerProcess`. -/
abbrev WPtr := Nat

/-- The struct `WorkerProcess`. `stopChan` tells whether the channel of that
name is closed; `terminated` stands for the process handle (`cmd`, `cancel`):
whether `Stop` has sent SIGTERM and cancelled the context. -/
structure WorkerProcess where
  MeetingID : String
  Port : Nat
  PID : Nat
  Status : MeetingStatus
  Stats : MeetingStats
  stopChan : Bool
  stopped : Bool
  terminated : Bool
deriving DecidableEq, Repr

/-- The struct `ProcessManager` (credentials, binary path and callback URL
apart), together with the memory of its workers. -/
structure ProcessManager where
  heap : WPtr → WorkerProcess
  allocated : Nat
  workers : GoMap String WPtr
  usedPorts : GoMap Nat Bool
  nextPort : Nat
  basePort : Nat
  maxPort : Nat

/-- The function `NewProcessManager`, over a given memory. -/
def NewProcessManager (heap : WPtr → WorkerProcess) : ProcessManager :=
  { heap := heap
    allocated := 0
    workers := ∅
    usedPorts := ∅
    nextPort := 0
    basePort := 9000
    maxPort := 9999 }

/-- The loop of `allocatePort` with `n` iterations left. -/
def ProcessManager.allocatePortLoop : Nat → ProcessManager → ProcessManager × Nat
  | 0, pm => (pm, 0)
  | n + 1, pm =>
    let next := (pm.nextPort + 1) % 2 ^ 32
    let candidate := pm.basePort + next % (pm.maxPort - pm.basePort)
    let pm := { pm with nextPort := next }
    match pm.usedPorts.get? candidate with
    | some _ => ProcessManager.allocatePortLoop n pm
    | none => ({ pm with usedPorts := pm.usedPorts.set candidate true }, candidate)

/-- The method `ProcessManager.allocatePort`. -/
def ProcessManager.allocatePort (pm : ProcessManager) : ProcessManager × Nat :=
  ProcessManager.allocatePortLoop (pm.maxPort - pm.basePort) pm

/-- The statement `pm.usedPorts.Delete(port)`. -/
def ProcessManager.releasePort (pm : ProcessManager) (port : Nat) : ProcessManager :=
  { pm with usedPorts := pm.usedPorts.delete port }

/-- The method `WorkerProcess.Stop` (it always returns nil). -/
def WorkerProcess.Stop (w : WorkerProcess) : WorkerProcess :=
  if w.stopped then w
  else { w with Status := StatusEnded, stopped := true, terminated := true }

/-- The part of `monitorWorker` that acts on the worker: the status is set from
the result of `cmd.Wait()` and `stopChan` is closed (closing it twice panics). -/
def WorkerProcess.observeExit (w : WorkerProcess) (err : Bool) : Option WorkerProcess :=
  let w := { w with Status := if err then StatusFailed else StatusIdle }
  if w.stopChan then none else some { w with stopChan := true }

/-- The method `ProcessManager.monitorWorker`, from the return of `cmd.Wait()`
on. -/
def ProcessManager.monitorWorker (pm : ProcessManager) (worker : WPtr) (err : Bool) :
    Option ProcessManager :=
  match (pm.heap worker).observeExit err with
  | none => none
  | some w =>
    some { pm with heap := Function.update pm.heap worker w
                   workers := pm.workers.delete w.MeetingID
                   usedPorts := pm.usedPorts.delete w.Port }

/-- The value `&WorkerProcess{...}` built by `spawnWorker` for a started
process; `now` is the value of `time.Now()`. -/
def WorkerProcess.spawned (meetingID : String) (port pid : Nat) (now : Time) : WorkerProcess :=
  { MeetingID := meetingID
    Port := port
    PID := pid
    Status := StatusConnecting
    Stats := { StartTime := now, FramesReceived := 0, FramesDropped := 0,
               BytesReceived := 0, LastFrameTime := 0 }
    stopChan := false
    stopped := false
    terminated := false }

/-- What the operating system decides during `spawnWorker`: `cmd.Start()` fails,
or the process starts with identifier `pid`; then `exit` tells whether the
process exits, and how, while `spawnWorker` waits (the monitor then runs before
`spawnWorker` goes on), and `ready` whether `waitForWorkerReady` succeeds. -/
inductive SpawnOutcome
  | startFailed
  | started (pid : Nat) (exit : Option Bool) (ready : Bool)
deriving DecidableEq, Repr

/-- The method `ProcessManager.spawnWorker`; `now` is the value of `time.Now()`.
The second component is the worker returned (`none` for an error). -/
def ProcessManager.spawnWorker (pm : ProcessManager) (meetingID : String) (port : Nat)
    (out : SpawnOutcome) (now : Time) : Option (ProcessManager × Option WPtr) :=
  match out with
  | SpawnOutcome.startFailed => some (pm, none)
  | SpawnOutcome.started pid exit ready =>
    let worker := pm.allocated
    let w := WorkerProcess.spawned meetingID port pid now
    let pm := { pm with heap := Function.update pm.heap worker w, allocated := worker + 1 }
    let monitored : Option ProcessManager :=
      match exit with
      | none => some pm
      | some err => pm.monitorWorker worker err
    match monitored with
    | none => none
    | some pm =>
      if !ready then
        some ({ pm with heap := Function.update pm.heap worker (pm.heap worker).Stop }, none)
      else
        let w := pm.heap worker
        let w := { w with Status := StatusInMeeting }
        some ({ pm with heap := Function.update pm.heap worker w }, some worker)

/-- The end of `JoinMeeting`, from `LoadOrStore` on: the worker is stored under
`meetingID`, or, when there is an entry already, stopped and its port deleted. -/
def ProcessManager.register (pm : ProcessManager) (meetingID : String) (worker : WPtr)
    (port : Nat) : ProcessManager × Option ManagerError :=
  match pm.workers.get? meetingID with
  | some _ =>
    ({ pm with heap := Function.update pm.heap worker (pm.heap worker).Stop
               usedPorts := pm.usedPorts.delete port },
      some (ManagerError.alreadyExists meetingID))
  | none => ({ pm with workers := pm.workers.set meetingID worker }, none)

/-- The method `ProcessManager.JoinMeeting`; the result is the new state and the
error returned (`none` for nil). -/
def ProcessManager.JoinMeeting (pm : ProcessManager) (meetingID : String) (out : SpawnOutcome)
    (now : Time) : Option (ProcessManager × Option ManagerError) :=
  match pm.workers.get? meetingID with
  | some _ => some (pm, some (ManagerError.alreadyExists meetingID))
  | none =>
    let r := pm.allocatePort
    if r.2 = 0 then some (r.1, some ManagerError.noAvailablePorts)
    else
      match r.1.spawnWorker meetingID r.2 out now with
      | none => none
      | some (pm, none) =>
        some ({ pm with usedPorts := pm.usedPorts.delete r.2 }, some ManagerError.failedToSpawn)
      | some (pm, some worker) => some (pm.register meetingID worker r.2)

/-- The method `ProcessManager.LeaveMeeting`. -/
def ProcessManager.LeaveMeeting (pm : ProcessManager) (meetingID : String) :
    ProcessManager × Option ManagerError :=
  match pm.workers.get? meetingID with
  | none => (pm, some (ManagerError.notFound meetingID))
  | some worker =>
    ({ pm with workers := pm.workers.delete meetingID
               usedPorts := pm.usedPorts.delete (pm.heap worker).Port
               heap := Function.update pm.heap worker (pm.heap worker).Stop }, none)

/-- The method `ProcessManager.GetMeeting`. -/
def ProcessManager.GetMeeting (pm : ProcessManager) (meetingID : String) : Option WPtr :=
  pm.workers.get? meetingID

/-- The method `ProcessManager.GetMeetingStats`. -/
def ProcessManager.GetMeetingStats (pm : ProcessManager) (meetingID : String) :
    Except ManagerError MeetingStats :=
  match pm.workers.get? meetingID with
  | none => Except.error (ManagerError.notFound meetingID)
  | some worker => Except.ok (pm.heap worker).Stats

/-- The callback of `Range` in `Shutdown`, over the entries of the registry. -/
def ProcessManager.shutdownLoop :
    List (Sigma (fun _ : String => WPtr)) → ProcessManager → ProcessManager
  | [], pm => pm
  | ⟨id, worker⟩ :: rest, pm =>
    ProcessManager.shutdownLoop rest
      { pm with heap := Function.update pm.heap worker (pm.heap worker).Stop
                workers := pm.workers.delete id
                usedPorts := pm.usedPorts.delete (pm.heap worker).Port }

/-- The method `ProcessManager.Shutdown` (it always returns nil). -/
def ProcessManager.Shutdown (pm : ProcessManager) : ProcessManager :=
  ProcessManager.shutdownLoop pm.workers.entries pm

/-- The method `ProcessManager.GetMeetingCount`. -/
def ProcessManager.GetMeetingCount (pm : ProcessManager) : Nat := pm.workers.len

/-- The body of the loop of `streamAudioFromWorker` for one line, after the
test of `stopChan`. `decode` is `json.Unmarshal` into an `AudioFrame` (`none`
for an error), `audioBus` the bus `pm.audioBus` (possibly nil); `now` is the
time read for the statistics, `pubNow` and `clock` the times read by `Publish`. -/
def WorkerProcess.relayLine (decode : Bytes → Option AudioFrame) (w : WorkerProcess)
    (audioBus : Option Bus) (line : Bytes) (now pubNow : Time) (clock : Nat → Time) :
    Option (WorkerProcess × Option Bus) :=
  if line.length = 0 then some (w, audioBus)
  else
    match decode line with
    | none => some (w, audioBus)
    | some frame =>
      match audioBus with
      | none => some ({ w with Stats := w.Stats.received frame now }, none)
      | some b =>
        match b.Publish w.MeetingID frame pubNow clock with
        | none => none
        | some (b, published) =>
          let st := w.Stats.received frame now
          some ({ w with Stats := if !published then st.dropped else st }, some b)

/-- The loop of `streamAudioFromWorker` over the lines the scanner yields;
`now i`, `pubNow i` and `clock i` are the times read for the `i`-th line. -/
def WorkerProcess.relayLines (decode : Bytes → Option AudioFrame) :
    List Bytes → WorkerProcess → Option Bus → (Nat → Time) → (Nat → Time) → (Nat → Nat → Time) →
      Option (WorkerProcess × Option Bus)
  | [], w, audioBus, _, _, _ => some (w, audioBus)
  | line :: rest, w, audioBus, now, pubNow, clock =>
    if w.stopChan then some (w, audioBus)
    else
      match w.relayLine decode audioBus line (now 0) (pubNow 0) (clock 0) with
      | none => none
      | some (w, audioBus) =>
        WorkerProcess.relayLines decode rest w audioBus (fun i => now (i + 1))
          (fun i => pubNow (i + 1)) (fun i => clock (i + 1))

/-! ## Notions used to state the properties of the manager -/

/-- The candidate port of the first iteration of `allocatePort`. -/
def ProcessManager.firstCandidate (pm : ProcessManager) : Nat :=
  pm.basePort + ((pm.nextPort + 1) % 2 ^ 32) % (pm.maxPort - pm.basePort)

/-- A step of the life of one worker after it was spawned: the readiness probe
succeeded (`worker.Status = StatusInMeeting` in `spawnWorker`), `Stop` was
called, or the monitor observed the exit of the process. -/
inductive LifecycleStep
  | ready
  | stop
  | exit (err : Bool)
deriving DecidableEq, Repr

/-- The effect of one step on the worker. -/
def WorkerProcess.lifecycle (w : WorkerProcess) : LifecycleStep → Option WorkerProcess
  | LifecycleStep.ready => some { w with Status := StatusInMeeting }
  | LifecycleStep.stop => some w.Stop
  | LifecycleStep.exit err => w.observeExit err

/-- The worker after a sequence of steps (`none` when a step panics). -/
def WorkerProcess.run (w : WorkerProcess) : List LifecycleStep → Option WorkerProcess
  | [] => some w
  | step :: rest =>
    match w.lifecycle step with
    | none => none
    | some w => w.run rest

/-- The statuses the worker goes through: the status before each step and the
final one (the trace ends where a step panics). -/
def WorkerProcess.statusTrace (w : WorkerProcess) : List LifecycleStep → List MeetingStatus
  | [] => [w.Status]
  | step :: rest =>
    w.Status ::
      (match w.lifecycle step with
       | none => []
       | some w => w.statusTrace rest)

/-- The terminal statuses of the specification: Failed and Ended. -/
def terminal (s : MeetingStatus) : Bool := s == StatusFailed || s == StatusEnded

/-- The statuses a worker has once it was stopped or its exit observed. -/
def settled (s : MeetingStatus) : Bool :=
  s == StatusFailed || s == StatusEnded || s == StatusIdle

/-- The number of times a trace of statuses enters the set `P`: goes from a
status outside `P` to one inside. -/
def enters (P : MeetingStatus → Bool) : List MeetingStatus → Nat
  | a :: b :: rest => (if !P a && P b then 1 else 0) + enters P (b :: rest)
  | _ => 0

/-- A trace of statuses leaves the set `P`: goes from a status inside `P` to
one outside. -/
def leaves (P : MeetingStatus → Bool) : List MeetingStatus → Bool
  | a :: b :: rest => (P a && !P b) || leaves P (b :: rest)
  | _ => false

/-! ## Concrete states of the manager -/

/-- The zero value of `WorkerProcess`. -/
def zeroWorker : WorkerProcess :=
  { MeetingID := "", Port := 0, PID := 0, Status := StatusIdle
    Stats := { StartTime := 0, FramesReceived := 0, FramesDropped := 0, BytesReceived := 0,
               LastFrameTime := 0 }
    stopChan := false, stopped := false, terminated := false }

/-- The manager made by `NewProcessManager`. -/
def freshManager : ProcessManager := NewProcessManager (fun _ => zeroWorker)

/-- A manager with the ports 9000, 9001 and 9002 to probe. -/
def smallManager : ProcessManager := { freshManager with maxPort := 9003 }

/-- The map of claimed ports that holds `base`, ..., `base + n - 1`. -/
def claimedPorts (base n : Nat) : GoMap Nat Bool :=
  ((List.range n).map (fun r => (⟨base + r, true⟩ : Sigma (fun _ : Nat => Bool)))).toAList

/-- The default manager when the ports 9000 to 9998 are claimed and 9999 is
not. -/
def exhaustedManager : ProcessManager :=
  { freshManager with usedPorts := claimedPorts 9000 999 }

/-- The default manager when the counter is about to wrap and the ports 9000
to 9997 are claimed. -/
def wrapManager : ProcessManager :=
  { freshManager with nextPort := 2 ^ 32 - 2, usedPorts := claimedPorts 9000 998 }

/-- The manager after a `JoinMeeting("m1")` on the fresh manager whose process
did not start: the port allocated was claimed and deleted again. -/
def failedJoinManager : ProcessManager :=
  { freshManager.allocatePort.1 with
    usedPorts := freshManager.allocatePort.1.usedPorts.delete freshManager.allocatePort.2 }

/-- The worker spawned for meeting "m1" on port 9001. -/
def workerM1 : WorkerProcess := WorkerProcess.spawned "m1" 9001 4242 0

/-- The manager after a successful `JoinMeeting("m1")` on the fresh manager. -/
def joinedManager : ProcessManager :=
  match freshManager.JoinMeeting "m1" (SpawnOutcome.started 4242 none true) 0 with
  | some (pm, _) => pm
  | none => freshManager

end Main

namespace Zoomsdk

/-- An instance whose intake queue holds 1000 frames, its capacity. -/
def fullInstance : MeetingInstance :=
  { NewMeetingInstance "m1" 0 with
    audioChannel := { cap := 1000, queue := List.replicate 1000 Audio.oneWayFrame,
                      closed := false } }

/-- A handle registry in which handle 1 routes to `fullInstance`. -/
def fullRegistry : Audio.GoMap Nat MeetingInstance :=
  (∅ : Audio.GoMap Nat MeetingInstance).set 1 fullInstance

end Zoomsdk

namespace Audio

/-- The method `AudioType.String`; an `AudioType` is a `uint64`. -/
def AudioType.String (t : Nat) : String :=
  if t = AudioTypeMixed then "mixed"
  else if t = AudioTypeOneWay then "one_way"
  else if t = AudioTypeShare then "share"
  else "unknown"

end Audio

namespace Main

open Audio Zoomsdk

/-- The ports returned by `n` successive calls of `allocatePort` with no release
in between, in the order of the calls, and the manager after them. -/
def ProcessManager.allocatePorts : Nat → ProcessManager → ProcessManager × List Nat
  | 0, pm => (pm, [])
  | n + 1, pm =>
    let r := pm.allocatePort
    let rest := ProcessManager.allocatePorts n r.1
    (rest.1, r.2 :: rest.2)

/-- The manager after a successful `JoinMeeting(meetingID)` whose process got the
identifier `pid` and is still running; the manager itself when the call fails. -/
def ProcessManager.joined (pm : ProcessManager) (meetingID : String) (pid : Nat) :
    ProcessManager :=
  match pm.JoinMeeting meetingID (SpawnOutcome.started pid none true) 0 with
  | some (pm, none) => pm
  | _ => pm

/-- The default manager after `JoinMeeting("m1")`, `LeaveMeeting("m1")` and a
second `JoinMeeting("m1")`: worker 0 is the worker that was left (its process
has not exited yet), worker 1 the worker of the second join. -/
def rejoinedManager : ProcessManager :=
  ((freshManager.joined "m1" 4242).LeaveMeeting "m1").1.joined "m1" 4343

/-- The manager with three ports after `JoinMeeting("m1")`, `LeaveMeeting("m1")`
and the joins of "m2", "m3" and "m4": worker 0 is the worker that was left, and
its port 9001 is now the port of worker 3, the worker of "m4". -/
def reusedPortManager : ProcessManager :=
  (((((smallManager.joined "m1" 1).LeaveMeeting "m1").1.joined "m2" 2).joined "m3" 3).joined
    "m4" 4)

end Main

/-!
# Streaming server: `server/pkg/server`

A shallow embedding of `protocol.go`, `ws.go`, `router.go` and the join handler
of `http.go`.

* A JSON document written by `encoding/json` is the list of its members, in the
  order in which they are written; the text of the document is not modelled.
* What the standard library decides on data of the request is an argument:
  `sscanf` is `fmt.Sscanf(s, "%d", &userID)` for a `uint64`, `decode` is the JSON
  decoder on the request body.
* The writer `Client.writePump` is a function of the events its `select` takes,
  in the order in which it takes them; the connection records the messages
  written, and `failAt` tells which call of `WriteMessage`, if any, is the first
  to return an error.
* The `range` over a map visits the entries of the association list in order.
* The interface `zoomsdk.MeetingManager` is a state of any type together with
  its method `JoinMeeting`.
-/

namespace Server

open Audio

/-! ## protocol.go -/

/-- A value of a member of the JSON documents written: a string or an
integer. -/
inductive JsonValue
  | str (s : String)
  | num (n : Int)
deriving DecidableEq, Repr

/-- A JSON object: its members in the order in which they are written. -/
abbrev JsonObject := List (String × JsonValue)

/-- The constant `MessageTypeAudioFormat`. -/
def MessageTypeAudioFormat : String := "audio_format"

/-- The struct `AudioFormatMessage` (`Typ` is the field `Type`). -/
structure AudioFormatMessage where
  Typ : String
  SampleRate : Int
  Channels : Int
  SampleFormat : String
deriving DecidableEq, Repr

/-- The call `json.Marshal(msg)` on an `AudioFormatMessage`: one member for each
field, named by the tag of the field, in the order of the fields. -/
def AudioFormatMessage.Marshal (msg : AudioFormatMessage) : Except String JsonObject :=
  Except.ok [("type", JsonValue.str msg.Typ), ("sample_rate", JsonValue.num msg.SampleRate),
    ("channels", JsonValue.num msg.Channels), ("sample_format", JsonValue.str msg.SampleFormat)]

/-- The function `CreateAudioFormatMessage`. -/
def CreateAudioFormatMessage (sampleRate channels : Int) : Except String JsonObject :=
  let msg : AudioFormatMessage :=
    { Typ := MessageTypeAudioFormat
      SampleRate := sampleRate
      Channels := channels
      SampleFormat := "s16le" }
  msg.Marshal

/-- The struct `ConnectionConfig`. -/
structure ConnectionConfig where
  MeetingID : String
  AudioTypes : List Nat
  UserIDs : List Nat
  QueueSize : Int
  EnableHeartbeat : Bool
  HeartbeatInterval : Int
deriving DecidableEq, Repr

/-- The body of the loop over the values of the parameter `type`. -/
def ParseConnectionConfig.addType (config : ConnectionConfig) (typeStr : String) :
    ConnectionConfig :=
  if typeStr = "mixed" then
    { config with AudioTypes := config.AudioTypes ++ [AudioTypeMixed] }
  else if typeStr = "one_way" then
    { config with AudioTypes := config.AudioTypes ++ [AudioTypeOneWay] }
  else if typeStr = "share" then
    { config with AudioTypes := config.AudioTypes ++ [AudioTypeShare] }
  else config

/-- The body of the loop over the values of the parameter `user_id`; `sscanf` is
`fmt.Sscanf(userIDStr, "%d", &userID)`, `none` for an error. -/
def ParseConnectionConfig.addUserID (sscanf : String → Option Nat) (config : ConnectionConfig)
    (userIDStr : String) : ConnectionConfig :=
  match sscanf userIDStr with
  | some userID => { config with UserIDs := config.UserIDs ++ [userID] }
  | none => config

/-- The function `ParseConnectionConfig`. -/
def ParseConnectionConfig (sscanf : String → Option Nat) (params : GoMap String (List String)) :
    ConnectionConfig :=
  let config : ConnectionConfig :=
    { MeetingID := "", AudioTypes := [], UserIDs := []
      QueueSize := 1000
      EnableHeartbeat := true
      HeartbeatInterval := 30 }
  let config :=
    match params.get? "meeting_id" with
    | some (meetingID :: _) => { config with MeetingID := meetingID }
    | _ => config
  let config :=
    match params.get? "type" with
    | some types => types.foldl ParseConnectionConfig.addType config
    | none => config
  let config :=
    match params.get? "user_id" with
    | some userIDs => userIDs.foldl (ParseConnectionConfig.addUserID sscanf) config
    | none => config
  config

/-! ## ws.go -/

/-- The fields of `config.Config` that a client reads for its messages. -/
structure Config where
  AudioSampleRate : Int
  AudioChannels : Int
deriving DecidableEq, Repr

/-- The subscriber that `Client.Process` makes and subscribes: its first four
statements. `id` is the client's `ID`, `now` the value of `time.Now()`. -/
def Client.subscriber (id : String) (config : ConnectionConfig) (now : Time) : Subscriber :=
  (((NewSubscriber id config.QueueSize.toNat now).SetMeetingFilter
    config.MeetingID).SetAudioTypeFilter config.AudioTypes).SetUserIDFilter config.UserIDs

/-- A value sent on `sendChan` (a `chan interface{}`): a `[]byte` holding a JSON
document, or a `*audio.AudioFrame`. -/
inductive SendItem
  | text (msg : JsonObject)
  | frame (f : AudioFrame)
deriving DecidableEq, Repr

/-- The loop of `Client.Process` over the frames read from the subscriber's
channel: `room i` tells whether the `select` of frame `i` takes its send case
(there is room in `sendChan`) or its default case (the frame is dropped). -/
def Client.forward : List AudioFrame → (Nat → Bool) → List SendItem
  | [], _ => []
  | frame :: rest, room =>
    (if room 0 then [SendItem.frame frame] else []) ++
      Client.forward rest (fun i => room (i + 1))

/-- The method `Client.Process`, from `CreateAudioFormatMessage` on: the values
it sends on `sendChan`, in order, when it reads `frames` from the subscriber's
channel. -/
def Client.Process (cfg : Config) (frames : List AudioFrame) (room : Nat → Bool) :
    List SendItem :=
  (match CreateAudioFormatMessage cfg.AudioSampleRate cfg.AudioChannels with
   | Except.ok formatMsg => [SendItem.text formatMsg]
   | Except.error _ => []) ++ Client.forward frames room

/-- A message handed to `conn.WriteMessage`: a text message, a binary message, a
ping or a close message. -/
inductive WsMessage
  | text (msg : JsonObject)
  | binary (data : Bytes)
  | ping
  | close
deriving DecidableEq, Repr

/-- The connection: the messages written so far, and the number of messages
after which `WriteMessage` returns an error (`none`: it never does). -/
structure Conn where
  written : List WsMessage
  failAt : Option Nat
deriving DecidableEq, Repr

/-- The method `conn.WriteMessage`; the second component tells whether it
returned nil. -/
def Conn.WriteMessage (c : Conn) (m : WsMessage) : Conn × Bool :=
  if c.failAt = some c.written.length then (c, false)
  else ({ c with written := c.written ++ [m] }, true)

/-- The state of `Client.writePump`: the local `userBuffers`, the connection,
and whether the function has returned. -/
structure PumpState where
  userBuffers : GoMap Nat (GoMap Nat Bytes)
  conn : Conn
  returned : Bool

/-- The state in which `writePump` enters its loop. -/
def PumpState.init (failAt : Option Nat) : PumpState :=
  { userBuffers := ∅, conn := { written := [], failAt := failAt }, returned := false }

/-- The case of `writePump` for a `*audio.AudioFrame`: the payload is appended
to the buffer of the frame's speaker and type. -/
def accumulate (userBuffers : GoMap Nat (GoMap Nat Bytes)) (msg : AudioFrame) :
    GoMap Nat (GoMap Nat Bytes) :=
  let userBuffers :=
    match userBuffers.get? msg.UserID with
    | none => userBuffers.set msg.UserID ∅
    | some _ => userBuffers
  userBuffers.set msg.UserID
    ((userBuffers.index msg.UserID).set msg.Typ
      ((userBuffers.index msg.UserID).index msg.Typ ++ msg.Data))

/-- The inner loop of the flush, `for t, buf := range typeMap`, over the entries
of the map of `userID` not yet visited. -/
def flushTypes (userID : Nat) : List (Sigma (fun _ : Nat => Bytes)) → PumpState → PumpState
  | [], st => st
  | ⟨t, buf⟩ :: rest, st =>
    if buf.length = 0 then flushTypes userID rest st
    else
      let frame : AudioFrame := { UserID := userID, Typ := t, Data := buf }
      let out := frame.Encode
      match st.conn.WriteMessage (WsMessage.binary out) with
      | (conn, false) => { st with conn := conn, returned := true }
      | (conn, true) =>
        flushTypes userID rest
          { st with conn := conn
                    userBuffers := st.userBuffers.set userID
                      ((st.userBuffers.index userID).set t []) }

/-- The outer loop of the flush, `for userID, typeMap := range userBuffers`. -/
def flushUsers : List (Sigma (fun _ : Nat => GoMap Nat Bytes)) → PumpState → PumpState
  | [], st => st
  | ⟨userID, typeMap⟩ :: rest, st =>
    let st := flushTypes userID typeMap.entries st
    if st.returned then st else flushUsers rest st

/-- An event taken by the `select` of `writePump`: a value received from
`sendChan`, `sendChan` found closed, a tick of the flush ticker, a tick of the
ping ticker, `stopChan` found closed. -/
inductive PumpEvent
  | recv (item : SendItem)
  | closed
  | flush
  | ping
  | stop
deriving DecidableEq, Repr

/-- One turn of the loop of `writePump`. -/
def PumpState.step (st : PumpState) : PumpEvent → PumpState
  | PumpEvent.recv (SendItem.text msg) =>
    match st.conn.WriteMessage (WsMessage.text msg) with
    | (conn, false) => { st with conn := conn, returned := true }
    | (conn, true) => { st with conn := conn }
  | PumpEvent.recv (SendItem.frame msg) =>
    { st with userBuffers := accumulate st.userBuffers msg }
  | PumpEvent.closed =>
    { st with conn := (st.conn.WriteMessage WsMessage.close).1, returned := true }
  | PumpEvent.flush => flushUsers st.userBuffers.entries st
  | PumpEvent.ping =>
    match st.conn.WriteMessage WsMessage.ping with
    | (conn, false) => { st with conn := conn, returned := true }
    | (conn, true) => { st with conn := conn }
  | PumpEvent.stop => { st with returned := true }

/-- The loop of `Client.writePump` over the events it takes. -/
def Client.writePump : List PumpEvent → PumpState → PumpState
  | [], st => st
  | ev :: rest, st => if st.returned then st else Client.writePump rest (st.step ev)

/-! ## router.go -/

/-- The function `strings.HasPrefix`. -/
def HasPrefix (s pre : String) : Bool := pre.data.isPrefixOf s.data

/-- The function `strings.HasSuffix`. -/
def HasSuffix (s suf : String) : Bool := suf.data.isSuffixOf s.data

/-- The function `strings.TrimPrefix`. -/
def TrimPrefix (s pre : String) : String :=
  if HasPrefix s pre then String.mk (s.data.drop pre.data.length) else s

/-- The function `strings.TrimSuffix`. -/
def TrimSuffix (s suf : String) : String :=
  if HasSuffix s suf then String.mk (s.data.take (s.data.length - suf.data.length)) else s

/-- The pieces of a list of characters between the occurrences of `sep`. -/
def splitChars (sep : Char) : List Char → List (List Char)
  | [] => [[]]
  | c :: cs =>
    if c = sep then [] :: splitChars sep cs
    else
      match splitChars sep cs with
      | [] => [[c]]
      | seg :: segs => (c :: seg) :: segs

/-- The function `strings.Split(s, sep)` for a separator of one character. -/
def Split (s : String) (sep : Char) : List String := (splitChars sep s.data).map String.mk

/-- The type `Params`. -/
abbrev Params := GoMap String String

/-- The function `GetPathParam`; `params` is the value stored in the context of
the request under `paramsContextKey`, if any. -/
def GetPathParam (params : Option Params) (name : String) : String :=
  match params with
  | none => ""
  | some params => params.index name

/-- The struct `route`, for handlers of type `η`. -/
structure route (η : Type) where
  pattern : String
  parts : List String
  handler : η

/-- The struct `ParamRouter`. -/
structure ParamRouter (η : Type) where
  routes : List (route η)

/-- The function `NewParamRouter`. -/
def NewParamRouter (η : Type) : ParamRouter η := { routes := [] }

/-- The function `splitPath`. -/
def splitPath (p : String) : List String :=
  if p = "" ∨ p = "/" then [""]
  else
    let p := if !HasPrefix p "/" then "/" ++ p else p
    Split p '/'

/-- The function `isParam`. -/
def isParam (seg : String) : Bool :=
  HasPrefix seg "\x7b" && HasSuffix seg "\x7d" && decide (seg.utf8ByteSize > 2)

/-- The method `ParamRouter.Handle`. -/
def ParamRouter.Handle {η : Type} (rtr : ParamRouter η) (pattern : String) (handler : η) :
    ParamRouter η :=
  let pattern := TrimSuffix pattern "/"
  let parts := splitPath pattern
  { routes := rtr.routes ++ [{ pattern := pattern, parts := parts, handler := handler }] }

/-- The name bound by a parameter segment. -/
def paramName (pp : String) : String := TrimSuffix (TrimPrefix pp "\x7b") "\x7d"

/-- The inner loop of `ServeHTTP` over the segments of a route and of the path,
from index `i` on (the lists are what is left of `rt.parts` and `inParts`, which
have the same length): the parameters bound, or `none` when `matched` is
false. -/
def matchParts : List String → List String → Params → Option Params
  | pp :: pps, ip :: ips, params =>
    if isParam pp then matchParts pps ips (params.set (paramName pp) ip)
    else if pp != ip then none
    else matchParts pps ips params
  | _, _, params => some params

/-- What `ServeHTTP` does with a request: it calls a handler on the request
with the parameters in its context, or answers 404 through `http.NotFound`. -/
inductive Served (η : Type)
  | handled (handler : η) (params : Params)
  | notFound

/-- The loop of `ServeHTTP` over the routes. -/
def serveRoutes {η : Type} : List (route η) → List String → Served η
  | [], _ => Served.notFound
  | rt :: rest, inParts =>
    if rt.parts.length != inParts.length then serveRoutes rest inParts
    else
      match matchParts rt.parts inParts ∅ with
      | some params => Served.handled rt.handler params
      | none => serveRoutes rest inParts

/-- The method `ParamRouter.ServeHTTP`; `urlPath` is `r.URL.Path`. -/
def ParamRouter.ServeHTTP {η : Type} (rtr : ParamRouter η) (urlPath : String) : Served η :=
  let path := TrimSuffix urlPath "/"
  let inParts := splitPath path
  serveRoutes rtr.routes inParts

/-! ## http.go -/

/-- The struct `JoinMeetingRequest`. -/
structure JoinMeetingRequest where
  MeetingID : String
  Password : String
  DisplayName : String
  JoinToken : String
deriving DecidableEq, Repr

/-- The body of a response: the text written by `http.Error` (a line holding the
error text), or a JSON document written by a `json.Encoder`. -/
inductive ResponseBody
  | text (error : String)
  | json (doc : JsonObject)
deriving DecidableEq, Repr

/-- The response written to the `http.ResponseWriter`. -/
structure Response where
  code : Nat
  contentType : String
  body : ResponseBody
deriving DecidableEq, Repr

/-- The function `http.Error`. -/
def httpError (error : String) (code : Nat) : Response :=
  { code := code, contentType := "text/plain; charset=utf-8", body := ResponseBody.text error }

/-- The constant `http.StatusBadRequest`. -/
def StatusBadRequest : Nat := 400

/-- The constant `http.StatusInternalServerError`. -/
def StatusInternalServerError : Nat := 500

/-- The constant `http.StatusAccepted`. -/
def StatusAccepted : Nat := 202

/-- The method `JoinMeeting` of the interface `zoomsdk.MeetingManager`, on a
manager whose state has type `σ`; the error returned is its text. -/
abbrev JoinMeetingMethod (σ : Type) :=
  σ → String → String → String → String → Bool → Bool → σ × Option String

/-- The method `HTTPServer.handleJoinMeeting`; `decode` is
`json.NewDecoder(r.Body).Decode(&req)` (`none` for an error), `body` the body of
the request, `meetingManager` the state of the manager. -/
def HTTPServer.handleJoinMeeting {σ : Type} (JoinMeeting : JoinMeetingMethod σ)
    (decode : Bytes → Option JoinMeetingRequest) (meetingManager : σ) (body : Bytes) :
    σ × Response :=
  match decode body with
  | none => (meetingManager, httpError "Invalid request body" StatusBadRequest)
  | some req =>
    if req.MeetingID = "" then
      (meetingManager, httpError "Meeting ID is required" StatusBadRequest)
    else
      match JoinMeeting meetingManager req.MeetingID req.Password req.DisplayName
          req.JoinToken true false with
      | (meetingManager, some err) =>
        (meetingManager, httpError err StatusInternalServerError)
      | (meetingManager, none) =>
        (meetingManager,
          { code := StatusAccepted, contentType := "application/json"
            body := ResponseBody.json [("status", JsonValue.str "joining")] })

/-! ## Notions used to state the properties of the server -/

/-- The code of a recognised value of the parameter `type`. -/
def audioTypeOfString (typeStr : String) : Option Nat :=
  if typeStr = "mixed" then some 0
  else if typeStr = "one_way" then some 1
  else if typeStr = "share" then some 2
  else none

/-- The content of the buffer of a speaker and an audio type (empty when there
is none). -/
def PumpState.buffer (st : PumpState) (userID t : Nat) : Bytes :=
  (st.userBuffers.index userID).index t

/-- The payloads of the frames of one speaker and one audio type, concatenated
in the order of the list. -/
def payload : List AudioFrame → Nat → Nat → Bytes
  | [], _, _ => []
  | f :: rest, userID, t =>
    (if f.UserID = userID ∧ f.Typ = t then f.Data else []) ++ payload rest userID t

/-- The frames a flush builds from the entries of the map of one speaker: one
for each buffer that is not empty. -/
def pendingTypes (userID : Nat) : List (Sigma (fun _ : Nat => Bytes)) → List AudioFrame
  | [] => []
  | ⟨t, buf⟩ :: rest =>
    if buf.length = 0 then pendingTypes userID rest
    else { Typ := t, UserID := userID, Data := buf } :: pendingTypes userID rest

/-- The frames a flush builds from the entries of `userBuffers`. -/
def pendingFrames : List (Sigma (fun _ : Nat => GoMap Nat Bytes)) → List AudioFrame
  | [] => []
  | ⟨userID, typeMap⟩ :: rest => pendingTypes userID typeMap.entries ++ pendingFrames rest

/-- The events of receiving the frames of a list, in order. -/
def recvFrames (frames : List AudioFrame) : List PumpEvent :=
  frames.map (fun f => PumpEvent.recv (SendItem.frame f))

/-- The frames received in a list of events, in order. -/
def framesOf : List PumpEvent → List AudioFrame
  | [] => []
  | PumpEvent.recv (SendItem.frame f) :: rest => f :: framesOf rest
  | _ :: rest => framesOf rest

/-- The values received from `sendChan` in a list of events, in order. -/
def itemsOf : List PumpEvent → List SendItem
  | [] => []
  | PumpEvent.recv item :: rest => item :: itemsOf rest
  | _ :: rest => itemsOf rest

/-- The events of the audio path: the receipt of a frame and the flush tick. -/
def PumpEvent.isAudio : PumpEvent → Bool
  | PumpEvent.recv (SendItem.frame _) => true
  | PumpEvent.flush => true
  | _ => false

/-- The audio-format message of a configuration. -/
def formatMessage (cfg : Config) : JsonObject :=
  [("type", JsonValue.str "audio_format"), ("sample_rate", JsonValue.num cfg.AudioSampleRate),
    ("channels", JsonValue.num cfg.AudioChannels), ("sample_format", JsonValue.str "s16le")]

/-- The text and binary messages among the messages written (pings and close
messages are control messages). -/
def dataMessages (written : List WsMessage) : List WsMessage :=
  written.filter (fun m => m != WsMessage.ping && m != WsMessage.close)

/-- A route matches the segments of a path: as many segments, and every segment
of the route that is not a parameter equals the segment of the path at its
position. -/
def segmentsMatch : List String → List String → Bool
  | [], [] => true
  | pp :: pps, ip :: ips => (isParam pp || pp == ip) && segmentsMatch pps ips
  | _, _ => false

/-- A manager that records the calls of `JoinMeeting` and answers `result`. -/
def recordingJoin (result : Option String) : JoinMeetingMethod (List JoinMeetingRequest) :=
  fun calls meetingID password displayName joinToken _ _ =>
    (calls ++ [{ MeetingID := meetingID, Password := password, DisplayName := displayName
                 JoinToken := joinToken }], result)

/-! ## Concrete inputs of the server -/

/-- Three frames of speaker 7 and type one-way. -/
def threePackets : List AudioFrame :=
  [{ Typ := AudioTypeOneWay, UserID := 7, Data := [1, 2] },
   { Typ := AudioTypeOneWay, UserID := 7, Data := [3] },
   { Typ := AudioTypeOneWay, UserID := 7, Data := [4, 5] }]

/-- A session: a ping tick and a flush tick, the format message, two frames, a
flush tick, a third frame and a flush tick. -/
def sessionEvents : List PumpEvent :=
  [PumpEvent.ping, PumpEvent.flush,
   PumpEvent.recv (SendItem.text
     [("type", JsonValue.str "audio_format"), ("sample_rate", JsonValue.num 32000),
      ("channels", JsonValue.num 1), ("sample_format", JsonValue.str "s16le")]),
   PumpEvent.recv (SendItem.frame { Typ := AudioTypeOneWay, UserID := 7, Data := [1, 2] }),
   PumpEvent.recv (SendItem.frame { Typ := AudioTypeOneWay, UserID := 7, Data := [3] }),
   PumpEvent.flush,
   PumpEvent.recv (SendItem.frame { Typ := AudioTypeOneWay, UserID := 7, Data := [4, 5] }),
   PumpEvent.flush]

/-- Frames of two speakers and flush ticks. -/
def audioEvents : List PumpEvent :=
  [PumpEvent.recv (SendItem.frame { Typ := AudioTypeOneWay, UserID := 7, Data := [1, 2] }),
   PumpEvent.recv (SendItem.frame { Typ := AudioTypeMixed, UserID := 0, Data := [9] }),
   PumpEvent.flush,
   PumpEvent.recv (SendItem.frame { Typ := AudioTypeOneWay, UserID := 7, Data := [3] })]

/-- The configuration made by `config.Load` without environment variables. -/
def defaultConfig : Config := { AudioSampleRate := 32000, AudioChannels := 1 }

/-- Query parameters with three values of `type`, one of them recognised. -/
def typeParams : GoMap String (List String) :=
  (∅ : GoMap String (List String)).set "type" ["stereo", "one_way", "MIXED"]

/-- The router of `registerRoutes`, with handlers named by strings. -/
def wsRouter : ParamRouter String :=
  (NewParamRouter String).Handle "/ws/audio/\x7bmeeting_id\x7d" "HandleConnection"

end Server

namespace Zoomsdk

/-- The values a Go `MeetingStats` can hold: the three counters fit 64 bits. -/
def MeetingStats.WF (st : MeetingStats) : Prop :=
  st.FramesReceived < 2 ^ 64 ∧ st.FramesDropped < 2 ^ 64 ∧ st.BytesReceived < 2 ^ 64

instance (st : MeetingStats) : Decidable st.WF := by
  unfold MeetingStats.WF; exact inferInstance

/-- The first `n` turns of the loop of `MeetingInstance.processAudioFrames`, each
taking the receive case of the `select`; `now i`, `pubNow i` and `clock i` are
the times read in turn `i`. -/
def MeetingInstance.processTurns :
    Nat → MeetingInstance → Option Audio.Bus → (Nat → Audio.Time) → (Nat → Audio.Time) →
      (Nat → Nat → Audio.Time) → Option (MeetingInstance × Option Audio.Bus)
  | 0, m, audioBus, _, _, _ => some (m, audioBus)
  | n + 1, m, audioBus, now, pubNow, clock =>
    match m.processAudioFrames audioBus (now 0) (pubNow 0) (clock 0) with
    | none => none
    | some (m, audioBus) =>
      MeetingInstance.processTurns n m audioBus (fun i => now (i + 1))
        (fun i => pubNow (i + 1)) (fun i => clock (i + 1))

/-- An instance with three frames in its intake queue. -/
def queuedInstance : MeetingInstance :=
  { NewMeetingInstance "m1" 0 with
    audioChannel := { cap := 1000
                      queue := [Audio.oneWayFrame, Audio.oneWayFrame, Audio.oneWayFrame]
                      closed := false } }

end Zoomsdk

namespace Main

open Audio Zoomsdk

/-- The manager after `n` calls of `JoinMeeting("f")` whose process does not
start (`cmd.Start()` fails). -/
def ProcessManager.failedJoins : Nat → ProcessManager → ProcessManager
  | 0, pm => pm
  | n + 1, pm =>
    match pm.JoinMeeting "f" SpawnOutcome.startFailed 0 with
    | some (pm, _) => ProcessManager.failedJoins n pm
    | none => pm

/-- The default manager after `JoinMeeting("x")` (worker 0, port 9001) and
`LeaveMeeting("x")`: the port was deleted and the worker stopped, its process
has not exited yet. -/
def staleLeft : ProcessManager := ((freshManager.joined "x" 1).LeaveMeeting "x").1

/-- Then 998 joins whose process does not start move the counter on, and
`JoinMeeting("y")` gives port 9001 to worker 1. -/
def staleRejoined : ProcessManager := (ProcessManager.failedJoins 998 staleLeft).joined "y" 2

/-- Then the process of worker 0 exits and its monitor runs. -/
def staleReleased : ProcessManager :=
  match staleRejoined.monitorWorker 0 false with
  | some pm => pm
  | none => staleRejoined

/-- Then 998 more joins whose process does not start, and `JoinMeeting("z")`
(worker 2). -/
def staleDoubled : ProcessManager := (ProcessManager.failedJoins 998 staleReleased).joined "z" 3

/-- The number of payload bytes of a list of frames. -/
def payloadBytes (frames : List AudioFrame) : Nat := (frames.map (fun f => f.Data.length)).sum

/-- The frames the relay decodes from the lines it reads: a line that is empty
or does not decode gives none. -/
def relayFrames (decode : Bytes → Option AudioFrame) (lines : List Bytes) : List AudioFrame :=
  lines.filterMap (fun line => if line.length = 0 then none else decode line)

/-- Four lines of a worker's stream: a frame, an empty line, a line that does
not decode (its first byte is 0) and a frame. -/
def relayedLines : List Bytes := [[1], [], [0], [2]]

/-- A decoder for the lines above: a line whose first byte is not 0 decodes
into the one-way frame. -/
def sampleDecode (line : Bytes) : Option AudioFrame :=
  match line with
  | 0 :: _ => none
  | _ => some oneWayFrame

end Main

namespace Audio

/-! ### Frame codec: properties -/

theorem lor_shiftLeft_of_lt (a b k : Nat) (h : a < 2 ^ k) :
    a ||| b <<< k = a + b * 2 ^ k := by
  rw [Nat.shiftLeft_eq, Nat.mul_comm b, Nat.lor_comm, ← Nat.mul_add_lt_is_or h, Nat.add_comm]

/-- The eight bytes written by `PutUint64` read back as the value written. -/
theorem uint64_putUint64 (b : Bytes) (v : Nat) (hv : v < 2 ^ 64) :
    Uint64 (PutUint64 b v) = some v := by
  simp only [PutUint64, Uint64, byte, List.cons_append, List.nil_append,
    Nat.shiftRight_eq_div_pow]
  rw [lor_shiftLeft_of_lt _ _ 8 (by omega), lor_shiftLeft_of_lt _ _ 16 (by omega),
    lor_shiftLeft_of_lt _ _ 24 (by omega), lor_shiftLeft_of_lt _ _ 32 (by omega),
    lor_shiftLeft_of_lt _ _ 40 (by omega), lor_shiftLeft_of_lt _ _ 48 (by omega),
    lor_shiftLeft_of_lt _ _ 56 (by omega)]
  congr 1
  omega

theorem encode_length (f : AudioFrame) :
    f.Encode.length = BinaryFrameHeaderSize + f.Data.length := by
  simp [AudioFrame.Encode, setSlice, slice, PutUint64, copy, BinaryFrameHeaderSize]
  omega

/-- The encoding is the eight bytes of the type, the eight bytes of the speaker
id and the payload, in this order. -/
theorem encode_eq (f : AudioFrame) :
    f.Encode = PutUint64 [] (f.Typ % 2 ^ 64) ++ (PutUint64 [] f.UserID ++ f.Data) := by
  have h1 : 16 + f.Data.length - 8 - 8 = f.Data.length := by omega
  simp [AudioFrame.Encode, setSlice, slice, PutUint64, copy, BinaryFrameHeaderSize, h1]

theorem putUint64_nil_length (v : Nat) : (PutUint64 [] v).length = 8 := by
  simp [PutUint64]

/-- C1: for every frame `f` (any type, any speaker id, a payload of any length),
the little-endian `uint64` read from bytes 0..8 of `f.Encode()` is `f.Type`, the
one read from bytes 8..16 is `f.UserID`, and the bytes from offset 16 on are
`f.Data`. -/
theorem encode_decode_roundtrip (f : AudioFrame) (hf : f.WF) :
    Uint64 (slice f.Encode 0 8) = some f.Typ ∧
    Uint64 (slice f.Encode 8 16) = some f.UserID ∧
    f.Encode.drop BinaryFrameHeaderSize = f.Data := by
  obtain ⟨hT, hU, -⟩ := hf
  have h8 : ∀ v, (PutUint64 [] v).length = 8 := putUint64_nil_length
  have hT' : f.Typ % 2 ^ 64 = f.Typ := Nat.mod_eq_of_lt hT
  refine ⟨?_, ?_, ?_⟩
  · have : slice f.Encode 0 8 = PutUint64 [] f.Typ := by
      rw [encode_eq, hT', slice, List.drop_zero, List.take_append_of_le_length (by rw [h8]),
        List.take_of_length_le (by rw [h8])]
    rw [this]; exact uint64_putUint64 [] f.Typ hT
  · have : slice f.Encode 8 16 = PutUint64 [] f.UserID := by
      rw [encode_eq, slice, ← List.append_assoc,
        List.take_append_of_le_length (by rw [List.length_append, h8, h8]),
        List.take_of_length_le (by rw [List.length_append, h8, h8]),
        List.drop_append_of_le_length (by rw [h8]), List.drop_of_length_le (by rw [h8]),
        List.nil_append]
    rw [this]; exact uint64_putUint64 [] f.UserID hU
  · rw [encode_eq, ← List.append_assoc,
      List.drop_append_of_le_length (by rw [List.length_append, h8, h8]; decide),
      List.drop_of_length_le (by rw [List.length_append, h8, h8]; decide), List.nil_append]

/-- The frame of the repository's encode test: type mixed, speaker 12345 and a
payload of five bytes. -/
theorem encode_decode_roundtrip_witness :
    (AudioFrame.mk AudioTypeMixed 12345 [1, 2, 3, 4, 5]).WF ∧
    Uint64 (slice (AudioFrame.mk AudioTypeMixed 12345 [1, 2, 3, 4, 5]).Encode 0 8)
      = some AudioTypeMixed ∧
    Uint64 (slice (AudioFrame.mk AudioTypeMixed 12345 [1, 2, 3, 4, 5]).Encode 8 16)
      = some 12345 ∧
    (AudioFrame.mk AudioTypeMixed 12345 [1, 2, 3, 4, 5]).Encode.drop BinaryFrameHeaderSize
      = [1, 2, 3, 4, 5] :=
  ⟨by decide, encode_decode_roundtrip (AudioFrame.mk AudioTypeMixed 12345 [1, 2, 3, 4, 5])
    (by decide)⟩

/-- C2: for every frame `f`, `len(f.Encode())` is `BinaryFrameHeaderSize +
len(f.Data)` with `BinaryFrameHeaderSize = 16`; a frame with an empty payload
encodes to exactly 16 bytes. -/
theorem encode_length_header (f : AudioFrame) :
    f.Encode.length = BinaryFrameHeaderSize + f.Data.length ∧
    BinaryFrameHeaderSize = 16 ∧
    (AudioFrame.mk f.Typ f.UserID []).Encode.length = 16 := by
  refine ⟨encode_length f, rfl, ?_⟩
  rw [encode_length]; rfl

/-! ### Subscriber filter -/

theorem lookup_foldl_set (l : List Nat) (m : GoMap Nat Bool) (k : Nat) :
    (l.foldl (fun m t => m.set t true) m).lookup k =
      if k ∈ l then some true else m.lookup k := by
  induction l generalizing m with
  | nil => simp
  | cons t l ih =>
    rw [List.foldl_cons, ih]
    by_cases hkl : k ∈ l
    · simp [hkl]
    · by_cases hkt : k = t
      · subst hkt; simp [GoMap.set, AList.lookup_insert]
      · simp [hkl, hkt, GoMap.set, AList.lookup_insert_ne hkt]

theorem len_foldl_set_pos (l : List Nat) (m : GoMap Nat Bool) :
    0 < (l.foldl (fun m t => m.set t true) m).len ↔ l ≠ [] ∨ 0 < m.len := by
  induction l generalizing m with
  | nil => simp
  | cons t l ih =>
    rw [List.foldl_cons, ih]
    have : 0 < (m.set t true).len := by
      simp [GoMap.set, GoMap.len, AList.insert_entries]
    simp [this]

theorem index_filter_map (l : List Nat) (k : Nat) :
    (l.foldl (fun m t => m.set t true) (∅ : GoMap Nat Bool)).index k = decide (k ∈ l) := by
  unfold GoMap.index
  rw [lookup_foldl_set]
  by_cases h : k ∈ l <;> simp [h]

theorem len_filter_map_pos (l : List Nat) :
    decide ((l.foldl (fun m t => m.set t true) (∅ : GoMap Nat Bool)).len > 0)
      = decide (l ≠ []) := by
  have h := len_foldl_set_pos l ∅
  have h0 : ¬ 0 < (∅ : GoMap Nat Bool).len := by simp [GoMap.len]
  simp only [h0, or_false] at h
  simp only [gt_iff_lt, decide_eq_decide]
  exact h

theorem filtersSet_fields {s : Subscriber} {m : String} {ts us : List Nat}
    (h : s.FiltersSet m ts us) :
    s.MeetingID = m ∧
    s.AudioTypes = ts.foldl (fun m t => m.set t true) ∅ ∧
    s.UserIDs = us.foldl (fun m t => m.set t true) ∅ := by
  induction h with
  | new id n now => exact ⟨rfl, rfl, rfl⟩
  | meeting m' _ ih => exact ⟨rfl, ih.2.1, ih.2.2⟩
  | types ts' _ ih => exact ⟨ih.1, rfl, ih.2.2⟩
  | users us' _ ih => exact ⟨ih.1, ih.2.1, rfl⟩
  | send frame now r _ hs ih =>
    rename_i s0 s1 _ _ _
    unfold Subscriber.Send at hs
    split_ifs at hs <;> simp only [Option.some.injEq, Prod.mk.injEq] at hs <;>
      (obtain ⟨rfl, -⟩ := hs; exact ih)
  | close _ hc ih =>
    unfold Subscriber.Close at hc
    split_ifs at hc <;> simp only [Option.some.injEq] at hc <;> (subst hc; exact ih)

/-- C3: for a connected subscriber whose filters were set through
`SetMeetingFilter`, `SetAudioTypeFilter` and `SetUserIDFilter` (last values `m`,
`ts`, `us`), `ShouldReceive(M, F)` is true exactly when the meeting filter is
empty or equal to `M`, the type filter is empty or contains `F.Type`, and the
speaker filter is empty or contains `F.UserID`. -/
theorem shouldReceive_iff_filters (s : Subscriber) (m : String) (ts us : List Nat)
    (hs : s.FiltersSet m ts us) (hc : s.connected = true) (M : String) (F : AudioFrame) :
    s.MeetingID = m ∧
    (s.ShouldReceive M F = true ↔
      (s.MeetingID = "" ∨ s.MeetingID = M) ∧
      (ts = [] ∨ F.Typ ∈ ts) ∧
      (us = [] ∨ F.UserID ∈ us)) := by
  obtain ⟨hm, hT, hU⟩ := filtersSet_fields hs
  refine ⟨hm, ?_⟩
  unfold Subscriber.ShouldReceive
  rw [hT, hU, len_filter_map_pos, len_filter_map_pos, index_filter_map, index_filter_map, hc]
  by_cases h1 : s.MeetingID = "" <;> by_cases h2 : s.MeetingID = M <;>
    by_cases h3 : ts = [] <;> by_cases h4 : F.Typ ∈ ts <;>
    by_cases h5 : us = [] <;> by_cases h6 : F.UserID ∈ us <;>
    simp [h1, h2, h3, h4, h5, h6]

/-! ### Publish -/

theorem send_accepts (s : Subscriber) (F : AudioFrame) (t : Time)
    (hc : s.connected = true) (hcl : s.Channel.closed = false) (hr : s.hasRoom = true) :
    s.Send F t = some (s.accepted F t, true) := by
  unfold Subscriber.hasRoom at hr
  simp only [decide_eq_true_eq] at hr
  simp [Subscriber.Send, hc, hcl, hr, Subscriber.accepted]

theorem send_rejects (s : Subscriber) (F : AudioFrame) (t : Time)
    (hc : s.connected = true) (hcl : s.Channel.closed = false) (hr : s.hasRoom = false) :
    s.Send F t = some (s, false) := by
  unfold Subscriber.hasRoom at hr
  simp only [decide_eq_false_iff_not] at hr
  simp [Subscriber.Send, hc, hcl, hr]

/-- The delivery loop over pairwise distinct subscribers with open channels:
it ends, counts the accepting subscribers in `sent` and the rejecting ones in
`DroppedFrames`, appends the frame to the queue of each accepting subscriber
and changes nothing else. -/
theorem deliver_spec (F : AudioFrame) (ps : List Ptr) :
    ∀ (clock : Nat → Time) (b : Bus) (sent : Nat), ps.Nodup →
      (∀ p ∈ ps, (b.heap p).Safe) → b.stats.DroppedFrames < 2 ^ 64 →
      ∃ b', Bus.deliver F ps clock b sent =
          some (b', sent + (ps.filter (fun p => (b.heap p).accepts)).length) ∧
        b'.subscribers = b.subscribers ∧
        b'.stats = { b.stats with DroppedFrames :=
          (b.stats.DroppedFrames + (ps.filter (fun p => (b.heap p).rejects)).length) % 2 ^ 64 } ∧
        ∀ q, b'.heap q =
          if q ∈ ps ∧ (b.heap q).accepts = true
          then (b.heap q).accepted F (clock (ps.indexOf q)) else b.heap q := by
  induction ps with
  | nil =>
    intro clock b sent _ _ hd
    refine ⟨b, by simp [Bus.deliver], rfl, ?_, by simp⟩
    simp only [List.filter_nil, List.length_nil, Nat.add_zero, Nat.mod_eq_of_lt hd]
  | cons p ps ih =>
    intro clock b sent hnd hsafe hd
    have hp : p ∉ ps := (List.nodup_cons.mp hnd).1
    have hnd' : ps.Nodup := (List.nodup_cons.mp hnd).2
    have hne : ∀ q ∈ ps, q ≠ p := fun q hq h => hp (h ▸ hq)
    by_cases hc : (b.heap p).connected = true
    · have hcl : (b.heap p).Channel.closed = false := hsafe p (List.mem_cons_self _ _) hc
      by_cases hr : (b.heap p).hasRoom = true
      · -- the send is accepted
        have hacc : (b.heap p).accepts = true := by simp [Subscriber.accepts, hc, hr]
        have hrej : (b.heap p).rejects = false := by simp [Subscriber.rejects, hr]
        obtain ⟨b', hdel, hsub, hst, hheap⟩ :=
          ih (fun i => clock (i + 1))
            { b with heap := Function.update b.heap p ((b.heap p).accepted F (clock 0)) }
            (sent + 1) hnd'
            (by intro q hq; simp only [Function.update_noteq (hne q hq)]
                exact hsafe q (List.mem_cons_of_mem _ hq))
            hd
        have hfa : (ps.filter (fun q => (Function.update b.heap p
              ((b.heap p).accepted F (clock 0)) q).accepts)) =
            ps.filter (fun q => (b.heap q).accepts) :=
          List.filter_congr (fun q hq => by rw [Function.update_noteq (hne q hq)])
        have hfr : (ps.filter (fun q => (Function.update b.heap p
              ((b.heap p).accepted F (clock 0)) q).rejects)) =
            ps.filter (fun q => (b.heap q).rejects) :=
          List.filter_congr (fun q hq => by rw [Function.update_noteq (hne q hq)])
        simp only [hfa, hfr] at hdel hst
        refine ⟨b', ?_, hsub, ?_, ?_⟩
        · simp only [Bus.deliver, Subscriber.IsConnected, hc, Bool.not_true, Bool.false_eq_true,
            if_false, send_accepts _ F (clock 0) hc hcl hr, hdel, List.filter_cons, hacc, if_true,
            List.length_cons]
          congr 2; omega
        · rw [hst]; simp [List.filter_cons, hrej]
        · intro q
          rw [hheap q]
          by_cases hq : q = p
          · subst hq
            simp [hp, hacc]
          · simp only [Function.update_noteq hq, List.mem_cons, hq, false_or,
              List.indexOf_cons_ne _ (Ne.symm hq)]
      · -- the queue is full
        have hr' : (b.heap p).hasRoom = false := by simpa using hr
        have hacc : (b.heap p).accepts = false := by simp [Subscriber.accepts, hr']
        have hrej : (b.heap p).rejects = true := by simp [Subscriber.rejects, hc, hr']
        obtain ⟨b', hdel, hsub, hst, hheap⟩ :=
          ih (fun i => clock (i + 1))
            { b with heap := Function.update b.heap p (b.heap p)
                     stats := { b.stats with
                       DroppedFrames := (b.stats.DroppedFrames + 1) % 2 ^ 64 } }
            sent hnd'
            (by intro q hq; simp only [Function.update_eq_self]
                exact hsafe q (List.mem_cons_of_mem _ hq))
            (Nat.mod_lt _ (by norm_num))
        simp only [Function.update_eq_self] at hdel hst hheap
        refine ⟨b', ?_, hsub, ?_, ?_⟩
        · simp only [Bus.deliver, Subscriber.IsConnected, hc, Bool.not_true, Bool.false_eq_true,
            if_false, send_rejects _ F (clock 0) hc hcl hr', hdel, List.filter_cons, hacc,
            Function.update_eq_self]
        · rw [hst]
          simp only [List.filter_cons, hrej, if_true, List.length_cons, BusStats.mk.injEq,
            true_and, and_true]
          norm_num
          omega
        · intro q
          rw [hheap q]
          by_cases hq : q = p
          · subst hq
            simp [hp, hacc]
          · simp only [List.mem_cons, hq, false_or, List.indexOf_cons_ne _ (Ne.symm hq)]
    · -- the subscriber is skipped
      have hc' : (b.heap p).connected = false := by simpa using hc
      have hacc : (b.heap p).accepts = false := by simp [Subscriber.accepts, hc']
      have hrej : (b.heap p).rejects = false := by simp [Subscriber.rejects, hc']
      obtain ⟨b', hdel, hsub, hst, hheap⟩ :=
        ih (fun i => clock (i + 1)) b sent hnd'
          (fun q hq => hsafe q (List.mem_cons_of_mem _ hq)) hd
      refine ⟨b', ?_, hsub, ?_, ?_⟩
      · simp only [Bus.deliver, Subscriber.IsConnected, hc', Bool.not_false, if_true, hdel,
          List.filter_cons, hacc, Bool.false_eq_true, if_false]
      · rw [hst]; simp [List.filter_cons, hrej]
      · intro q
        rw [hheap q]
        by_cases hq : q = p
        · subst hq
          simp [hp, hacc]
        · simp only [List.mem_cons, hq, false_or, List.indexOf_cons_ne _ (Ne.symm hq)]

theorem shouldReceive_connected {s : Subscriber} {M : String} {F : AudioFrame}
    (h : s.ShouldReceive M F = true) : s.connected = true := by
  unfold Subscriber.ShouldReceive at h
  by_cases hc : s.connected = true
  · exact hc
  · simp [hc] at h

theorem mem_snapshot (b : Bus) (M : String) (F : AudioFrame) (p : Ptr) :
    p ∈ b.snapshot M F ↔ b.registered p ∧ (b.heap p).ShouldReceive M F = true := by
  unfold Bus.snapshot Bus.registered GoMap.get?
  simp only [List.mem_map, List.mem_filter]
  constructor
  · rintro ⟨⟨id, q⟩, ⟨hmem, hsr⟩, rfl⟩
    exact ⟨⟨id, AList.mem_lookup_iff.mpr hmem⟩, hsr⟩
  · rintro ⟨⟨id, hid⟩, hsr⟩
    exact ⟨⟨id, p⟩, ⟨AList.mem_lookup_iff.mp hid, hsr⟩, rfl⟩

theorem registry_values_nodup (b : Bus) (hWF : b.WF) :
    (b.subscribers.entries.map (fun e => e.2)).Nodup := by
  refine List.Nodup.map_on ?_ b.subscribers.nodupKeys.nodup
  intro x hx y hy hxy
  have h1 := (hWF.1 x hx).1
  have h2 := (hWF.1 y hy).1
  obtain ⟨k1, p1⟩ := x
  obtain ⟨k2, p2⟩ := y
  simp only at hxy h1 h2
  subst hxy
  rw [h1] at h2
  subst h2
  rfl

theorem snapshot_nodup (b : Bus) (hWF : b.WF) (M : String) (F : AudioFrame) :
    (b.snapshot M F).Nodup := by
  unfold Bus.snapshot
  refine List.Nodup.map_on ?_ (b.subscribers.nodupKeys.nodup.filter _)
  intro x hx y hy hxy
  have hx' := (List.mem_filter.mp hx).1
  have hy' := (List.mem_filter.mp hy).1
  have h1 := (hWF.1 x hx').1
  have h2 := (hWF.1 y hy').1
  obtain ⟨k1, p1⟩ := x
  obtain ⟨k2, p2⟩ := y
  simp only at hxy h1 h2
  subst hxy
  rw [h1] at h2
  subst h2
  rfl

theorem registered_safe (b : Bus) (hWF : b.WF) (p : Ptr) (hp : b.registered p) :
    (b.heap p).Safe := by
  obtain ⟨id, hid⟩ := hp
  exact (hWF.1 ⟨id, p⟩ (AList.mem_lookup_iff.mp hid)).2

/-- What `Publish` does on a well-formed bus, in terms of the matched
subscribers `b.snapshot M F`. -/
theorem publish_spec (b : Bus) (hWF : b.WF) (M : String) (F : AudioFrame) (now : Time)
    (clock : Nat → Time) :
    ∃ b' r, b.Publish M F now clock = some (b', r) ∧
      (r = true ↔ b.snapshot M F = [] ∨ ∃ p ∈ b.snapshot M F, (b.heap p).hasRoom = true) ∧
      b'.subscribers = b.subscribers ∧
      b'.stats =
        { TotalFrames := (b.stats.TotalFrames + 1) % 2 ^ 64
          DroppedFrames := (b.stats.DroppedFrames +
            ((b.snapshot M F).filter (fun p => !(b.heap p).hasRoom)).length) % 2 ^ 64
          ActiveSubscribers := b.stats.ActiveSubscribers
          LastFrameTime := now } ∧
      ∀ q, b'.heap q =
        if q ∈ b.snapshot M F ∧ (b.heap q).hasRoom = true
        then (b.heap q).accepted F (clock ((b.snapshot M F).indexOf q)) else b.heap q := by
  have hconn : ∀ p ∈ b.snapshot M F, (b.heap p).connected = true := fun p hp =>
    shouldReceive_connected ((mem_snapshot b M F p).mp hp).2
  have hacc : (b.snapshot M F).filter (fun p => (b.heap p).accepts) =
      (b.snapshot M F).filter (fun p => (b.heap p).hasRoom) :=
    List.filter_congr (fun p hp => by simp [Subscriber.accepts, hconn p hp])
  have hrej : (b.snapshot M F).filter (fun p => (b.heap p).rejects) =
      (b.snapshot M F).filter (fun p => !(b.heap p).hasRoom) :=
    List.filter_congr (fun p hp => by simp [Subscriber.rejects, hconn p hp])
  by_cases hemp : b.snapshot M F = []
  · refine ⟨{ b with stats := { b.stats with
        TotalFrames := (b.stats.TotalFrames + 1) % 2 ^ 64, LastFrameTime := now } }, true,
      ?_, by simp [hemp], rfl, ?_, ?_⟩
    · simp [Bus.Publish, hemp]
    · have hd : b.stats.DroppedFrames % 2 ^ 64 = b.stats.DroppedFrames :=
        Nat.mod_eq_of_lt hWF.2.2
      simp only [hemp, List.filter_nil, List.length_nil, Nat.add_zero, hd]
    · simp [hemp]
  · obtain ⟨b', hdel, hsub, hst, hheap⟩ :=
      deliver_spec F (b.snapshot M F) clock
        { b with stats := { b.stats with
          TotalFrames := (b.stats.TotalFrames + 1) % 2 ^ 64, LastFrameTime := now } } 0
        (snapshot_nodup b hWF M F)
        (fun p hp => registered_safe b hWF p ((mem_snapshot b M F p).mp hp).1)
        hWF.2.2
    simp only [hacc, hrej, Nat.zero_add] at hdel hst hheap
    refine ⟨b', decide ((List.filter (fun p => (b.heap p).hasRoom) (b.snapshot M F)).length > 0),
      ?_, ?_, hsub, hst, ?_⟩
    · have hlen : (b.snapshot M F).length ≠ 0 := by
        simpa [List.length_eq_zero] using hemp
      simp only [Bus.Publish, hlen, if_false, hdel]
    · simp only [hemp, false_or, decide_eq_true_eq, gt_iff_lt, List.length_pos,
        ne_eq, List.filter_eq_nil_iff, not_forall, Classical.not_imp, Bool.not_eq_true,
        Bool.not_eq_false, exists_prop]
    · intro q
      rw [hheap q]
      by_cases hq : q ∈ b.snapshot M F
      · simp [hq, Subscriber.accepts, hconn q hq]
      · simp [hq]

theorem accepted_queue_ne (s : Subscriber) (F : AudioFrame) :
    s.Channel.queue ++ [F] ≠ s.Channel.queue := by
  intro h
  have := congrArg List.length h
  simp at this

/-- C4: on every well-formed bus, `Publish(M, F)` returns, leaves the registry as
it is, appends `F` once at the tail of the queue of every registered subscriber
that should receive `(M, F)` and has room, and leaves every other subscriber
(matching with a full queue, not matching, or not registered) unchanged. -/
theorem publish_delivers_exactly_to_matching (b : Bus) (hWF : b.WF) (M : String)
    (F : AudioFrame) (now : Time) (clock : Nat → Time) :
    ∃ b' r, b.Publish M F now clock = some (b', r) ∧
      b'.subscribers = b.subscribers ∧
      ∀ p,
        ((b.registered p ∧ (b.heap p).ShouldReceive M F = true) →
          ((b.heap p).hasRoom = true → ∃ t, b'.heap p = (b.heap p).accepted F t) ∧
          ((b.heap p).hasRoom = false → b'.heap p = b.heap p)) ∧
        (¬ (b.registered p ∧ (b.heap p).ShouldReceive M F = true) →
          b'.heap p = b.heap p) := by
  obtain ⟨b', r, hpub, -, hsub, -, hheap⟩ := publish_spec b hWF M F now clock
  refine ⟨b', r, hpub, hsub, fun p => ⟨fun hm => ⟨fun hr => ?_, fun hr => ?_⟩, fun hm => ?_⟩⟩
  · exact ⟨_, by rw [hheap p, if_pos ⟨(mem_snapshot b M F p).mpr hm, hr⟩]⟩
  · rw [hheap p, if_neg (by simp [hr])]
  · rw [hheap p, if_neg (fun h => hm ((mem_snapshot b M F p).mp h.1))]

/-- The scenario of the specification: A filters on type mixed, B is unfiltered;
a one-way frame is delivered to B only. -/
theorem publish_delivers_exactly_to_matching_witness :
    scenarioBus.WF ∧
    (scenarioBus.Publish "m1" oneWayFrame 5 (fun _ => 6)).map
      (fun x => ((x.1.heap 0).Channel.queue, (x.1.heap 1).Channel.queue, x.2))
      = some ([], [oneWayFrame], true) ∧
    ∃ b' r, scenarioBus.Publish "m1" oneWayFrame 5 (fun _ => 6) = some (b', r) ∧
      b'.subscribers = scenarioBus.subscribers ∧
      ∀ p,
        ((scenarioBus.registered p ∧ (scenarioBus.heap p).ShouldReceive "m1" oneWayFrame = true) →
          ((scenarioBus.heap p).hasRoom = true →
            ∃ t, b'.heap p = (scenarioBus.heap p).accepted oneWayFrame t) ∧
          ((scenarioBus.heap p).hasRoom = false → b'.heap p = scenarioBus.heap p)) ∧
        (¬ (scenarioBus.registered p ∧
            (scenarioBus.heap p).ShouldReceive "m1" oneWayFrame = true) →
          b'.heap p = scenarioBus.heap p) :=
  ⟨by decide, by decide,
    publish_delivers_exactly_to_matching scenarioBus (by decide) "m1" oneWayFrame 5 (fun _ => 6)⟩

theorem mem_fullMatches (b : Bus) (M : String) (F : AudioFrame) (p : Ptr) :
    p ∈ b.fullMatches M F ↔
      b.registered p ∧ (b.heap p).ShouldReceive M F = true ∧ (b.heap p).hasRoom = false := by
  unfold Bus.fullMatches
  rw [List.mem_filter, mem_snapshot]
  simp [and_assoc]

/-- C5: on every well-formed bus, `Publish(M, F)` returns; `b.fullMatches M F`
lists, without repetition, exactly the registered matching subscribers whose
queue is full; each of them is left unchanged (same queue, still connected),
`DroppedFrames` grows by one for each of them (in `uint64` arithmetic, and as a
plain sum when the counter does not wrap), and every matching subscriber with
room receives `F`. -/
theorem publish_full_queue_drops (b : Bus) (hWF : b.WF) (M : String) (F : AudioFrame)
    (now : Time) (clock : Nat → Time) :
    ∃ b' r, b.Publish M F now clock = some (b', r) ∧
      (b.fullMatches M F).Nodup ∧
      (∀ p, p ∈ b.fullMatches M F ↔
        b.registered p ∧ (b.heap p).ShouldReceive M F = true ∧ (b.heap p).hasRoom = false) ∧
      (∀ p ∈ b.fullMatches M F, b'.heap p = b.heap p ∧ (b'.heap p).connected = true) ∧
      b'.stats.DroppedFrames =
        (b.stats.DroppedFrames + (b.fullMatches M F).length) % 2 ^ 64 ∧
      (b.stats.DroppedFrames + (b.fullMatches M F).length < 2 ^ 64 →
        b'.stats.DroppedFrames = b.stats.DroppedFrames + (b.fullMatches M F).length) ∧
      (∀ p, b.registered p ∧ (b.heap p).ShouldReceive M F = true ∧ (b.heap p).hasRoom = true →
        (b'.heap p).Channel.queue = (b.heap p).Channel.queue ++ [F]) := by
  obtain ⟨b', r, hpub, -, -, hst, hheap⟩ := publish_spec b hWF M F now clock
  have hdrop : b'.stats.DroppedFrames =
      (b.stats.DroppedFrames + (b.fullMatches M F).length) % 2 ^ 64 := by
    rw [hst]; rfl
  refine ⟨b', r, hpub, (snapshot_nodup b hWF M F).filter _, mem_fullMatches b M F, ?_, hdrop,
    fun hlt => by rw [hdrop, Nat.mod_eq_of_lt hlt], ?_⟩
  · intro p hp
    obtain ⟨-, hsr, hr⟩ := (mem_fullMatches b M F p).mp hp
    have : b'.heap p = b.heap p := by rw [hheap p, if_neg (by simp [hr])]
    exact ⟨this, by rw [this]; exact shouldReceive_connected hsr⟩
  · rintro p ⟨hreg, hsr, hr⟩
    rw [hheap p, if_pos ⟨(mem_snapshot b M F p).mpr ⟨hreg, hsr⟩, hr⟩]
    rfl

/-- B has room and C is full: publishing to both leaves C as it is, counts one
dropped frame and delivers to B. -/
theorem publish_full_queue_drops_witness :
    fullQueueBus.WF ∧
    fullQueueBus.fullMatches "m1" oneWayFrame = [2] ∧
    (fullQueueBus.Publish "m1" oneWayFrame 5 (fun _ => 6)).map
      (fun x => ((x.1.heap 1).Channel.queue, (x.1.heap 2).Channel.queue,
        x.1.stats.DroppedFrames, x.2))
      = some ([oneWayFrame], [oneWayFrame], 1, true) ∧
    ∃ b' r, fullQueueBus.Publish "m1" oneWayFrame 5 (fun _ => 6) = some (b', r) ∧
      (fullQueueBus.fullMatches "m1" oneWayFrame).Nodup ∧
      (∀ p, p ∈ fullQueueBus.fullMatches "m1" oneWayFrame ↔
        fullQueueBus.registered p ∧ (fullQueueBus.heap p).ShouldReceive "m1" oneWayFrame = true ∧
          (fullQueueBus.heap p).hasRoom = false) ∧
      (∀ p ∈ fullQueueBus.fullMatches "m1" oneWayFrame,
        b'.heap p = fullQueueBus.heap p ∧ (b'.heap p).connected = true) ∧
      b'.stats.DroppedFrames =
        (fullQueueBus.stats.DroppedFrames +
          (fullQueueBus.fullMatches "m1" oneWayFrame).length) % 2 ^ 64 ∧
      (fullQueueBus.stats.DroppedFrames +
          (fullQueueBus.fullMatches "m1" oneWayFrame).length < 2 ^ 64 →
        b'.stats.DroppedFrames = fullQueueBus.stats.DroppedFrames +
          (fullQueueBus.fullMatches "m1" oneWayFrame).length) ∧
      (∀ p, fullQueueBus.registered p ∧
          (fullQueueBus.heap p).ShouldReceive "m1" oneWayFrame = true ∧
          (fullQueueBus.heap p).hasRoom = true →
        (b'.heap p).Channel.queue = (fullQueueBus.heap p).Channel.queue ++ [oneWayFrame]) :=
  ⟨by decide, by decide, by decide,
    publish_full_queue_drops fullQueueBus (by decide) "m1" oneWayFrame 5 (fun _ => 6)⟩

/-- C6: on every well-formed bus, `Publish(M, F)` returns; the result is true
exactly when no registered subscriber matched or at least one matching
subscriber received `F`, and false exactly when at least one subscriber matched
and every matching subscriber was left without the frame. -/
theorem publish_result (b : Bus) (hWF : b.WF) (M : String) (F : AudioFrame)
    (now : Time) (clock : Nat → Time) :
    ∃ b' r, b.Publish M F now clock = some (b', r) ∧
      (r = true ↔
        (∀ p, b.registered p → (b.heap p).ShouldReceive M F = false) ∨
        (∃ p, b.registered p ∧ (b.heap p).ShouldReceive M F = true ∧
          (b'.heap p).Channel.queue = (b.heap p).Channel.queue ++ [F])) ∧
      (r = false ↔
        (∃ p, b.registered p ∧ (b.heap p).ShouldReceive M F = true) ∧
        (∀ p, b.registered p → (b.heap p).ShouldReceive M F = true →
          b'.heap p = b.heap p)) := by
  obtain ⟨b', r, hpub, hr, -, -, hheap⟩ := publish_spec b hWF M F now clock
  have hemp : b.snapshot M F = [] ↔
      ∀ p, b.registered p → (b.heap p).ShouldReceive M F = false := by
    rw [List.eq_nil_iff_forall_not_mem]
    simp only [mem_snapshot, not_and, Bool.not_eq_true]
  have hrecv : ∀ p, b.registered p → (b.heap p).ShouldReceive M F = true →
      ((b'.heap p).Channel.queue = (b.heap p).Channel.queue ++ [F] ↔
        (b.heap p).hasRoom = true) := by
    intro p hreg hsr
    rw [hheap p]
    by_cases hroom : (b.heap p).hasRoom = true
    · simp [hroom, (mem_snapshot b M F p).mpr ⟨hreg, hsr⟩, Subscriber.accepted]
    · rw [if_neg (fun h => hroom h.2)]
      exact ⟨fun h => absurd h.symm (accepted_queue_ne _ F), fun h => absurd h hroom⟩
  have hsame : ∀ p, b.registered p → (b.heap p).ShouldReceive M F = true →
      (b'.heap p = b.heap p ↔ (b.heap p).hasRoom = false) := by
    intro p hreg hsr
    rw [hheap p]
    by_cases hroom : (b.heap p).hasRoom = true
    · simp only [hroom, (mem_snapshot b M F p).mpr ⟨hreg, hsr⟩, and_self, if_true,
        Bool.true_eq_false, iff_false]
      intro h
      have := congrArg (fun s => s.Channel.queue) h
      exact accepted_queue_ne _ F this
    · simp [hroom]
  have htrue : r = true ↔
      (∀ p, b.registered p → (b.heap p).ShouldReceive M F = false) ∨
      (∃ p, b.registered p ∧ (b.heap p).ShouldReceive M F = true ∧
        (b'.heap p).Channel.queue = (b.heap p).Channel.queue ++ [F]) := by
    rw [hr, hemp]
    refine or_congr Iff.rfl ⟨?_, ?_⟩
    · rintro ⟨p, hp, hroom⟩
      obtain ⟨hreg, hsr⟩ := (mem_snapshot b M F p).mp hp
      exact ⟨p, hreg, hsr, (hrecv p hreg hsr).mpr hroom⟩
    · rintro ⟨p, hreg, hsr, hq⟩
      exact ⟨p, (mem_snapshot b M F p).mpr ⟨hreg, hsr⟩, (hrecv p hreg hsr).mp hq⟩
  refine ⟨b', r, hpub, htrue, ?_⟩
  rw [← Bool.not_eq_true, hr, hemp]
  constructor
  · intro h
    rw [not_or] at h
    obtain ⟨h1, h2⟩ := h
    refine ⟨?_, ?_⟩
    · by_contra hne
      exact h1 (fun p hreg => by
        by_contra hsr
        exact hne ⟨p, hreg, by simpa using hsr⟩)
    · intro p hreg hsr
      refine (hsame p hreg hsr).mpr ?_
      by_contra hroom
      exact h2 ⟨p, (mem_snapshot b M F p).mpr ⟨hreg, hsr⟩, by simpa using hroom⟩
  · rintro ⟨⟨p, hreg, hsr⟩, hall⟩
    rw [not_or]
    refine ⟨fun h => ?_, ?_⟩
    · rw [h p hreg] at hsr; exact Bool.false_ne_true hsr
    · rintro ⟨q, hq, hroom⟩
      obtain ⟨hreg', hsr'⟩ := (mem_snapshot b M F q).mp hq
      have := (hsame q hreg' hsr').mp (hall q hreg' hsr')
      rw [this] at hroom; exact Bool.false_ne_true hroom

/-- Only C, whose queue is full, is subscribed: the publication matches and
fails, so the result is false; on the bus of A and B the result is true. -/
theorem publish_result_witness :
    onlyFullBus.WF ∧
    (onlyFullBus.Publish "m1" oneWayFrame 5 (fun _ => 6)).map (fun x => x.2) = some false ∧
    ((NewBus scenarioHeap).Publish "m1" oneWayFrame 5 (fun _ => 6)).map (fun x => x.2)
      = some true ∧
    ∃ b' r, onlyFullBus.Publish "m1" oneWayFrame 5 (fun _ => 6) = some (b', r) ∧
      (r = true ↔
        (∀ p, onlyFullBus.registered p →
          (onlyFullBus.heap p).ShouldReceive "m1" oneWayFrame = false) ∨
        (∃ p, onlyFullBus.registered p ∧
          (onlyFullBus.heap p).ShouldReceive "m1" oneWayFrame = true ∧
          (b'.heap p).Channel.queue = (onlyFullBus.heap p).Channel.queue ++ [oneWayFrame])) ∧
      (r = false ↔
        (∃ p, onlyFullBus.registered p ∧
          (onlyFullBus.heap p).ShouldReceive "m1" oneWayFrame = true) ∧
        (∀ p, onlyFullBus.registered p →
          (onlyFullBus.heap p).ShouldReceive "m1" oneWayFrame = true →
          b'.heap p = onlyFullBus.heap p)) :=
  ⟨by decide, by decide, by decide,
    publish_result onlyFullBus (by decide) "m1" oneWayFrame 5 (fun _ => 6)⟩

/-- Subscriber A of the scenario (type filter mixed, set through
`SetAudioTypeFilter`) does not match a one-way frame. -/
theorem shouldReceive_iff_filters_witness :
    scenarioSubA.connected = true ∧
    scenarioSubA.ShouldReceive "m1" oneWayFrame = false ∧
    scenarioSubA.MeetingID = "" ∧
    (scenarioSubA.ShouldReceive "m1" oneWayFrame = true ↔
      (scenarioSubA.MeetingID = "" ∨ scenarioSubA.MeetingID = "m1") ∧
      ([AudioTypeMixed] = [] ∨ oneWayFrame.Typ ∈ [AudioTypeMixed]) ∧
      (([] : List Nat) = [] ∨ oneWayFrame.UserID ∈ ([] : List Nat))) :=
  ⟨rfl, by decide,
    shouldReceive_iff_filters scenarioSubA "" [AudioTypeMixed] []
      (Subscriber.FiltersSet.types [AudioTypeMixed] (Subscriber.FiltersSet.new "A" 4 0))
      rfl "m1" oneWayFrame⟩

/-! ### Closed subscribers -/

theorem close_close (s : Subscriber) : s.Close.bind Subscriber.Close = s.Close := by
  unfold Subscriber.Close
  by_cases hc : s.connected = true
  · by_cases hcl : s.Channel.closed = true
    · simp [hc, hcl]
    · simp [hc, hcl]
  · simp [hc]

/-- The delivery loop never changes a disconnected subscriber, whatever the
list of matched subscribers. -/
theorem deliver_disconnected (F : AudioFrame) (ps : List Ptr) :
    ∀ (clock : Nat → Time) (b b' : Bus) (sent n : Nat),
      Bus.deliver F ps clock b sent = some (b', n) →
      ∀ q, (b.heap q).connected = false → b'.heap q = b.heap q := by
  induction ps with
  | nil =>
    intro clock b b' sent n h q _
    simp only [Bus.deliver, Option.some.injEq, Prod.mk.injEq] at h
    rw [← h.1]
  | cons p ps ih =>
    intro clock b b' sent n h q hq
    unfold Bus.deliver at h
    by_cases hc : (b.heap p).connected = true
    · have hqp : q ≠ p := by
        rintro rfl
        rw [hc] at hq
        exact Bool.noConfusion hq
      simp only [Subscriber.IsConnected, hc, Bool.not_true, Bool.false_eq_true, if_false] at h
      cases hsend : (b.heap p).Send F (clock 0) with
      | none => simp [hsend] at h
      | some res =>
        obtain ⟨s1, r⟩ := res
        cases r with
        | true =>
          simp only [hsend] at h
          have := ih _ _ _ _ _ h q (by simpa [Function.update_noteq hqp] using hq)
          simpa [Function.update_noteq hqp] using this
        | false =>
          simp only [hsend] at h
          have := ih _ _ _ _ _ h q (by simpa [Function.update_noteq hqp] using hq)
          simpa [Function.update_noteq hqp] using this
    · have hc' : (b.heap p).connected = false := by simpa using hc
      simp only [Subscriber.IsConnected, hc', Bool.not_false, if_true] at h
      exact ih _ _ _ _ _ h q hq

/-- A publication never changes a disconnected subscriber. -/
theorem publish_disconnected (b b' : Bus) (M : String) (F : AudioFrame) (now : Time)
    (clock : Nat → Time) (r : Bool) (h : b.Publish M F now clock = some (b', r)) :
    ∀ q, (b.heap q).connected = false → b'.heap q = b.heap q := by
  intro q hq
  unfold Bus.Publish at h
  simp only [] at h
  split_ifs at h with hlen
  · simp only [Option.some.injEq, Prod.mk.injEq] at h
    rw [← h.1]
  · split at h
    · exact Option.noConfusion h
    · rename_i b1 sent hd
      simp only [Option.some.injEq, Prod.mk.injEq] at h
      rw [← h.1]
      exact deliver_disconnected F _ _ _ _ _ _ hd q hq

/-- C7: for every subscriber whose connected flag is false and every frame,
`Send` returns false and leaves the subscriber (so its queue) as it is,
`ShouldReceive` returns false, `Close` changes nothing, and the filter setters
leave it disconnected with the same channel; no publication on any bus changes
a disconnected subscriber. `Close` leaves every subscriber disconnected with
the queue it had, and running it twice is the same as running it once. -/
theorem closed_subscriber_never_written (s : Subscriber) (hc : s.connected = false)
    (M : String) (F : AudioFrame) (now : Time) :
    s.Send F now = some (s, false) ∧
    s.ShouldReceive M F = false ∧
    s.Close = some s ∧
    (∀ m, (s.SetMeetingFilter m).connected = false ∧ (s.SetMeetingFilter m).Channel = s.Channel) ∧
    (∀ ts, (s.SetAudioTypeFilter ts).connected = false ∧
      (s.SetAudioTypeFilter ts).Channel = s.Channel) ∧
    (∀ us, (s.SetUserIDFilter us).connected = false ∧
      (s.SetUserIDFilter us).Channel = s.Channel) ∧
    (∀ (b b' : Bus) (clock : Nat → Time) (r : Bool) (q : Ptr),
      b.heap q = s → b.Publish M F now clock = some (b', r) → b'.heap q = s) ∧
    (∀ s0 s1 : Subscriber, s0.Close = some s1 →
      s1.connected = false ∧ s1.Channel.queue = s0.Channel.queue ∧ s1.Close = some s1 ∧
      (s0.connected = true → s1.Channel.closed = true)) ∧
    (∀ s0 : Subscriber, s0.Close.bind Subscriber.Close = s0.Close) := by
  refine ⟨by simp [Subscriber.Send, hc], by simp [Subscriber.ShouldReceive, hc],
    by simp [Subscriber.Close, hc], fun m => ⟨hc, rfl⟩, fun ts => ⟨hc, rfl⟩,
    fun us => ⟨hc, rfl⟩, ?_, ?_, close_close⟩
  · intro b b' clock r q hq hpub
    rw [← hq]
    exact publish_disconnected b b' M F now clock r hpub q (by rw [hq]; exact hc)
  intro s0 s1 h
  unfold Subscriber.Close at h
  by_cases hc0 : s0.connected = true
  · by_cases hcl : s0.Channel.closed = true
    · simp [hc0, hcl] at h
    · simp only [hc0, if_true, hcl, Bool.false_eq_true, if_false, Option.some.injEq] at h
      subst h
      simp [Subscriber.Close]
  · simp only [hc0, Bool.false_eq_true, if_false, Option.some.injEq] at h
    subst h
    simp [Subscriber.Close, hc0]

/-- The subscriber B after `Close`: sends are refused and nothing changes. -/
theorem closed_subscriber_never_written_witness :
    scenarioSubB.Close = some closedSubB ∧
    closedSubB.connected = false ∧
    closedSubB.Send oneWayFrame 9 = some (closedSubB, false) ∧
    closedSubB.ShouldReceive "m1" oneWayFrame = false ∧
    closedSubB.Close = some closedSubB :=
  ⟨rfl, rfl,
    (closed_subscriber_never_written closedSubB rfl "m1" oneWayFrame 9).1,
    (closed_subscriber_never_written closedSubB rfl "m1" oneWayFrame 9).2.1,
    (closed_subscriber_never_written closedSubB rfl "m1" oneWayFrame 9).2.2.1⟩

/-! ### Subscribe and Unsubscribe -/

theorem close_of_safe (s : Subscriber) (h : s.Safe) :
    ∃ s', s.Close = some s' ∧ s'.connected = false := by
  unfold Subscriber.Close
  by_cases hc : s.connected = true
  · simp [hc, h hc]
  · simp [hc]

theorem len_erase_of_lookup {m : GoMap String Ptr} {id : String} {p : Ptr}
    (h : m.lookup id = some p) : (m.delete id).len + 1 = m.len := by
  have hmem : id ∈ m.keys := AList.mem_keys.mp (AList.lookup_isSome.mp (by simp [h]))
  have h1 : (m.delete id).len = (m.erase id).keys.length := by
    simp [GoMap.len, GoMap.delete, AList.keys, List.keys]
  have h2 : m.len = m.keys.length := by simp [GoMap.len, AList.keys, List.keys]
  rw [h1, h2, AList.keys_erase, List.length_erase_of_mem hmem]
  have : 0 < m.keys.length := List.length_pos_of_mem hmem
  omega

/-- C8: on every well-formed bus, `Unsubscribe(id)` with an entry `id ↦ p`
returns, leaves at `p` the result of `Close` (so `p` is disconnected), removes
the entry of `id`, keeps every other entry and every other subscriber as they
are, and a second `Unsubscribe(id)` changes nothing; without an entry for `id`
the bus is unchanged. -/
theorem unsubscribe_closes_and_removes (b : Bus) (hWF : b.WF) (id : String) :
    (∀ p, b.subscribers.get? id = some p →
      ∃ b', b.Unsubscribe id = some b' ∧
        (b.heap p).Close = some (b'.heap p) ∧
        (b'.heap p).connected = false ∧
        b'.subscribers.get? id = none ∧
        (∀ k, k ≠ id → b'.subscribers.get? k = b.subscribers.get? k) ∧
        (∀ q, q ≠ p → b'.heap q = b.heap q) ∧
        (∀ k q, k ≠ id → b.subscribers.get? k = some q → b'.heap q = b.heap q) ∧
        b'.subscribers.len + 1 = b.subscribers.len ∧
        b'.Unsubscribe id = some b') ∧
    (b.subscribers.get? id = none → b.Unsubscribe id = some b) := by
  refine ⟨fun p hp => ?_, fun hnone => by simp [Bus.Unsubscribe, hnone]⟩
  have hsafe : (b.heap p).Safe := registered_safe b hWF p ⟨id, hp⟩
  obtain ⟨s', hclose, hconn⟩ := close_of_safe (b.heap p) hsafe
  have hlook : b.subscribers.lookup id = some p := hp
  refine ⟨{ heap := Function.update b.heap p s'
            subscribers := b.subscribers.delete id
            stats := { b.stats with ActiveSubscribers := (b.subscribers.delete id).len } },
    by simp only [Bus.Unsubscribe, hp, hclose], ?_, ?_, ?_, ?_, ?_, ?_, ?_, ?_⟩
  · simp [hclose]
  · simpa using hconn
  · simp [GoMap.get?, GoMap.delete, AList.lookup_erase]
  · intro k hk
    simp [GoMap.get?, GoMap.delete, AList.lookup_erase_ne hk]
  · intro q hq
    simp [Function.update_noteq hq]
  · intro k q hk hkq
    have hq : q ≠ p := by
      rintro rfl
      have h1 := (hWF.1 ⟨k, q⟩ (AList.mem_lookup_iff.mp hkq)).1
      have h2 := (hWF.1 ⟨id, q⟩ (AList.mem_lookup_iff.mp hlook)).1
      simp only at h1 h2
      exact hk (h1.symm.trans h2)
    simp [Function.update_noteq hq]
  · exact len_erase_of_lookup hlook
  · simp [Bus.Unsubscribe, GoMap.get?, GoMap.delete, AList.lookup_erase]

/-- On the bus of A and B, `Unsubscribe("A")` closes A and keeps B; the entry of
"A" is gone. -/
theorem unsubscribe_closes_and_removes_witness :
    scenarioBus.WF ∧
    (scenarioBus.Unsubscribe "A").map
      (fun x => ((x.heap 0).connected, (x.heap 1).connected, x.subscribers.keys))
      = some (false, true, ["B"]) ∧
    (∀ p, scenarioBus.subscribers.get? "A" = some p →
      ∃ b', scenarioBus.Unsubscribe "A" = some b' ∧
        (scenarioBus.heap p).Close = some (b'.heap p) ∧
        (b'.heap p).connected = false ∧
        b'.subscribers.get? "A" = none ∧
        (∀ k, k ≠ "A" → b'.subscribers.get? k = scenarioBus.subscribers.get? k) ∧
        (∀ q, q ≠ p → b'.heap q = scenarioBus.heap q) ∧
        (∀ k q, k ≠ "A" → scenarioBus.subscribers.get? k = some q →
          b'.heap q = scenarioBus.heap q) ∧
        b'.subscribers.len + 1 = scenarioBus.subscribers.len ∧
        b'.Unsubscribe "A" = some b') ∧
    (scenarioBus.subscribers.get? "A" = none →
      scenarioBus.Unsubscribe "A" = some scenarioBus) :=
  ⟨by decide, by decide, unsubscribe_closes_and_removes scenarioBus (by decide) "A"⟩

/-- C9: on a bus that holds `p` under `id`, `Subscribe(s)` with `s.ID = id` makes
the registry map `id` to `s`, keeps the number of entries (the keys stay
pairwise distinct) and every other entry, and touches no subscriber: `p` is not
closed and stays connected. -/
theorem subscribe_replaces_slot (b : Bus) (id : String) (p s : Ptr)
    (hp : b.subscribers.get? id = some p) (hs : (b.heap s).ID = id) :
    (b.Subscribe s).subscribers.get? id = some s ∧
    (b.Subscribe s).subscribers.len = b.subscribers.len ∧
    (b.Subscribe s).stats.ActiveSubscribers = b.subscribers.len ∧
    (b.Subscribe s).subscribers.keys.Nodup ∧
    (∀ k, k ≠ id → (b.Subscribe s).subscribers.get? k = b.subscribers.get? k) ∧
    (b.Subscribe s).heap = b.heap ∧
    ((b.heap p).connected = true → ((b.Subscribe s).heap p).connected = true) := by
  have hlook : b.subscribers.lookup id = some p := hp
  have hlen : (b.subscribers.set id s).len = b.subscribers.len := by
    have h := len_erase_of_lookup hlook
    simpa only [GoMap.len, GoMap.set, GoMap.delete, AList.insert_entries, List.length_cons]
      using h
  refine ⟨?_, ?_, ?_, AList.keys_nodup _, ?_, rfl, fun h => h⟩
  · simp [Bus.Subscribe, hs, GoMap.get?, GoMap.set, AList.lookup_insert]
  · simpa [Bus.Subscribe, hs] using hlen
  · simpa [Bus.Subscribe, hs] using hlen
  · intro k hk
    simp [Bus.Subscribe, hs, GoMap.get?, GoMap.set, AList.lookup_insert_ne hk]

/-- On the bus of A and B, subscribing the second subscriber of identity "A"
(address 3) takes over the slot of "A"; the first one (address 0) stays
connected. -/
theorem subscribe_replaces_slot_witness :
    scenarioBus.subscribers.get? "A" = some 0 ∧
    (scenarioBus.heap 3).ID = "A" ∧
    (scenarioBus.Subscribe 3).subscribers.get? "A" = some 3 ∧
    (scenarioBus.Subscribe 3).subscribers.len = scenarioBus.subscribers.len ∧
    (scenarioBus.Subscribe 3).stats.ActiveSubscribers = scenarioBus.subscribers.len ∧
    (scenarioBus.Subscribe 3).subscribers.keys.Nodup ∧
    (∀ k, k ≠ "A" →
      (scenarioBus.Subscribe 3).subscribers.get? k = scenarioBus.subscribers.get? k) ∧
    (scenarioBus.Subscribe 3).heap = scenarioBus.heap ∧
    ((scenarioBus.heap 0).connected = true →
      ((scenarioBus.Subscribe 3).heap 0).connected = true) :=
  ⟨by decide, by decide, subscribe_replaces_slot scenarioBus "A" 0 3 (by decide) (by decide)⟩

/-! ### CleanupInactiveSubscribers -/

theorem close_eq_afterClose (s : Subscriber) (h : s.Safe) : s.Close = some s.afterClose := by
  unfold Subscriber.Close Subscriber.afterClose
  by_cases hc : s.connected = true
  · simp [hc, h hc]
  · simp [hc]

theorem afterClose_connected (s : Subscriber) : s.afterClose.connected = false := by
  unfold Subscriber.afterClose
  by_cases hc : s.connected = true
  · simp [hc]
  · simp [hc]

theorem afterClose_inactive (s : Subscriber) (now : Time) (timeout : Duration) :
    s.afterClose.inactive now timeout = true := by
  simp [Subscriber.inactive, Subscriber.IsConnected, afterClose_connected]

theorem afterClose_afterClose (s : Subscriber) : s.afterClose.afterClose = s.afterClose := by
  have h := afterClose_connected s
  generalize s.afterClose = c at h
  simp [Subscriber.afterClose, h]

theorem kerase_eq_filter (k : String) (l : List (Sigma (fun _ : String => Ptr)))
    (nd : l.NodupKeys) : l.kerase k = l.filter (fun e => decide (e.1 ≠ k)) := by
  induction l with
  | nil => simp
  | cons e l ih =>
    have nd' := List.nodupKeys_of_nodupKeys_cons nd
    have hnot := List.not_mem_keys_of_nodupKeys_cons nd
    by_cases h : k = e.1
    · subst h
      rw [List.kerase_cons_eq rfl]
      have h1 : List.kerase e.1 l = l := List.kerase_of_not_mem_keys hnot
      have h2 := ih nd'
      rw [h1] at h2
      rw [List.filter_cons_of_neg (by simp)]
      exact h2
    · rw [List.kerase_cons_ne h, ih nd']
      simp [Ne.symm h]

/-- The cleanup loop over entries whose subscribers have open channels: it
ends, counts the inactive entries, erases their keys from the registry, closes
their subscribers and changes nothing else. -/
theorem cleanupLoop_spec (now : Time) (timeout : Duration)
    (es : List (Sigma (fun _ : String => Ptr))) :
    ∀ (b : Bus) (removed : Nat), (∀ e ∈ es, (b.heap e.2).Safe) →
      ∃ b', Bus.cleanupLoop now timeout es b removed =
          some (b', removed +
            (es.filter (fun e => (b.heap e.2).inactive now timeout)).length) ∧
        b'.stats = b.stats ∧
        b'.subscribers.entries = b.subscribers.entries.filter (fun e => decide (e.1 ∉
          (es.filter (fun e => (b.heap e.2).inactive now timeout)).map Sigma.fst)) ∧
        ∀ q, b'.heap q =
          if (∃ e ∈ es, e.2 = q) ∧ (b.heap q).inactive now timeout = true
          then (b.heap q).afterClose else b.heap q := by
  induction es with
  | nil =>
    intro b removed _
    exact ⟨b, by simp [Bus.cleanupLoop], rfl, by simp, by simp⟩
  | cons e es ih =>
    intro b removed hsafe
    obtain ⟨k, p⟩ := e
    have hsafe_p : (b.heap p).Safe := hsafe ⟨k, p⟩ (List.mem_cons_self _ _)
    by_cases hin : (b.heap p).inactive now timeout = true
    · have hin' : (!(b.heap p).IsConnected ||
          decide (Time.Sub now (b.heap p).LastActivity > timeout)) = true := hin
      have hinact : ∀ q, (Function.update b.heap p (b.heap p).afterClose q).inactive now timeout
          = (b.heap q).inactive now timeout := by
        intro q
        by_cases hq : q = p
        · subst hq; simp [afterClose_inactive, hin]
        · simp [Function.update_noteq hq]
      obtain ⟨b', hloop, hst, hent, hheap⟩ :=
        ih { b with heap := Function.update b.heap p (b.heap p).afterClose
                    subscribers := b.subscribers.delete k } (removed + 1)
          (by
            intro e he
            by_cases hq : e.2 = p
            · intro hc
              have hup : Function.update b.heap p (b.heap p).afterClose e.2
                  = (b.heap p).afterClose := by
                rw [hq]; exact Function.update_same _ _ _
              simp only [] at hc
              rw [hup, afterClose_connected] at hc
              exact absurd hc Bool.false_ne_true
            · simp only [Function.update_noteq hq]
              exact hsafe e (List.mem_cons_of_mem _ he))
      simp only [hinact] at hloop hent hheap
      refine ⟨b', ?_, hst, ?_, ?_⟩
      · simp only [Bus.cleanupLoop, hin', if_true, close_eq_afterClose _ hsafe_p, hloop,
          List.filter_cons, hin, List.length_cons]
        congr 2; omega
      · rw [hent]
        simp only [GoMap.delete, AList.erase, kerase_eq_filter k _ b.subscribers.nodupKeys,
          List.filter_filter, List.filter_cons, hin, if_true, List.map_cons, List.mem_cons,
          not_or]
        refine List.filter_congr (fun x _ => ?_)
        by_cases h1 : x.1 = k <;> simp [h1]
      · intro q
        rw [hheap q]
        by_cases hq : q = p
        · subst hq
          simp [hin, afterClose_afterClose]
        · have : (∃ e ∈ (⟨k, p⟩ :: es : List (Sigma (fun _ : String => Ptr))), e.2 = q) ↔
              ∃ e ∈ es, e.2 = q := by
            simp [Ne.symm hq]
          simp only [this, Function.update_noteq hq]
    · have hin0 : (b.heap p).inactive now timeout = false := by simpa using hin
      have hin' : (!(b.heap p).IsConnected ||
          decide (Time.Sub now (b.heap p).LastActivity > timeout)) = false := hin0
      obtain ⟨b', hloop, hst, hent, hheap⟩ :=
        ih b removed (fun e he => hsafe e (List.mem_cons_of_mem _ he))
      refine ⟨b', ?_, hst, ?_, ?_⟩
      · simp only [Bus.cleanupLoop, hin', Bool.false_eq_true, if_false, hloop,
          List.filter_cons, hin0]
      · rw [hent]
        simp only [List.filter_cons, hin0, Bool.false_eq_true, if_false]
      · intro q
        rw [hheap q]
        by_cases hq : q = p
        · subst hq
          simp [hin0]
        · have : (∃ e ∈ (⟨k, p⟩ :: es : List (Sigma (fun _ : String => Ptr))), e.2 = q) ↔
              ∃ e ∈ es, e.2 = q := by
            simp [Ne.symm hq]
          simp only [this]

theorem inactive_iff (s : Subscriber) (now : Time) (timeout : Duration) :
    s.inactive now timeout = true ↔
      (s.connected = false ∨ Time.Sub now s.LastActivity > timeout) := by
  simp [Subscriber.inactive, Subscriber.IsConnected]

/-- For a timeout in the range of an `int64` and below the largest duration,
the saturation of `Sub` does not show in the comparison with the timeout. -/
theorem timeSub_gt_iff (now t : Time) (timeout : Duration) (h0 : minDuration ≤ timeout)
    (h : timeout < maxDuration) :
    Time.Sub now t > timeout ↔ now - t > timeout := by
  unfold Time.Sub
  unfold maxDuration at h
  unfold minDuration at h0
  unfold maxDuration minDuration
  simp only [Time, Duration] at *
  split_ifs <;> omega

/-- The registry after the cleanup loop, run over the whole registry: the
entries whose subscriber was not inactive, in their order. -/
theorem cleanup_entries (b : Bus) (now : Time) (timeout : Duration) :
    b.subscribers.entries.filter (fun e => decide (e.1 ∉
      (b.subscribers.entries.filter
        (fun e => (b.heap e.2).inactive now timeout)).map Sigma.fst)) =
    b.subscribers.entries.filter (fun e => !(b.heap e.2).inactive now timeout) := by
  refine List.filter_congr (fun x hx => ?_)
  by_cases hI : (b.heap x.2).inactive now timeout = true
  · have : x.1 ∈ (b.subscribers.entries.filter
        (fun e => (b.heap e.2).inactive now timeout)).map Sigma.fst :=
      List.mem_map.mpr ⟨x, List.mem_filter.mpr ⟨hx, hI⟩, rfl⟩
    simp [this, hI]
  · have : x.1 ∉ (b.subscribers.entries.filter
        (fun e => (b.heap e.2).inactive now timeout)).map Sigma.fst := by
      intro hmem
      obtain ⟨y, hy, hxy⟩ := List.mem_map.mp hmem
      obtain ⟨hy1, hy2⟩ := List.mem_filter.mp hy
      have := b.subscribers.nodupKeys.eq_of_fst_eq hy1 hx hxy
      subst this
      exact hI hy2
    simp [this, hI]

/-- C10: on every well-formed bus, for every time and timeout,
`CleanupInactiveSubscribers` returns; it removes the entry of, and closes,
every registered subscriber that is disconnected or whose last activity is more
than `timeout` before `now`; it keeps the entry and the state of every other
registered subscriber, adds no entry, touches no unregistered subscriber, and
returns the number of entries removed. -/
theorem cleanup_removes_exactly_inactive (b : Bus) (hWF : b.WF) (timeout : Duration)
    (now : Time) :
    ∃ b' n, b.CleanupInactiveSubscribers timeout now = some (b', n) ∧
      (∀ id p, b.subscribers.get? id = some p →
        (((b.heap p).connected = false ∨ Time.Sub now (b.heap p).LastActivity > timeout) →
          b'.subscribers.get? id = none ∧ (b.heap p).Close = some (b'.heap p) ∧
            (b'.heap p).connected = false) ∧
        (¬ ((b.heap p).connected = false ∨ Time.Sub now (b.heap p).LastActivity > timeout) →
          b'.subscribers.get? id = some p ∧ b'.heap p = b.heap p)) ∧
      (∀ id, b.subscribers.get? id = none → b'.subscribers.get? id = none) ∧
      (∀ q, ¬ b.registered q → b'.heap q = b.heap q) ∧
      n + b'.subscribers.len = b.subscribers.len ∧
      b'.stats.ActiveSubscribers =
        (if n > 0 then b'.subscribers.len else b.stats.ActiveSubscribers) ∧
      (minDuration ≤ timeout → timeout < maxDuration →
        ∀ t : Time, (Time.Sub now t > timeout ↔ now - t > timeout)) := by
  obtain ⟨bl, hloop, hst, hent, hheap⟩ :=
    cleanupLoop_spec now timeout b.subscribers.entries b 0 (fun e he => (hWF.1 e he).2)
  rw [cleanup_entries] at hent
  rw [Nat.zero_add] at hloop
  set n := (b.subscribers.entries.filter
    (fun e => (b.heap e.2).inactive now timeout)).length with hn
  -- the result differs from the result of the loop in the statistics only
  have hres : ∃ b', b.CleanupInactiveSubscribers timeout now = some (b', n) ∧
      b'.heap = bl.heap ∧ b'.subscribers = bl.subscribers ∧
      b'.stats.ActiveSubscribers =
        (if n > 0 then b'.subscribers.len else b.stats.ActiveSubscribers) := by
    by_cases hpos : n > 0
    · exact ⟨{ bl with stats := { bl.stats with ActiveSubscribers := bl.subscribers.len } },
        by simp only [Bus.CleanupInactiveSubscribers, hloop, hpos, if_true], rfl, rfl,
        by simp [hpos]⟩
    · exact ⟨bl, by simp only [Bus.CleanupInactiveSubscribers, hloop, hpos, if_false],
        rfl, rfl, by simp [hpos, hst]⟩
  obtain ⟨b', hcl, hh, hs, hact⟩ := hres
  have hmem : ∀ id p, b'.subscribers.get? id = some p ↔
      (b.subscribers.get? id = some p ∧ (b.heap p).inactive now timeout = false) := by
    intro id p
    have h1 : b'.subscribers.get? id = some p ↔
        (⟨id, p⟩ : Sigma (fun _ : String => Ptr)) ∈ b'.subscribers.entries :=
      AList.mem_lookup_iff
    have h2 : b.subscribers.get? id = some p ↔
        (⟨id, p⟩ : Sigma (fun _ : String => Ptr)) ∈ b.subscribers.entries :=
      AList.mem_lookup_iff
    rw [h1, h2, hs, hent, List.mem_filter]
    simp
  have hnone : ∀ id, (∀ p, b.subscribers.get? id = some p →
      (b.heap p).inactive now timeout = true) → b'.subscribers.get? id = none := by
    intro id h
    rw [Option.eq_none_iff_forall_not_mem]
    intro q hq
    obtain ⟨hq1, hq2⟩ := (hmem id q).mp hq
    rw [h q hq1] at hq2
    exact Bool.noConfusion hq2
  refine ⟨b', n, hcl, ?_, ?_, ?_, ?_, hact,
    fun h0 h t => timeSub_gt_iff now t timeout h0 h⟩
  · intro id p hp
    have hreg : (∃ e ∈ b.subscribers.entries, e.2 = p) :=
      ⟨⟨id, p⟩, AList.mem_lookup_iff.mp hp, rfl⟩
    constructor
    · intro hcond
      have hI := (inactive_iff _ now timeout).mpr hcond
      have hbp : b'.heap p = (b.heap p).afterClose := by
        rw [hh, hheap p, if_pos ⟨hreg, hI⟩]
      refine ⟨hnone id (fun q hq => ?_), ?_, ?_⟩
      · have : q = p := by
          have h1 : b.subscribers.get? id = some q := hq
          rw [hp] at h1
          exact (Option.some.inj h1).symm
        rw [this]; exact hI
      · rw [hbp]
        exact close_eq_afterClose _ (registered_safe b hWF p ⟨id, hp⟩)
      · rw [hbp]; exact afterClose_connected _
    · intro hcond
      have hI : (b.heap p).inactive now timeout = false := by
        have := mt (inactive_iff _ now timeout).mp hcond
        simpa using this
      refine ⟨(hmem id p).mpr ⟨hp, hI⟩, ?_⟩
      rw [hh, hheap p, if_neg (by simp [hI])]
  · intro id hid
    exact hnone id (fun p hp => by rw [hid] at hp; exact Option.noConfusion hp)
  · intro q hq
    rw [hh, hheap q, if_neg]
    rintro ⟨⟨⟨k, p⟩, he, rfl⟩, -⟩
    exact hq ⟨k, AList.mem_lookup_iff.mpr he⟩
  · rw [hs]
    unfold GoMap.len
    rw [hent, hn]
    exact (List.length_eq_length_filter_add _).symm

/-- B (last activity 0) and C (last activity 1) are subscribed; at time 10 with
timeout 9 only B is inactive: it is closed and removed, C is kept, the count
is 1. -/
theorem cleanup_removes_exactly_inactive_witness :
    fullQueueBus.WF ∧
    (fullQueueBus.CleanupInactiveSubscribers 9 10).map
      (fun x => (x.1.subscribers.keys, x.2, (x.1.heap 1).connected, (x.1.heap 2).connected))
      = some (["C"], 1, false, true) ∧
    ∃ b' n, fullQueueBus.CleanupInactiveSubscribers 9 10 = some (b', n) ∧
      n + b'.subscribers.len = fullQueueBus.subscribers.len := by
  refine ⟨by decide, by decide, ?_⟩
  obtain ⟨b', n, h, -, -, -, hlen, -⟩ :=
    cleanup_removes_exactly_inactive fullQueueBus (by decide) 9 10
  exact ⟨b', n, h, hlen⟩

/-! ### The invariant `Bus.WF`

`NewSubscriber` makes safe subscribers, the methods of a subscriber keep them
safe, and every operation of the bus keeps the bus well-formed. -/

theorem safe_newSubscriber (id : String) (bufferSize : Nat) (now : Time) :
    (NewSubscriber id bufferSize now).Safe := fun _ => rfl

theorem safe_accepted (s : Subscriber) (F : AudioFrame) (t : Time) (h : s.Safe) :
    (s.accepted F t).Safe := h

theorem safe_afterClose (s : Subscriber) : s.afterClose.Safe := by
  intro hc
  rw [afterClose_connected] at hc
  exact absurd hc Bool.false_ne_true

theorem afterClose_ID (s : Subscriber) : s.afterClose.ID = s.ID := by
  unfold Subscriber.afterClose
  split_ifs <;> rfl

theorem safe_send (s s' : Subscriber) (F : AudioFrame) (t : Time) (r : Bool) (h : s.Safe)
    (hs : s.Send F t = some (s', r)) : s'.Safe := by
  unfold Subscriber.Send at hs
  split_ifs at hs <;> simp only [Option.some.injEq, Prod.mk.injEq] at hs <;>
    (obtain ⟨rfl, -⟩ := hs; exact h)

theorem safe_close (s s' : Subscriber) (hs : s.Close = some s') : s'.Safe := by
  intro hc
  unfold Subscriber.Close at hs
  split_ifs at hs with h1 h2
  · simp only [Option.some.injEq] at hs
    subst hs
    exact absurd hc Bool.false_ne_true
  · simp only [Option.some.injEq] at hs
    subst hs
    exact absurd hc h1

theorem wf_newBus (heap : Ptr → Subscriber) : (NewBus heap).WF := by
  refine ⟨fun e he => ?_, by simp [NewBus], by simp [NewBus]⟩
  simp [NewBus] at he

/-- A step that keeps or shrinks the registry, keeps the counters in range and
leaves each subscriber as it was, closed, or with one more frame, keeps the bus
well-formed. -/
theorem wf_step (b b' : Bus) (hWF : b.WF)
    (hsub : ∀ e ∈ b'.subscribers.entries, e ∈ b.subscribers.entries)
    (hheap : ∀ q, b'.heap q = b.heap q ∨ b'.heap q = (b.heap q).afterClose ∨
      ∃ F t, b'.heap q = (b.heap q).accepted F t)
    (hT : b'.stats.TotalFrames < 2 ^ 64) (hD : b'.stats.DroppedFrames < 2 ^ 64) : b'.WF := by
  refine ⟨fun e he => ?_, hT, hD⟩
  obtain ⟨hid, hsafe⟩ := hWF.1 e (hsub e he)
  rcases hheap e.2 with h | h | ⟨F, t, h⟩
  · rw [h]; exact ⟨hid, hsafe⟩
  · rw [h]; exact ⟨(afterClose_ID _).trans hid, safe_afterClose _⟩
  · rw [h]; exact ⟨hid, safe_accepted _ F t hsafe⟩

theorem wf_subscribe (b : Bus) (hWF : b.WF) (s : Ptr) (hs : (b.heap s).Safe) :
    (b.Subscribe s).WF := by
  refine ⟨fun e he => ?_, hWF.2.1, hWF.2.2⟩
  simp only [Bus.Subscribe, GoMap.set, AList.insert_entries, List.mem_cons] at he
  rcases he with rfl | he
  · exact ⟨rfl, hs⟩
  · exact hWF.1 e ((List.kerase_sublist _ _).subset he)

theorem wf_unsubscribe (b b' : Bus) (hWF : b.WF) (id : String)
    (h : b.Unsubscribe id = some b') : b'.WF := by
  unfold Bus.Unsubscribe at h
  cases hl : b.subscribers.get? id with
  | none =>
    simp only [hl, Option.some.injEq] at h
    subst h; exact hWF
  | some p =>
    have hsafe := registered_safe b hWF p ⟨id, hl⟩
    simp only [hl, close_eq_afterClose _ hsafe, Option.some.injEq] at h
    subst h
    refine wf_step b _ hWF (fun e he => (List.kerase_sublist _ _).subset he) (fun q => ?_)
      hWF.2.1 hWF.2.2
    by_cases hq : q = p
    · subst hq; exact Or.inr (Or.inl (by simp))
    · exact Or.inl (by simp [Function.update_noteq hq])

theorem wf_publish (b b' : Bus) (hWF : b.WF) (M : String) (F : AudioFrame) (now : Time)
    (clock : Nat → Time) (r : Bool) (h : b.Publish M F now clock = some (b', r)) : b'.WF := by
  obtain ⟨b1, r1, hpub, -, hsub, hst, hheap⟩ := publish_spec b hWF M F now clock
  rw [hpub] at h
  simp only [Option.some.injEq, Prod.mk.injEq] at h
  obtain ⟨rfl, -⟩ := h
  refine wf_step b b1 hWF (fun e he => hsub ▸ he) (fun q => ?_) ?_ ?_
  · rw [hheap q]
    split_ifs
    · exact Or.inr (Or.inr ⟨F, _, rfl⟩)
    · exact Or.inl rfl
  · rw [hst]; exact Nat.mod_lt _ (by norm_num)
  · rw [hst]; exact Nat.mod_lt _ (by norm_num)

theorem wf_cleanup (b b' : Bus) (hWF : b.WF) (timeout : Duration) (now : Time) (n : Nat)
    (h : b.CleanupInactiveSubscribers timeout now = some (b', n)) : b'.WF := by
  obtain ⟨bl, hloop, hst, hent, hheap⟩ :=
    cleanupLoop_spec now timeout b.subscribers.entries b 0 (fun e he => (hWF.1 e he).2)
  have hbl : bl.WF := by
    refine wf_step b bl hWF (fun e he => ?_) (fun q => ?_) (hst ▸ hWF.2.1) (hst ▸ hWF.2.2)
    · rw [hent] at he; exact (List.mem_filter.mp he).1
    · rw [hheap q]
      split_ifs
      · exact Or.inr (Or.inl rfl)
      · exact Or.inl rfl
  unfold Bus.CleanupInactiveSubscribers at h
  simp only [hloop] at h
  split_ifs at h <;> simp only [Option.some.injEq, Prod.mk.injEq] at h <;>
    (obtain ⟨rfl, -⟩ := h; exact hbl)

end Audio

/-! # Process manager: properties -/

namespace Main

open Audio Zoomsdk

/-! ### The port allocator -/

/-- The loop of `allocatePort` changes the counter and the claimed ports only. -/
theorem allocatePortLoop_frame (n : Nat) :
    ∀ pm : ProcessManager,
      (ProcessManager.allocatePortLoop n pm).1.heap = pm.heap ∧
      (ProcessManager.allocatePortLoop n pm).1.allocated = pm.allocated ∧
      (ProcessManager.allocatePortLoop n pm).1.workers = pm.workers ∧
      (ProcessManager.allocatePortLoop n pm).1.basePort = pm.basePort ∧
      (ProcessManager.allocatePortLoop n pm).1.maxPort = pm.maxPort := by
  induction n with
  | zero => intro pm; simp [ProcessManager.allocatePortLoop]
  | succ n ih =>
    intro pm
    unfold ProcessManager.allocatePortLoop
    simp only []
    split
    · exact ih _
    · simp

/-- The loop of `allocatePort` either claims nothing and returns 0, or returns a
port that was unclaimed and is the only port it claims. -/
theorem allocatePortLoop_claims (n : Nat) :
    ∀ pm : ProcessManager,
      ((ProcessManager.allocatePortLoop n pm).1.usedPorts = pm.usedPorts ∧
        (ProcessManager.allocatePortLoop n pm).2 = 0) ∨
      (pm.usedPorts.get? (ProcessManager.allocatePortLoop n pm).2 = none ∧
        (ProcessManager.allocatePortLoop n pm).1.usedPorts =
          pm.usedPorts.set (ProcessManager.allocatePortLoop n pm).2 true ∧
        pm.basePort ≤ (ProcessManager.allocatePortLoop n pm).2) := by
  induction n with
  | zero => intro pm; simp [ProcessManager.allocatePortLoop]
  | succ n ih =>
    intro pm
    unfold ProcessManager.allocatePortLoop
    simp only []
    split
    · exact ih { pm with nextPort := (pm.nextPort + 1) % 2 ^ 32 }
    · rename_i h
      exact Or.inr ⟨h, rfl, Nat.le_add_right _ _⟩

/-- When every candidate the loop probes is claimed, the loop returns 0 and
claims nothing. -/
theorem allocatePortLoop_fails (n : Nat) :
    ∀ pm : ProcessManager,
      (∀ i, 1 ≤ i → i ≤ n →
        pm.usedPorts.get? (pm.basePort + ((pm.nextPort + i) % 2 ^ 32) %
          (pm.maxPort - pm.basePort)) ≠ none) →
      (ProcessManager.allocatePortLoop n pm).2 = 0 ∧
      (ProcessManager.allocatePortLoop n pm).1.usedPorts = pm.usedPorts := by
  induction n with
  | zero => intro pm _; simp [ProcessManager.allocatePortLoop]
  | succ n ih =>
    intro pm h
    unfold ProcessManager.allocatePortLoop
    simp only []
    split
    · refine ih _ (fun i h1 h2 => ?_)
      have := h (i + 1) (by omega) (by omega)
      have e : ((pm.nextPort + 1) % 2 ^ 32 + i) % 2 ^ 32 = (pm.nextPort + (i + 1)) % 2 ^ 32 := by
        omega
      rw [e]; exact this
    · rename_i hnone
      exact absurd hnone (h 1 (le_refl 1) (by omega))

/-- When the first candidate is unclaimed, `allocatePort` claims and returns
it. -/
theorem allocatePort_first (pm : ProcessManager) (hw : 0 < pm.maxPort - pm.basePort)
    (h : pm.usedPorts.get? pm.firstCandidate = none) :
    pm.allocatePort.2 = pm.firstCandidate ∧
    pm.allocatePort.1.usedPorts = pm.usedPorts.set pm.firstCandidate true := by
  unfold ProcessManager.allocatePort
  obtain ⟨n, hn⟩ : ∃ n, pm.maxPort - pm.basePort = n + 1 := ⟨pm.maxPort - pm.basePort - 1, by omega⟩
  unfold ProcessManager.firstCandidate at h ⊢
  rw [hn] at h ⊢
  unfold ProcessManager.allocatePortLoop
  simp only [hn, h, and_self]

/-- The ports held by `claimedPorts base n` are `base`, ..., `base + n - 1`. -/
theorem claimedPorts_get (base n p : Nat) :
    (claimedPorts base n).get? p ≠ none ↔ base ≤ p ∧ p < base + n := by
  unfold claimedPorts GoMap.get?
  rw [AList.lookup_to_alist, ← Option.isSome_iff_ne_none, List.dlookup_isSome]
  simp only [List.keys, List.map_map, List.mem_map, List.mem_range, Function.comp]
  constructor
  · rintro ⟨r, hr, rfl⟩; omega
  · rintro ⟨h1, h2⟩; exact ⟨p - base, by omega, by omega⟩

theorem get_set_self (m : GoMap Nat Bool) (p : Nat) (v : Bool) :
    (m.set p v).get? p = some v := by
  simp [GoMap.get?, GoMap.set, AList.lookup_insert]

theorem get_set_ne (m : GoMap Nat Bool) (p q : Nat) (v : Bool) (h : q ≠ p) :
    (m.set p v).get? q = m.get? q := by
  simp [GoMap.get?, GoMap.set, AList.lookup_insert_ne h]

theorem get_delete_self (m : GoMap Nat Bool) (p : Nat) : (m.delete p).get? p = none := by
  simp [GoMap.get?, GoMap.delete, AList.lookup_erase]

theorem get_delete_ne (m : GoMap Nat Bool) (p q : Nat) (h : q ≠ p) :
    (m.delete p).get? q = m.get? q := by
  simp [GoMap.get?, GoMap.delete, AList.lookup_erase_ne h]

/-- What holds of the allocator alone: every call of `allocatePort` that returns
a port returns one that was unclaimed and claims exactly it; after
`usedPorts.Delete(port)` the port is unclaimed, the call whose first candidate
it is returns it, and such a call exists for every port of the probed range. -/
theorem allocatePort_claims_unclaimed :
    (∀ pm : ProcessManager, pm.allocatePort.2 ≠ 0 →
      pm.usedPorts.get? pm.allocatePort.2 = none ∧
      pm.allocatePort.1.usedPorts = pm.usedPorts.set pm.allocatePort.2 true ∧
      pm.allocatePort.1.usedPorts.get? pm.allocatePort.2 = some true) ∧
    (∀ (pm : ProcessManager) (port : Nat),
      (pm.releasePort port).usedPorts.get? port = none ∧
      (∀ q, q ≠ port → (pm.releasePort port).usedPorts.get? q = pm.usedPorts.get? q) ∧
      (0 < pm.maxPort - pm.basePort → (pm.releasePort port).firstCandidate = port →
        (pm.releasePort port).allocatePort.2 = port) ∧
      (pm.basePort ≤ port → port < pm.maxPort → pm.maxPort - pm.basePort < 2 ^ 32 →
        ∃ n, ({ pm.releasePort port with nextPort := n } : ProcessManager).allocatePort.2
          = port)) := by
  refine ⟨fun pm h0 => ?_, fun pm port => ⟨?_, ?_, ?_, ?_⟩⟩
  · unfold ProcessManager.allocatePort at h0 ⊢
    rcases allocatePortLoop_claims (pm.maxPort - pm.basePort) pm with ⟨-, h⟩ | ⟨hfree, hu, -⟩
    · exact absurd h h0
    · exact ⟨hfree, hu, by rw [hu, get_set_self]⟩
  · exact get_delete_self _ _
  · intro q hq
    exact get_delete_ne _ _ _ hq
  · intro hw hfirst
    have hfree : (pm.releasePort port).usedPorts.get? (pm.releasePort port).firstCandidate
        = none := by
      rw [hfirst]; exact get_delete_self _ _
    have := (allocatePort_first (pm.releasePort port) hw hfree).1
    rw [this, hfirst]
  · intro hb hm hw
    let n := if port = pm.basePort then pm.maxPort - pm.basePort - 1 else port - pm.basePort - 1
    have hcand : ({ pm.releasePort port with nextPort := n } : ProcessManager).firstCandidate
        = port := by
      show pm.basePort + ((n + 1) % 2 ^ 32) % (pm.maxPort - pm.basePort) = port
      by_cases hp : port = pm.basePort
      · have hn : n = pm.maxPort - pm.basePort - 1 := if_pos hp
        have e : n + 1 = pm.maxPort - pm.basePort := by omega
        rw [e, Nat.mod_eq_of_lt hw, Nat.mod_self]
        omega
      · have hn : n = port - pm.basePort - 1 := if_neg hp
        have e : n + 1 = port - pm.basePort := by omega
        rw [e, Nat.mod_eq_of_lt (by omega), Nat.mod_eq_of_lt (by omega)]
        omega
    have hfree : ({ pm.releasePort port with nextPort := n } : ProcessManager).usedPorts.get?
        ({ pm.releasePort port with nextPort := n } : ProcessManager).firstCandidate = none := by
      rw [hcand]; exact get_delete_self _ _
    refine ⟨n, ?_⟩
    have := (allocatePort_first _ (by show 0 < pm.maxPort - pm.basePort; omega) hfree).1
    rw [this, hcand]

/-- C12, at the failing input: on the default manager (ports 9000 to 9999) with
9000 to 9998 claimed, port 9999 is unclaimed, yet `allocatePort` returns 0 and
`JoinMeeting` reports that no port is available: the loop probes
`maxPort - basePort = 999` candidates `9000 + n % 999` and never 9999. -/
theorem allocatePort_fails_with_maxPort_free :
    exhaustedManager.basePort = 9000 ∧ exhaustedManager.maxPort = 9999 ∧
    exhaustedManager.usedPorts.get? 9999 = none ∧
    exhaustedManager.allocatePort.2 = 0 ∧
    (∀ (id : String) (out : SpawnOutcome) (now : Time),
      (exhaustedManager.JoinMeeting id out now).map (fun r => r.2)
        = some (some ManagerError.noAvailablePorts)) := by
  have hfree : exhaustedManager.usedPorts.get? 9999 = none := by
    by_contra h
    have := (claimedPorts_get 9000 999 9999).mp h
    omega
  have hfail := allocatePortLoop_fails 999 exhaustedManager (by
    intro i h1 h2
    refine (claimedPorts_get 9000 999 _).mpr ⟨?_, ?_⟩
    · show 9000 ≤ 9000 + _
      omega
    · show 9000 + ((0 + i) % 2 ^ 32) % (9999 - 9000) < 9000 + 999
      omega)
  have hzero : exhaustedManager.allocatePort.2 = 0 := hfail.1
  refine ⟨rfl, rfl, hfree, hzero, fun id out now => ?_⟩
  have hw : exhaustedManager.workers.get? id = none := rfl
  simp only [ProcessManager.JoinMeeting, hw, hzero, if_true, Option.map_some']

/-- The same failure at the wrap of the `uint32` counter: with the counter at
`2 ^ 32 - 2` and the ports 9000 to 9997 claimed, the 999 probes are 9561 and
then 9000 to 9997, so the unclaimed port 9998 of the probed range is missed and
`allocatePort` returns 0. -/
theorem allocatePort_fails_at_counter_wrap :
    wrapManager.usedPorts.get? 9998 = none ∧ wrapManager.allocatePort.2 = 0 := by
  have hfree : wrapManager.usedPorts.get? 9998 = none := by
    by_contra h
    have := (claimedPorts_get 9000 998 9998).mp h
    omega
  have hfail := allocatePortLoop_fails 999 wrapManager (by
    intro i h1 h2
    refine (claimedPorts_get 9000 998 _).mpr ⟨?_, ?_⟩
    · show 9000 ≤ 9000 + _
      omega
    · show 9000 + ((4294967294 + i) % 4294967296) % 999 < 9000 + 998
      rcases Nat.lt_or_ge i 2 with hi | hi
      · have : i = 1 := by omega
        subst this
        decide
      · have e : (4294967294 + i) % 4294967296 = i - 2 := by omega
        rw [e]
        omega)
  exact ⟨hfree, hfail.1⟩

/-- When some candidate the loop probes is unclaimed, the loop returns an
unclaimed port at or above `basePort` and claims it. -/
theorem allocatePortLoop_succeeds (n : Nat) :
    ∀ pm : ProcessManager,
      (∃ i, 1 ≤ i ∧ i ≤ n ∧
        pm.usedPorts.get? (pm.basePort + ((pm.nextPort + i) % 2 ^ 32) %
          (pm.maxPort - pm.basePort)) = none) →
      pm.basePort ≤ (ProcessManager.allocatePortLoop n pm).2 ∧
      pm.usedPorts.get? (ProcessManager.allocatePortLoop n pm).2 = none ∧
      (ProcessManager.allocatePortLoop n pm).1.usedPorts =
        pm.usedPorts.set (ProcessManager.allocatePortLoop n pm).2 true := by
  induction n with
  | zero => rintro pm ⟨i, h1, h2, -⟩; omega
  | succ n ih =>
    rintro pm ⟨i, h1, h2, hfree⟩
    unfold ProcessManager.allocatePortLoop
    simp only []
    split
    · rename_i v hv
      have hi : i ≠ 1 := by
        rintro rfl
        rw [hfree] at hv
        exact Option.noConfusion hv
      have e : ((pm.nextPort + 1) % 2 ^ 32 + (i - 1)) % 2 ^ 32 = (pm.nextPort + i) % 2 ^ 32 := by
        omega
      have hi1 : 1 ≤ i - 1 := by omega
      have hi2 : i - 1 ≤ n := by omega
      exact ih { pm with nextPort := (pm.nextPort + 1) % 2 ^ 32 }
        ⟨i - 1, hi1, hi2, by simp only [e]; exact hfree⟩
    · rename_i hnone
      exact ⟨Nat.le_add_right _ _, hnone, rfl⟩

/-- What holds of the scan: when the counter does not wrap during the call,
every port from `basePort` to `maxPort - 1` is probed, so `allocatePort`
returns an unclaimed port whenever one of them is unclaimed. -/
theorem allocatePort_succeeds_without_wrap (pm : ProcessManager) (port : Nat)
    (hwrap : pm.nextPort + (pm.maxPort - pm.basePort) < 2 ^ 32)
    (hb : pm.basePort ≤ port) (hm : port < pm.maxPort)
    (hfree : pm.usedPorts.get? port = none) :
    pm.basePort ≤ pm.allocatePort.2 ∧
    pm.usedPorts.get? pm.allocatePort.2 = none ∧
    pm.allocatePort.1.usedPorts = pm.usedPorts.set pm.allocatePort.2 true := by
  unfold ProcessManager.allocatePort
  refine allocatePortLoop_succeeds _ pm ?_
  -- the iteration whose counter value is congruent to `port - basePort`
  have hw : 0 < pm.maxPort - pm.basePort := by omega
  set w := pm.maxPort - pm.basePort with hwdef
  set r := port - pm.basePort with hr
  have hrw : r < w := by omega
  let i := (r + w - pm.nextPort % w) % w
  by_cases hi0 : i = 0
  · refine ⟨w, hw, le_refl _, ?_⟩
    have e1 : (pm.nextPort + w) % 2 ^ 32 = pm.nextPort + w := Nat.mod_eq_of_lt hwrap
    have e2 : (pm.nextPort + w) % w = r := by
      have hmod : (r + w - pm.nextPort % w) % w = 0 := hi0
      have hlt := Nat.mod_lt pm.nextPort hw
      rw [Nat.add_mod_right]
      have hdvd : w ∣ r + w - pm.nextPort % w := Nat.dvd_of_mod_eq_zero hmod
      obtain ⟨k, hk⟩ := hdvd
      have hk1 : k = 1 ∨ k = 0 := by
        rcases Nat.lt_or_ge k 2 with h | h
        · omega
        · exfalso
          have : w * 2 ≤ w * k := Nat.mul_le_mul_left w h
          omega
      rcases hk1 with rfl | rfl
      · omega
      · omega
    rw [e1, e2]
    have : pm.basePort + r = port := by omega
    rw [this]; exact hfree
  · have hiw : i < w := Nat.mod_lt _ hw
    refine ⟨i, by omega, by omega, ?_⟩
    have e1 : (pm.nextPort + i) % 2 ^ 32 = pm.nextPort + i := Nat.mod_eq_of_lt (by omega)
    have e2 : (pm.nextPort + i) % w = r := by
      have hlt := Nat.mod_lt pm.nextPort hw
      have h1 : (pm.nextPort + i) % w = (pm.nextPort % w + i) % w := by
        rw [Nat.add_mod, Nat.mod_eq_of_lt hiw]
      rw [h1]
      show (pm.nextPort % w + (r + w - pm.nextPort % w) % w) % w = r
      rw [Nat.add_mod_mod]
      have : pm.nextPort % w + (r + w - pm.nextPort % w) = r + w := by omega
      rw [this, Nat.add_mod_right, Nat.mod_eq_of_lt hrw]
    rw [e1, e2]
    have : pm.basePort + r = port := by omega
    rw [this]; exact hfree

/-! ### JoinMeeting -/

theorem goMap_delete_of_none {κ ν : Type} [DecidableEq κ] (m : GoMap κ ν) (k : κ)
    (h : m.get? k = none) : m.delete k = m := by
  have hk : k ∉ m.keys := AList.mem_keys.not.mp (AList.lookup_eq_none.mp h)
  exact AList.ext (List.kerase_of_not_mem_keys hk)

theorem goMap_delete_set {κ ν : Type} [DecidableEq κ] (m : GoMap κ ν) (k : κ) (v : ν)
    (h : m.get? k = none) : (m.set k v).delete k = m := by
  have hk : k ∉ m.keys := AList.mem_keys.not.mp (AList.lookup_eq_none.mp h)
  refine AList.ext ?_
  show List.kerase k (m.insert k v).entries = m.entries
  rw [AList.insert_entries,
    @List.kerase_cons_eq κ (fun _ => ν) _ k ⟨k, v⟩ (List.kerase k m.entries) rfl,
    List.kerase_of_not_mem_keys hk]

theorem goMap_delete_delete {κ ν : Type} [DecidableEq κ] (m : GoMap κ ν) (k : κ) :
    (m.delete k).delete k = m.delete k :=
  goMap_delete_of_none _ _ (by simp [GoMap.get?, GoMap.delete, AList.lookup_erase])

/-- The monitor of a worker whose `stopChan` is open: it returns, sets the
status from the exit, closes `stopChan` and deletes the registry entry of the
worker's meeting identifier and the worker's port. -/
theorem monitorWorker_spec (pm : ProcessManager) (worker : WPtr) (err : Bool)
    (h : (pm.heap worker).stopChan = false) :
    pm.monitorWorker worker err = some
      { pm with
        heap := Function.update pm.heap worker
          { pm.heap worker with
            Status := if err then StatusFailed else StatusIdle, stopChan := true }
        workers := pm.workers.delete (pm.heap worker).MeetingID
        usedPorts := pm.usedPorts.delete (pm.heap worker).Port } := by
  simp [ProcessManager.monitorWorker, WorkerProcess.observeExit, h]

/-- The result of `spawnWorker` when the process exits during the wait. -/
theorem spawnWorker_exit (pm : ProcessManager) (meetingID : String) (port pid : Nat)
    (err ready : Bool) (now : Time) :
    pm.spawnWorker meetingID port (SpawnOutcome.started pid (some err) ready) now =
      some
        ({ pm with
            heap := Function.update pm.heap pm.allocated
              (if ready then
                { WorkerProcess.spawned meetingID port pid now with
                  Status := StatusInMeeting, stopChan := true }
               else
                ({ WorkerProcess.spawned meetingID port pid now with
                  Status := if err then StatusFailed else StatusIdle,
                  stopChan := true } : WorkerProcess).Stop)
            allocated := pm.allocated + 1
            workers := pm.workers.delete meetingID
            usedPorts := pm.usedPorts.delete port },
          if ready then some pm.allocated else none) := by
  cases ready <;>
    simp [ProcessManager.spawnWorker, ProcessManager.monitorWorker, WorkerProcess.observeExit,
      WorkerProcess.spawned]

/-- What `spawnWorker` returns: it never panics; the registry and the claimed
ports are as before, except that the monitor, when the process exits during
the wait, deletes the entry of `meetingID` and the port; a worker is returned
exactly when the process started and became ready, and it is the new worker. -/
theorem spawnWorker_spec (pm : ProcessManager) (meetingID : String) (port : Nat)
    (out : SpawnOutcome) (now : Time) :
    ∃ pm' res, pm.spawnWorker meetingID port out now = some (pm', res) ∧
      (pm'.workers = pm.workers ∨ pm'.workers = pm.workers.delete meetingID) ∧
      (pm'.usedPorts = pm.usedPorts ∨ pm'.usedPorts = pm.usedPorts.delete port) ∧
      pm'.basePort = pm.basePort ∧ pm'.maxPort = pm.maxPort ∧ pm'.nextPort = pm.nextPort ∧
      (out = SpawnOutcome.startFailed → pm' = pm ∧ res = none) ∧
      (∀ worker, res = some worker →
        worker = pm.allocated ∧ pm'.allocated = pm.allocated + 1 ∧
        (pm'.heap worker).MeetingID = meetingID ∧ (pm'.heap worker).Port = port ∧
        (pm'.heap worker).Status = StatusInMeeting) := by
  cases out with
  | startFailed =>
    exact ⟨pm, none, rfl, Or.inl rfl, Or.inl rfl, rfl, rfl, rfl, fun _ => ⟨rfl, rfl⟩,
      fun w hw => Option.noConfusion hw⟩
  | started pid exit ready =>
    cases exit with
    | none =>
      cases ready with
      | false =>
        refine ⟨_, _, rfl, ?_⟩
        exact ⟨Or.inl rfl, Or.inl rfl, rfl, rfl, rfl, fun h => SpawnOutcome.noConfusion h,
          fun w hw => Option.noConfusion hw⟩
      | true =>
        refine ⟨_, _, rfl, ?_⟩
        refine ⟨Or.inl rfl, Or.inl rfl, rfl, rfl, rfl, fun h => SpawnOutcome.noConfusion h,
          fun w hw => ?_⟩
        obtain rfl := Option.some.inj hw
        simp [WorkerProcess.spawned]
    | some err =>
      rw [spawnWorker_exit]
      cases ready with
      | false =>
        refine ⟨_, _, rfl, ?_⟩
        exact ⟨Or.inr rfl, Or.inr rfl, rfl, rfl, rfl, fun h => SpawnOutcome.noConfusion h,
          fun w hw => Option.noConfusion hw⟩
      | true =>
        refine ⟨_, _, rfl, ?_⟩
        refine ⟨Or.inr rfl, Or.inr rfl, rfl, rfl, rfl, fun h => SpawnOutcome.noConfusion h,
          fun w hw => ?_⟩
        obtain rfl := Option.some.inj hw
        simp [WorkerProcess.spawned]

theorem joinMeeting_existing (pm : ProcessManager) (meetingID : String) (worker : WPtr)
    (h : pm.workers.get? meetingID = some worker) (out : SpawnOutcome) (now : Time) :
    pm.JoinMeeting meetingID out now = some (pm, some (ManagerError.alreadyExists meetingID)) := by
  simp only [ProcessManager.JoinMeeting, h]

theorem register_existing (pm : ProcessManager) (meetingID : String) (worker other : WPtr)
    (port : Nat) (h : pm.workers.get? meetingID = some other) :
    pm.register meetingID worker port =
      ({ pm with heap := Function.update pm.heap worker (pm.heap worker).Stop
                 usedPorts := pm.usedPorts.delete port },
        some (ManagerError.alreadyExists meetingID)) := by
  simp only [ProcessManager.register, h]

theorem register_new (pm : ProcessManager) (meetingID : String) (worker : WPtr)
    (port : Nat) (h : pm.workers.get? meetingID = none) :
    pm.register meetingID worker port =
      ({ pm with workers := pm.workers.set meetingID worker }, none) := by
  simp only [ProcessManager.register, h]

/-- `JoinMeeting` for a meeting that has no entry: it returns; on an error the
registry is as before, and so are the claimed ports when `basePort` is
positive; on success the new worker is stored under `meetingID` and every port
claimed before is still claimed. -/
theorem joinMeeting_new (pm : ProcessManager) (meetingID : String)
    (hnone : pm.workers.get? meetingID = none) (out : SpawnOutcome) (now : Time) :
    ∃ pm' e, pm.JoinMeeting meetingID out now = some (pm', e) ∧
      (∀ err, e = some err →
        pm'.workers = pm.workers ∧ (0 < pm.basePort → pm'.usedPorts = pm.usedPorts) ∧
        err ≠ ManagerError.alreadyExists meetingID) ∧
      (e = none →
        pm'.workers = pm.workers.set meetingID pm.allocated ∧
        pm'.allocated = pm.allocated + 1 ∧
        (pm'.heap pm.allocated).MeetingID = meetingID ∧
        (pm'.heap pm.allocated).Port = pm.allocatePort.2 ∧
        (pm'.heap pm.allocated).Status = StatusInMeeting ∧
        pm.usedPorts.get? pm.allocatePort.2 = none ∧
        (∀ p, pm.usedPorts.get? p ≠ none → pm'.usedPorts.get? p = pm.usedPorts.get? p)) := by
  have hframe := allocatePortLoop_frame (pm.maxPort - pm.basePort) pm
  have hclaims := allocatePortLoop_claims (pm.maxPort - pm.basePort) pm
  change _ ∧ pm.allocatePort.1.allocated = _ ∧ pm.allocatePort.1.workers = _ ∧ _ at hframe
  change (pm.allocatePort.1.usedPorts = _ ∧ pm.allocatePort.2 = 0) ∨
    (pm.usedPorts.get? pm.allocatePort.2 = none ∧
      pm.allocatePort.1.usedPorts = pm.usedPorts.set pm.allocatePort.2 true ∧
      pm.basePort ≤ pm.allocatePort.2) at hclaims
  obtain ⟨-, halloc, hworkers, -, -⟩ := hframe
  by_cases h0 : pm.allocatePort.2 = 0
  · refine ⟨pm.allocatePort.1, some ManagerError.noAvailablePorts,
      by simp only [ProcessManager.JoinMeeting, hnone, h0, if_true], ?_,
      fun h => Option.noConfusion h⟩
    intro err _
    refine ⟨hworkers, fun hbase => ?_, ?_⟩
    · rcases hclaims with ⟨hu, -⟩ | ⟨-, -, hge⟩
      · exact hu
      · omega
    · intro h
      obtain rfl := Option.some.inj ‹some ManagerError.noAvailablePorts = some err›
      exact ManagerError.noConfusion h
  · obtain ⟨hfree, hu, -⟩ : pm.usedPorts.get? pm.allocatePort.2 = none ∧
        pm.allocatePort.1.usedPorts = pm.usedPorts.set pm.allocatePort.2 true ∧
        pm.basePort ≤ pm.allocatePort.2 := by
      rcases hclaims with ⟨-, h⟩ | h
      · exact absurd h h0
      · exact h
    obtain ⟨pm2, res, hsp, hw2, hu2, -, -, -, -, hres⟩ :=
      spawnWorker_spec pm.allocatePort.1 meetingID pm.allocatePort.2 out now
    have hw2' : pm2.workers = pm.workers := by
      rcases hw2 with h | h
      · rw [h, hworkers]
      · rw [h, hworkers]; exact goMap_delete_of_none _ _ hnone
    cases res with
    | none =>
      refine ⟨{ pm2 with usedPorts := pm2.usedPorts.delete pm.allocatePort.2 },
        some ManagerError.failedToSpawn,
        by simp only [ProcessManager.JoinMeeting, hnone, h0, if_false, hsp], ?_,
        fun h => Option.noConfusion h⟩
      intro err herr
      refine ⟨hw2', fun _ => ?_, ?_⟩
      · show pm2.usedPorts.delete pm.allocatePort.2 = pm.usedPorts
        rcases hu2 with h | h
        · rw [h, hu]; exact goMap_delete_set _ _ _ hfree
        · rw [h, hu, goMap_delete_delete]; exact goMap_delete_set _ _ _ hfree
      · intro h
        obtain rfl := Option.some.inj herr
        exact ManagerError.noConfusion h
    | some worker =>
      obtain ⟨hwk, hal, hmid, hport, hstatus⟩ := hres worker rfl
      have hnone2 : pm2.workers.get? meetingID = none := by rw [hw2']; exact hnone
      refine ⟨{ pm2 with workers := pm2.workers.set meetingID worker }, none,
        by simp only [ProcessManager.JoinMeeting, hnone, h0, if_false, hsp,
          register_new pm2 meetingID worker _ hnone2],
        fun err h => Option.noConfusion h, fun _ => ?_⟩
      have hwk' : worker = pm.allocated := hwk.trans halloc
      subst hwk'
      refine ⟨by rw [← hw2'], by rw [hal, halloc], hmid, hport, hstatus, hfree,
        fun p hp => ?_⟩
      have hne : p ≠ pm.allocatePort.2 := by
        rintro rfl
        exact hp hfree
      show pm2.usedPorts.get? p = _
      rcases hu2 with h | h
      · rw [h, hu, get_set_ne _ _ _ _ hne]
      · rw [h, hu, get_delete_ne _ _ _ hne, get_set_ne _ _ _ _ hne]

theorem manager_joinMeeting_existing (m : Manager) (meetingID : String)
    (inst : MeetingInstance) (h : m.meetings.get? meetingID = some inst) (startOk : Bool)
    (now : Time) :
    m.JoinMeeting meetingID startOk now = (m, some (ManagerError.alreadyExists meetingID)) := by
  simp only [Manager.JoinMeeting, h]

theorem manager_joinMeeting_success (m m1 : Manager) (meetingID : String) (startOk : Bool)
    (now : Time) (h : m.JoinMeeting meetingID startOk now = (m1, none)) :
    ∃ inst, m1.meetings.get? meetingID = some inst := by
  unfold Manager.JoinMeeting at h
  cases hg : m.meetings.get? meetingID with
  | some inst => simp [hg] at h
  | none =>
    cases startOk with
    | false => simp [hg] at h
    | true =>
      simp only [hg, Bool.not_true, Bool.false_eq_true, if_false, Prod.mk.injEq, and_true] at h
      subst h
      exact ⟨NewMeetingInstance meetingID now,
        by simp [GoMap.get?, GoMap.set, AList.lookup_insert]⟩

/-- C13: for every manager state with an entry for `meetingID`, `JoinMeeting`
returns the duplicate-meeting error and the state it was called in: no worker
is created, the registry and the claimed ports are unchanged. Hence a join that
follows a successful join for the same identifier fails. The same holds for
the in-process `Manager`. -/
theorem joinMeeting_duplicate_fails (pm : ProcessManager) (meetingID : String) (worker : WPtr)
    (h : pm.workers.get? meetingID = some worker) (out : SpawnOutcome) (now : Time) :
    pm.JoinMeeting meetingID out now = some (pm, some (ManagerError.alreadyExists meetingID)) ∧
    (∀ (pm0 pm1 : ProcessManager) (out0 out1 : SpawnOutcome) (now0 now1 : Time),
      pm0.JoinMeeting meetingID out0 now0 = some (pm1, none) →
      pm1.JoinMeeting meetingID out1 now1
        = some (pm1, some (ManagerError.alreadyExists meetingID))) ∧
    (∀ (m : Manager) (inst : MeetingInstance) (startOk : Bool) (now0 : Time),
      m.meetings.get? meetingID = some inst →
      m.JoinMeeting meetingID startOk now0
        = (m, some (ManagerError.alreadyExists meetingID))) ∧
    (∀ (m m1 : Manager) (s0 s1 : Bool) (now0 now1 : Time),
      m.JoinMeeting meetingID s0 now0 = (m1, none) →
      m1.JoinMeeting meetingID s1 now1
        = (m1, some (ManagerError.alreadyExists meetingID))) := by
  refine ⟨joinMeeting_existing pm meetingID worker h out now, ?_,
    fun m inst startOk now0 hm => manager_joinMeeting_existing m meetingID inst hm startOk now0,
    ?_⟩
  · intro pm0 pm1 out0 out1 now0 now1 hjoin
    cases hg : pm0.workers.get? meetingID with
    | some w =>
      rw [joinMeeting_existing pm0 meetingID w hg] at hjoin
      simp at hjoin
    | none =>
      obtain ⟨pm', e, heq, -, hsucc⟩ := joinMeeting_new pm0 meetingID hg out0 now0
      rw [heq] at hjoin
      simp only [Option.some.injEq, Prod.mk.injEq] at hjoin
      obtain ⟨rfl, rfl⟩ := hjoin
      have hw := (hsucc rfl).1
      exact joinMeeting_existing pm' meetingID pm0.allocated
        (by rw [hw]; simp [GoMap.get?, GoMap.set, AList.lookup_insert]) out1 now1
  · intro m m1 s0 s1 now0 now1 hjoin
    obtain ⟨inst, hinst⟩ := manager_joinMeeting_success m m1 meetingID s0 now0 hjoin
    exact manager_joinMeeting_existing m1 meetingID inst hinst s1 now1

/-- After `JoinMeeting("m1")` succeeded on the fresh manager, a second
`JoinMeeting("m1")` fails with the duplicate error and changes nothing. -/
theorem joinMeeting_duplicate_fails_witness :
    joinedManager.workers.get? "m1" = some 0 ∧
    joinedManager.JoinMeeting "m1" (SpawnOutcome.started 4243 none true) 1
      = some (joinedManager, some (ManagerError.alreadyExists "m1")) :=
  ⟨by decide,
    (joinMeeting_duplicate_fails joinedManager "m1" 0 (by decide)
      (SpawnOutcome.started 4243 none true) 1).1⟩

/-- C14: whenever `JoinMeeting` returns an error, the claimed ports and the
registry are the same as before the call (on a manager whose `basePort` is
positive, as `NewProcessManager` makes it): the port allocated was released and
no entry was added. When the insertion finds an entry put there in the
meantime, the step from `LoadOrStore` on returns the duplicate error, keeps the
registry, stops the new worker and deletes its port. -/
theorem joinMeeting_error_releases (pm pm' : ProcessManager) (hbase : 0 < pm.basePort)
    (meetingID : String) (out : SpawnOutcome) (now : Time) (err : ManagerError)
    (h : pm.JoinMeeting meetingID out now = some (pm', some err)) :
    pm'.usedPorts = pm.usedPorts ∧ pm'.workers = pm.workers ∧
    (∀ (pm0 : ProcessManager) (worker other : WPtr) (port : Nat),
      pm0.workers.get? meetingID = some other →
      (pm0.register meetingID worker port).2 = some (ManagerError.alreadyExists meetingID) ∧
      (pm0.register meetingID worker port).1.workers = pm0.workers ∧
      (pm0.register meetingID worker port).1.usedPorts = pm0.usedPorts.delete port ∧
      (pm0.register meetingID worker port).1.usedPorts.get? port = none ∧
      (pm0.register meetingID worker port).1.heap worker = (pm0.heap worker).Stop) := by
  refine ⟨?_, ?_, ?_⟩
  · cases hg : pm.workers.get? meetingID with
    | some w =>
      rw [joinMeeting_existing pm meetingID w hg] at h
      simp only [Option.some.injEq, Prod.mk.injEq] at h
      rw [← h.1]
    | none =>
      obtain ⟨pm2, e, heq, herr, -⟩ := joinMeeting_new pm meetingID hg out now
      rw [heq] at h
      simp only [Option.some.injEq, Prod.mk.injEq] at h
      obtain ⟨rfl, rfl⟩ := h
      exact (herr err rfl).2.1 hbase
  · cases hg : pm.workers.get? meetingID with
    | some w =>
      rw [joinMeeting_existing pm meetingID w hg] at h
      simp only [Option.some.injEq, Prod.mk.injEq] at h
      rw [← h.1]
    | none =>
      obtain ⟨pm2, e, heq, herr, -⟩ := joinMeeting_new pm meetingID hg out now
      rw [heq] at h
      simp only [Option.some.injEq, Prod.mk.injEq] at h
      obtain ⟨rfl, rfl⟩ := h
      exact (herr err rfl).1
  · intro pm0 worker other port hother
    rw [register_existing pm0 meetingID worker other port hother]
    exact ⟨rfl, rfl, rfl, get_delete_self _ _, by simp⟩

/-- On the fresh manager, a join whose process does not start fails and leaves
the claimed ports and the registry as before; so does a join whose process
exits with an error and never becomes ready. -/
theorem joinMeeting_error_releases_witness :
    0 < freshManager.basePort ∧
    (freshManager.JoinMeeting "m1" (SpawnOutcome.started 4242 (some true) false) 0).map
      (fun r => (r.2, r.1.usedPorts.keys, r.1.workers.keys))
      = some (some ManagerError.failedToSpawn, [], []) ∧
    freshManager.JoinMeeting "m1" SpawnOutcome.startFailed 0
      = some (failedJoinManager, some ManagerError.failedToSpawn) ∧
    failedJoinManager.usedPorts = freshManager.usedPorts ∧
    failedJoinManager.workers = freshManager.workers :=
  ⟨by decide, by decide, rfl,
    (joinMeeting_error_releases freshManager failedJoinManager (by decide) "m1"
      SpawnOutcome.startFailed 0 ManagerError.failedToSpawn rfl).1,
    (joinMeeting_error_releases freshManager failedJoinManager (by decide) "m1"
      SpawnOutcome.startFailed 0 ManagerError.failedToSpawn rfl).2.1⟩

/-! ### LeaveMeeting -/

theorem stop_stopped (w : WorkerProcess) : w.Stop.stopped = true := by
  unfold WorkerProcess.Stop
  by_cases h : w.stopped = true
  · simp [h]
  · simp [h]

theorem stop_of_not_stopped (w : WorkerProcess) (h : w.stopped = false) :
    w.Stop = { w with Status := StatusEnded, stopped := true, terminated := true } := by
  simp [WorkerProcess.Stop, h]

theorem stop_port (w : WorkerProcess) : w.Stop.Port = w.Port := by
  unfold WorkerProcess.Stop
  split_ifs <;> rfl

theorem stop_meetingID (w : WorkerProcess) : w.Stop.MeetingID = w.MeetingID := by
  unfold WorkerProcess.Stop
  split_ifs <;> rfl

/-- C15: for every manager state and `meetingID`: without an entry,
`LeaveMeeting` returns the not-found error and the state it was called in; with
an entry it returns nil, removes exactly that entry, and leaves the worker as
`Stop` makes it (stopped; status Ended and termination requested when it was
not stopped before), no other worker being touched; afterwards
`GetMeetingStats` and a second `LeaveMeeting` report not found. -/
theorem leaveMeeting_removes_and_stops (pm : ProcessManager) (meetingID : String) :
    (pm.workers.get? meetingID = none →
      pm.LeaveMeeting meetingID = (pm, some (ManagerError.notFound meetingID))) ∧
    (∀ worker, pm.workers.get? meetingID = some worker →
      (pm.LeaveMeeting meetingID).2 = none ∧
      (pm.LeaveMeeting meetingID).1.workers.get? meetingID = none ∧
      (∀ k, k ≠ meetingID →
        (pm.LeaveMeeting meetingID).1.workers.get? k = pm.workers.get? k) ∧
      (pm.LeaveMeeting meetingID).1.workers.len + 1 = pm.workers.len ∧
      (pm.LeaveMeeting meetingID).1.heap worker = (pm.heap worker).Stop ∧
      ((pm.LeaveMeeting meetingID).1.heap worker).stopped = true ∧
      ((pm.heap worker).stopped = false →
        ((pm.LeaveMeeting meetingID).1.heap worker).Status = StatusEnded ∧
        ((pm.LeaveMeeting meetingID).1.heap worker).terminated = true) ∧
      (∀ q, q ≠ worker → (pm.LeaveMeeting meetingID).1.heap q = pm.heap q) ∧
      (pm.LeaveMeeting meetingID).1.GetMeetingStats meetingID
        = Except.error (ManagerError.notFound meetingID) ∧
      (pm.LeaveMeeting meetingID).1.LeaveMeeting meetingID
        = ((pm.LeaveMeeting meetingID).1, some (ManagerError.notFound meetingID))) := by
  refine ⟨fun h => by simp only [ProcessManager.LeaveMeeting, h], fun worker h => ?_⟩
  have hleave : pm.LeaveMeeting meetingID =
      ({ pm with workers := pm.workers.delete meetingID
                 usedPorts := pm.usedPorts.delete (pm.heap worker).Port
                 heap := Function.update pm.heap worker (pm.heap worker).Stop }, none) := by
    simp only [ProcessManager.LeaveMeeting, h]
  have hgone : (pm.workers.delete meetingID).get? meetingID = none := by
    simp [GoMap.get?, GoMap.delete, AList.lookup_erase]
  rw [hleave]
  refine ⟨rfl, hgone, fun k hk => ?_, Audio.len_erase_of_lookup h, by simp, ?_, fun hs => ?_,
    fun q hq => by simp [Function.update_noteq hq], ?_, ?_⟩
  · simp [GoMap.get?, GoMap.delete, AList.lookup_erase_ne hk]
  · simp [stop_stopped]
  · simp [stop_of_not_stopped _ hs]
  · simp only [ProcessManager.GetMeetingStats, hgone]
  · simp only [ProcessManager.LeaveMeeting, hgone]

/-! ### The status of a worker -/

/-- C16, counterexample: a worker becomes ready, is stopped and then exits
cleanly; its status goes Connecting, InMeeting, Ended, Idle, so it leaves the
terminal status Ended for Idle. A ready worker that exits cleanly goes to Idle
and never enters a terminal status. -/
theorem lifecycle_terminal_counterexample :
    workerM1.statusTrace [LifecycleStep.ready, LifecycleStep.stop, LifecycleStep.exit false]
      = [StatusConnecting, StatusInMeeting, StatusEnded, StatusIdle] ∧
    leaves terminal (workerM1.statusTrace
      [LifecycleStep.ready, LifecycleStep.stop, LifecycleStep.exit false]) = true ∧
    enters terminal (workerM1.statusTrace [LifecycleStep.ready, LifecycleStep.exit false]) = 0 ∧
    ¬ (∀ steps : List LifecycleStep,
        enters terminal (workerM1.statusTrace steps) = 1 ∧
        leaves terminal (workerM1.statusTrace steps) = false) := by
  refine ⟨by decide, by decide, by decide, fun h => ?_⟩
  have := (h [LifecycleStep.ready, LifecycleStep.stop, LifecycleStep.exit false]).2
  revert this
  decide

theorem statusTrace_head (w : WorkerProcess) (steps : List LifecycleStep) :
    ∃ t, w.statusTrace steps = w.Status :: t := by
  cases steps with
  | nil => exact ⟨[], rfl⟩
  | cons s rest => exact ⟨_, rfl⟩

theorem settled_stop (w : WorkerProcess) (h : settled w.Status = true ∨ w.stopped = false) :
    settled w.Stop.Status = true := by
  unfold WorkerProcess.Stop
  by_cases hs : w.stopped = true
  · rcases h with h | h
    · simpa [hs] using h
    · rw [hs] at h; exact Bool.noConfusion h
  · simp only [hs, Bool.false_eq_true, if_false]
    decide

theorem settled_observeExit (w w' : WorkerProcess) (err : Bool)
    (h : w.observeExit err = some w') : settled w'.Status = true := by
  unfold WorkerProcess.observeExit at h
  by_cases hc : w.stopChan = true
  · simp [hc] at h
  · cases err <;>
      (simp only [hc, Bool.false_eq_true, if_false, if_true, Option.some.injEq] at h
       subst h
       rfl)

/-- From a settled status, Stop and exit steps keep every status of the trace
settled. -/
theorem statusTrace_settled (steps : List LifecycleStep) :
    ∀ w : WorkerProcess, settled w.Status = true →
      (∀ s ∈ steps, s ≠ LifecycleStep.ready) →
      ∀ x ∈ w.statusTrace steps, settled x = true := by
  induction steps with
  | nil =>
    intro w hw _ x hx
    simp only [WorkerProcess.statusTrace, List.mem_singleton] at hx
    rw [hx]; exact hw
  | cons step rest ih =>
    intro w hw hsteps x hx
    simp only [WorkerProcess.statusTrace, List.mem_cons] at hx
    rcases hx with rfl | hx
    · exact hw
    · have hrest : ∀ s ∈ rest, s ≠ LifecycleStep.ready :=
        fun s hs => hsteps s (List.mem_cons_of_mem _ hs)
      cases step with
      | ready => exact absurd rfl (hsteps _ (List.mem_cons_self _ _))
      | stop =>
        simp only [WorkerProcess.lifecycle] at hx
        exact ih w.Stop (settled_stop w (Or.inl hw)) hrest x hx
      | exit err =>
        simp only [WorkerProcess.lifecycle] at hx
        cases hobs : w.observeExit err with
        | none => simp [hobs] at hx
        | some w' =>
          simp only [hobs] at hx
          exact ih w' (settled_observeExit w w' err hobs) hrest x hx

/-- A trace whose statuses are all in `P` neither enters nor leaves `P`. -/
theorem enters_leaves_of_all (P : MeetingStatus → Bool) (tr : List MeetingStatus)
    (h : ∀ x ∈ tr, P x = true) : enters P tr = 0 ∧ leaves P tr = false := by
  induction tr with
  | nil => exact ⟨rfl, rfl⟩
  | cons a t ih =>
    cases t with
    | nil => exact ⟨rfl, rfl⟩
    | cons b rest =>
      have ha := h a (List.mem_cons_self _ _)
      have hb := h b (List.mem_cons_of_mem _ (List.mem_cons_self _ _))
      obtain ⟨h1, h2⟩ := ih (fun x hx => h x (List.mem_cons_of_mem _ hx))
      simp [enters, leaves, ha, hb, h1, h2]

/-- A worker that was neither stopped nor seen to exit: the first Stop or exit
step settles its status, and the later ones keep it settled. -/
theorem statusTrace_first_settles (w : WorkerProcess) (hs : settled w.Status = false)
    (hstop : w.stopped = false) (hchan : w.stopChan = false) (post : List LifecycleStep)
    (hpost : ∀ s ∈ post, s ≠ LifecycleStep.ready) (hne : post ≠ []) :
    enters settled (w.statusTrace post) = 1 ∧ leaves settled (w.statusTrace post) = false := by
  cases post with
  | nil => exact absurd rfl hne
  | cons step rest =>
    have hrest : ∀ s ∈ rest, s ≠ LifecycleStep.ready :=
      fun s hs => hpost s (List.mem_cons_of_mem _ hs)
    obtain ⟨w1, hw1, hset⟩ : ∃ w1, w.lifecycle step = some w1 ∧ settled w1.Status = true := by
      cases step with
      | ready => exact absurd rfl (hpost _ (List.mem_cons_self _ _))
      | stop => exact ⟨w.Stop, rfl, settled_stop w (Or.inr hstop)⟩
      | exit err =>
        have : w.observeExit err = some
            { w with Status := if err then StatusFailed else StatusIdle, stopChan := true } := by
          simp [WorkerProcess.observeExit, hchan]
        exact ⟨_, this, settled_observeExit w _ err this⟩
    obtain ⟨t, ht⟩ := statusTrace_head w1 rest
    have hall := statusTrace_settled rest w1 hset hrest
    obtain ⟨h1, h2⟩ := enters_leaves_of_all settled (w1.statusTrace rest) hall
    have htr : w.statusTrace (step :: rest) = w.Status :: w1.statusTrace rest := by
      simp only [WorkerProcess.statusTrace, hw1]
    rw [htr]
    rw [ht] at h1 h2 ⊢
    simp [enters, leaves, hs, hset, h1, h2]

theorem statusTrace_ready_prefix (k : Nat) :
    ∀ (w : WorkerProcess), settled w.Status = false → w.stopped = false →
      w.stopChan = false → ∀ post : List LifecycleStep,
      (∀ s ∈ post, s ≠ LifecycleStep.ready) → post ≠ [] →
      enters settled (w.statusTrace (List.replicate k LifecycleStep.ready ++ post)) = 1 ∧
      leaves settled (w.statusTrace (List.replicate k LifecycleStep.ready ++ post)) = false := by
  induction k with
  | zero =>
    intro w hs hstop hchan post hpost hne
    simpa using statusTrace_first_settles w hs hstop hchan post hpost hne
  | succ k ih =>
    intro w hs hstop hchan post hpost hne
    have hb : settled StatusInMeeting = false := by decide
    obtain ⟨h1, h2⟩ := ih { w with Status := StatusInMeeting } hb hstop hchan post
      hpost hne
    obtain ⟨t, ht⟩ := statusTrace_head { w with Status := StatusInMeeting }
      (List.replicate k LifecycleStep.ready ++ post)
    have htr : w.statusTrace (List.replicate (k + 1) LifecycleStep.ready ++ post) =
        w.Status :: ({ w with Status := StatusInMeeting } : WorkerProcess).statusTrace
          (List.replicate k LifecycleStep.ready ++ post) := by
      simp only [List.replicate_succ, List.cons_append, WorkerProcess.statusTrace,
        WorkerProcess.lifecycle]
      rfl
    rw [htr]
    rw [ht] at h1 h2 ⊢
    simp only [enters, leaves, hs, hb, Bool.not_false, Bool.and_false, Bool.false_eq_true,
      if_false, Nat.zero_add, Bool.false_and, Bool.false_or]
    exact ⟨h1, h2⟩

/-- C16, as amended: for the worker made by `spawnWorker`, over every sequence
of steps made of readiness successes followed by at least one Stop or observed
exit (no readiness success after them), the status enters the set Failed,
Ended, Idle exactly once and never leaves it for Connecting, InMeeting or
Reconnecting. -/
theorem lifecycle_settles_once (meetingID : String) (port pid : Nat) (now : Time) (k : Nat)
    (post : List LifecycleStep) (hpost : ∀ s ∈ post, s ≠ LifecycleStep.ready)
    (hne : post ≠ []) :
    enters settled ((WorkerProcess.spawned meetingID port pid now).statusTrace
      (List.replicate k LifecycleStep.ready ++ post)) = 1 ∧
    leaves settled ((WorkerProcess.spawned meetingID port pid now).statusTrace
      (List.replicate k LifecycleStep.ready ++ post)) = false ∧
    (∀ s : MeetingStatus, settled s = true ↔
      (s = StatusFailed ∨ s = StatusEnded ∨ s = StatusIdle)) := by
  have hc : settled StatusConnecting = false := by decide
  obtain ⟨h1, h2⟩ := statusTrace_ready_prefix k (WorkerProcess.spawned meetingID port pid now)
    hc rfl rfl post hpost hne
  refine ⟨h1, h2, fun s => ?_⟩
  simp [settled, or_assoc]

/-- The worker of meeting "m1" becomes ready, is stopped and exits cleanly: the
status goes Connecting, InMeeting, Ended, Idle; it enters the settled set once
(at Ended) and stays in it. -/
theorem lifecycle_settles_once_witness :
    (∀ s ∈ [LifecycleStep.stop, LifecycleStep.exit false], s ≠ LifecycleStep.ready) ∧
    (WorkerProcess.spawned "m1" 9001 4242 0).statusTrace
      (List.replicate 1 LifecycleStep.ready ++ [LifecycleStep.stop, LifecycleStep.exit false])
      = [StatusConnecting, StatusInMeeting, StatusEnded, StatusIdle] ∧
    enters settled ((WorkerProcess.spawned "m1" 9001 4242 0).statusTrace
      (List.replicate 1 LifecycleStep.ready ++ [LifecycleStep.stop, LifecycleStep.exit false]))
      = 1 ∧
    leaves settled ((WorkerProcess.spawned "m1" 9001 4242 0).statusTrace
      (List.replicate 1 LifecycleStep.ready ++ [LifecycleStep.stop, LifecycleStep.exit false]))
      = false :=
  ⟨by decide, by decide,
    (lifecycle_settles_once "m1" 9001 4242 0 1 [LifecycleStep.stop, LifecycleStep.exit false]
      (by decide) (by decide)).1,
    (lifecycle_settles_once "m1" 9001 4242 0 1 [LifecycleStep.stop, LifecycleStep.exit false]
      (by decide) (by decide)).2.1⟩

/-- C17, counterexample: on the manager that holds the worker of "m1", the
monitor observing a clean exit leaves the status Idle, not Ended; and a worker
that became ready, was stopped and then exited with an error ends with status
Failed, not Ended. -/
theorem monitor_status_counterexample :
    (joinedManager.monitorWorker 0 false).map (fun pm => (pm.heap 0).Status) = some StatusIdle ∧
    StatusIdle ≠ StatusEnded ∧
    (workerM1.run [LifecycleStep.ready, LifecycleStep.stop, LifecycleStep.exit true]).map
      (fun w => (w.stopped, w.Status)) = some (true, StatusFailed) ∧
    StatusFailed ≠ StatusEnded := by
  refine ⟨by decide, by decide, by decide, by decide⟩

/-- C17, as amended: when the monitor observes the exit of a worker (whose
`stopChan` is still open), it returns and sets the status to Failed if the exit
was an error and to Idle if it was clean; `Stop` on a worker not yet stopped
sets the status to Ended, and on a stopped worker it changes nothing. -/
theorem monitor_sets_failed_or_idle (pm : ProcessManager) (worker : WPtr) (err : Bool)
    (h : (pm.heap worker).stopChan = false) :
    ∃ pm', pm.monitorWorker worker err = some pm' ∧
      (pm'.heap worker).Status = (if err then StatusFailed else StatusIdle) ∧
      (pm'.heap worker).stopChan = true ∧
      (∀ w : WorkerProcess, w.stopped = false →
        w.Stop.Status = StatusEnded ∧ w.Stop.stopped = true) ∧
      (∀ w : WorkerProcess, w.stopped = true → w.Stop = w) := by
  refine ⟨_, monitorWorker_spec pm worker err h, by simp, by simp, fun w hw => ?_,
    fun w hw => by simp [WorkerProcess.Stop, hw]⟩
  rw [stop_of_not_stopped w hw]
  exact ⟨rfl, rfl⟩

/-- The monitor of the worker of "m1" observes an exit with an error: the status
becomes Failed. -/
theorem monitor_sets_failed_or_idle_witness :
    (joinedManager.heap 0).stopChan = false ∧
    (joinedManager.monitorWorker 0 true).map (fun pm => (pm.heap 0).Status)
      = some StatusFailed ∧
    ∃ pm', joinedManager.monitorWorker 0 true = some pm' ∧
      (pm'.heap 0).Status = (if true then StatusFailed else StatusIdle) := by
  refine ⟨by decide, by decide, ?_⟩
  obtain ⟨pm', h1, h2, -⟩ := monitor_sets_failed_or_idle joinedManager 0 true (by decide)
  exact ⟨pm', h1, h2⟩

/-! ### Who releases a port -/

/-- The loop of `Shutdown` never claims a port. -/
theorem shutdownLoop_keeps_unclaimed (es : List (Sigma (fun _ : String => WPtr))) :
    ∀ (pm : ProcessManager) (p : Nat), pm.usedPorts.get? p = none →
      (ProcessManager.shutdownLoop es pm).usedPorts.get? p = none := by
  induction es with
  | nil => intro pm p h; exact h
  | cons e es ih =>
    intro pm p h
    obtain ⟨id, worker⟩ := e
    unfold ProcessManager.shutdownLoop
    refine ih _ p ?_
    show (pm.usedPorts.delete (pm.heap worker).Port).get? p = none
    by_cases hp : p = (pm.heap worker).Port
    · rw [hp]; exact get_delete_self _ _
    · rw [get_delete_ne _ _ _ hp]; exact h

/-- The loop of `Shutdown` keeps a stopped worker stopped. -/
theorem shutdownLoop_keeps_stopped (es : List (Sigma (fun _ : String => WPtr))) :
    ∀ (pm : ProcessManager) (q : WPtr), (pm.heap q).stopped = true →
      ((ProcessManager.shutdownLoop es pm).heap q).stopped = true := by
  induction es with
  | nil => intro pm q h; exact h
  | cons e es ih =>
    intro pm q h
    obtain ⟨id, worker⟩ := e
    unfold ProcessManager.shutdownLoop
    refine ih _ q ?_
    show ((Function.update pm.heap worker (pm.heap worker).Stop) q).stopped = true
    by_cases hq : q = worker
    · subst hq; simp [stop_stopped]
    · simp [Function.update_noteq hq, h]

/-- The loop of `Shutdown` deletes the port of every worker it visits, stops
it, and deletes every key it visits from the registry. -/
theorem shutdownLoop_spec (es : List (Sigma (fun _ : String => WPtr))) :
    ∀ (pm : ProcessManager),
      (∀ e ∈ es, (ProcessManager.shutdownLoop es pm).usedPorts.get? (pm.heap e.2).Port = none) ∧
      (∀ e ∈ es, ((ProcessManager.shutdownLoop es pm).heap e.2).stopped = true) ∧
      (∀ k, (ProcessManager.shutdownLoop es pm).workers.get? k =
        if k ∈ es.map Sigma.fst then none else pm.workers.get? k) := by
  induction es with
  | nil => intro pm; simp [ProcessManager.shutdownLoop]
  | cons e es ih =>
    intro pm
    obtain ⟨id, worker⟩ := e
    have hport : ∀ q, ((Function.update pm.heap worker (pm.heap worker).Stop) q).Port
        = (pm.heap q).Port := by
      intro q
      by_cases hq : q = worker
      · subst hq; simp [stop_port]
      · simp [Function.update_noteq hq]
    obtain ⟨ih1, ih2, ih3⟩ := ih
      { pm with heap := Function.update pm.heap worker (pm.heap worker).Stop
                workers := pm.workers.delete id
                usedPorts := pm.usedPorts.delete (pm.heap worker).Port }
    simp only [hport] at ih1
    unfold ProcessManager.shutdownLoop
    refine ⟨fun e he => ?_, fun e he => ?_, fun k => ?_⟩
    · rcases List.mem_cons.mp he with rfl | he
      · exact shutdownLoop_keeps_unclaimed es _ _ (get_delete_self _ _)
      · exact ih1 e he
    · rcases List.mem_cons.mp he with rfl | he
      · exact shutdownLoop_keeps_stopped es _ _ (by simp [stop_stopped])
      · exact ih2 e he
    · rw [ih3 k]
      by_cases hk : k = id
      · subst hk
        simp [GoMap.get?, GoMap.delete, AList.lookup_erase]
      · have hmem : (k ∈ ((⟨id, worker⟩ :: es : List (Sigma (fun _ : String => WPtr))).map
            Sigma.fst)) ↔ k ∈ es.map Sigma.fst := by
          rw [List.map_cons, List.mem_cons]
          exact ⟨fun h => h.resolve_left hk, Or.inr⟩
        have hget : (pm.workers.delete id).get? k = pm.workers.get? k := by
          simp [GoMap.get?, GoMap.delete, AList.lookup_erase_ne hk]
        by_cases hin : k ∈ es.map Sigma.fst
        · rw [if_pos hin, if_pos (hmem.mpr hin)]
        · rw [if_neg hin, if_neg (fun h => hin (hmem.mp h))]
          exact hget

theorem shutdown_registry_empty (pm : ProcessManager) (k : String) :
    pm.Shutdown.workers.get? k = none := by
  unfold ProcessManager.Shutdown
  rw [(shutdownLoop_spec pm.workers.entries pm).2.2 k]
  by_cases hk : k ∈ pm.workers.entries.map Sigma.fst
  · rw [if_pos hk]
  · rw [if_neg hk]
    exact AList.lookup_eq_none.mpr (fun h => hk (AList.mem_keys.mp h))

/-- C18, counterexample: on the manager that holds the worker of "m1" on port
9001, `LeaveMeeting("m1")` removes port 9001 from the claimed ports, and so
does `Shutdown`; neither is the monitor. -/
theorem leaveMeeting_releases_port_counterexample :
    joinedManager.workers.get? "m1" = some 0 ∧
    (joinedManager.heap 0).Port = 9001 ∧
    joinedManager.usedPorts.get? 9001 = some true ∧
    (joinedManager.LeaveMeeting "m1").1.usedPorts.get? 9001 = none ∧
    joinedManager.Shutdown.usedPorts.get? 9001 = none := by
  refine ⟨by decide, by decide, by decide, by decide, by decide⟩

/-- C18, as amended: for a registered worker, the monitor's cleanup deletes the
worker's port and the registry entry of its meeting identifier when it observes
the exit; `LeaveMeeting` deletes the worker's port as well, and `Shutdown`
leaves the port of every registered worker unclaimed and the registry empty. A
successful `JoinMeeting` removes no port that was claimed, and a `LeaveMeeting`
for an identifier without entry removes none. -/
theorem port_release_sites (pm : ProcessManager) (meetingID : String) (worker : WPtr)
    (h : pm.workers.get? meetingID = some worker) :
    (∀ err, (pm.heap worker).stopChan = false →
      ∃ pm', pm.monitorWorker worker err = some pm' ∧
        pm'.usedPorts = pm.usedPorts.delete (pm.heap worker).Port ∧
        pm'.workers = pm.workers.delete (pm.heap worker).MeetingID) ∧
    (pm.LeaveMeeting meetingID).1.usedPorts = pm.usedPorts.delete (pm.heap worker).Port ∧
    (pm.LeaveMeeting meetingID).1.usedPorts.get? (pm.heap worker).Port = none ∧
    pm.Shutdown.usedPorts.get? (pm.heap worker).Port = none ∧
    (∀ k, pm.Shutdown.workers.get? k = none) ∧
    (∀ (pm0 pm1 : ProcessManager) (id : String) (out : SpawnOutcome) (now : Time),
      pm0.JoinMeeting id out now = some (pm1, none) →
      ∀ p, pm0.usedPorts.get? p ≠ none → pm1.usedPorts.get? p = pm0.usedPorts.get? p) ∧
    (∀ id, pm.workers.get? id = none → (pm.LeaveMeeting id).1.usedPorts = pm.usedPorts) := by
  have hleave : pm.LeaveMeeting meetingID =
      ({ pm with workers := pm.workers.delete meetingID
                 usedPorts := pm.usedPorts.delete (pm.heap worker).Port
                 heap := Function.update pm.heap worker (pm.heap worker).Stop }, none) := by
    simp only [ProcessManager.LeaveMeeting, h]
  refine ⟨fun err hc => ⟨_, monitorWorker_spec pm worker err hc, rfl, rfl⟩, by rw [hleave],
    by rw [hleave]; exact get_delete_self _ _, ?_, shutdown_registry_empty pm, ?_, ?_⟩
  · have hmem : (⟨meetingID, worker⟩ : Sigma (fun _ : String => WPtr)) ∈ pm.workers.entries :=
      AList.mem_lookup_iff.mp h
    exact (shutdownLoop_spec pm.workers.entries pm).1 _ hmem
  · intro pm0 pm1 id out now hjoin p hp
    cases hg : pm0.workers.get? id with
    | some w =>
      rw [joinMeeting_existing pm0 id w hg] at hjoin
      simp at hjoin
    | none =>
      obtain ⟨pm', e, heq, -, hsucc⟩ := joinMeeting_new pm0 id hg out now
      rw [heq] at hjoin
      simp only [Option.some.injEq, Prod.mk.injEq] at hjoin
      obtain ⟨rfl, rfl⟩ := hjoin
      exact (hsucc rfl).2.2.2.2.2.2 p hp
  · intro id hid
    simp only [ProcessManager.LeaveMeeting, hid]

/-- On the manager that holds the worker of "m1" on port 9001: the monitor,
`LeaveMeeting` and `Shutdown` each leave port 9001 unclaimed. -/
theorem port_release_sites_witness :
    joinedManager.workers.get? "m1" = some 0 ∧
    (joinedManager.monitorWorker 0 true).map (fun pm => (pm.usedPorts.keys, pm.workers.keys))
      = some ([], []) ∧
    (joinedManager.LeaveMeeting "m1").1.usedPorts
      = joinedManager.usedPorts.delete (joinedManager.heap 0).Port ∧
    joinedManager.Shutdown.usedPorts.get? (joinedManager.heap 0).Port = none :=
  ⟨by decide, by decide,
    (port_release_sites joinedManager "m1" 0 (by decide)).2.1,
    (port_release_sites joinedManager "m1" 0 (by decide)).2.2.2.1⟩

/-! ### The relay and the frame processor -/

theorem relayLine_skip (decode : Bytes → Option AudioFrame) (w : WorkerProcess)
    (audioBus : Option Bus) (line : Bytes) (now pubNow : Time) (clock : Nat → Time)
    (h : line.length = 0 ∨ decode line = none) :
    w.relayLine decode audioBus line now pubNow clock = some (w, audioBus) := by
  unfold WorkerProcess.relayLine
  by_cases hl : line.length = 0
  · rw [if_pos hl]
  · rw [if_neg hl]
    have hd : decode line = none := h.resolve_left hl
    simp only [hd]

theorem relayLine_nobus (decode : Bytes → Option AudioFrame) (w : WorkerProcess)
    (line : Bytes) (frame : AudioFrame) (now pubNow : Time) (clock : Nat → Time)
    (hl : line.length ≠ 0) (hd : decode line = some frame) :
    w.relayLine decode none line now pubNow clock =
      some ({ w with Stats := w.Stats.received frame now }, none) := by
  unfold WorkerProcess.relayLine
  rw [if_neg hl]
  simp only [hd]

theorem relayLine_bus (decode : Bytes → Option AudioFrame) (w : WorkerProcess) (b b' : Bus)
    (r : Bool) (line : Bytes) (frame : AudioFrame) (now pubNow : Time) (clock : Nat → Time)
    (hl : line.length ≠ 0) (hd : decode line = some frame)
    (hp : b.Publish w.MeetingID frame pubNow clock = some (b', r)) :
    w.relayLine decode (some b) line now pubNow clock =
      some ({ w with Stats := if !r then (w.Stats.received frame now).dropped
                              else w.Stats.received frame now }, some b') := by
  unfold WorkerProcess.relayLine
  rw [if_neg hl]
  simp only [hd, hp]

theorem publish_returns (b : Bus) (hWF : b.WF) (M : String) (F : AudioFrame) (now : Time)
    (clock : Nat → Time) : ∃ b' r, b.Publish M F now clock = some (b', r) := by
  obtain ⟨b', r, h, -⟩ := Audio.publish_spec b hWF M F now clock
  exact ⟨b', r, h⟩

/-- One turn of the frame processor of a meeting instance with a frame in its
queue: the frame is received and counted, and counted as dropped exactly when
`Publish` returns false. -/
theorem processAudioFrames_spec (m : MeetingInstance) (audioBus : Option Bus)
    (hbus : ∀ b, audioBus = some b → b.WF) (frame : AudioFrame) (rest : List AudioFrame)
    (hq : m.audioChannel.queue = frame :: rest) (now pubNow : Time) (clock : Nat → Time) :
    ∃ m' bus', m.processAudioFrames audioBus now pubNow clock = some (m', bus') ∧
      m'.audioChannel.queue = rest ∧
      m'.stats.FramesReceived = (m.stats.FramesReceived + 1) % 2 ^ 64 ∧
      m'.stats.BytesReceived = (m.stats.BytesReceived + frame.Data.length % 2 ^ 64) % 2 ^ 64 ∧
      (audioBus = none → m'.stats.FramesDropped = m.stats.FramesDropped) ∧
      (∀ b, audioBus = some b →
        ∃ b' r, b.Publish m.meetingID frame pubNow clock = some (b', r) ∧ bus' = some b' ∧
          m'.stats.FramesDropped =
            if r then m.stats.FramesDropped else (m.stats.FramesDropped + 1) % 2 ^ 64) := by
  cases audioBus with
  | none =>
    refine ⟨{ m with audioChannel := { m.audioChannel with queue := rest },
                     stats := m.stats.received frame now }, none, ?_, rfl, rfl, rfl,
      fun _ => rfl, fun b hb => Option.noConfusion hb⟩
    simp only [MeetingInstance.processAudioFrames, hq]
  | some b =>
    obtain ⟨b', r, hp⟩ := publish_returns b (hbus b rfl) m.meetingID frame pubNow clock
    cases r with
    | true =>
      refine ⟨{ m with audioChannel := { m.audioChannel with queue := rest },
                       stats := m.stats.received frame now }, some b', ?_,
        rfl, rfl, rfl, fun hn => Option.noConfusion hn, fun b0 hb0 => ?_⟩
      · simp only [MeetingInstance.processAudioFrames, hq, hp, Bool.not_true,
          Bool.false_eq_true, if_false]
      · obtain rfl := Option.some.inj hb0
        exact ⟨b', true, hp, rfl, rfl⟩
    | false =>
      refine ⟨{ m with audioChannel := { m.audioChannel with queue := rest },
                       stats := (m.stats.received frame now).dropped }, some b', ?_,
        rfl, rfl, rfl, fun hn => Option.noConfusion hn, fun b0 hb0 => ?_⟩
      · simp only [MeetingInstance.processAudioFrames, hq, hp, Bool.not_false, if_true]
      · obtain rfl := Option.some.inj hb0
        exact ⟨b', false, hp, rfl, rfl⟩

/-- One turn of the relay, on a well-formed bus or without bus: an empty or
undecodable line changes nothing and the loop goes on with the next line; a
line that decodes into a frame adds one to `FramesReceived` and the payload
length to `BytesReceived` (in `uint64` arithmetic, exactly when the counter does
not wrap), and adds one to `FramesDropped` exactly when `Bus.Publish` returned
false; without wrap no counter decreases. The frame processor of a meeting
instance counts a received frame in the same way. -/
theorem relayLine_updates_stats (decode : Bytes → Option AudioFrame) (w : WorkerProcess)
    (audioBus : Option Bus) (hbus : ∀ b, audioBus = some b → b.WF) (line : Bytes)
    (now pubNow : Time) (clock : Nat → Time) :
    ∃ w' bus', w.relayLine decode audioBus line now pubNow clock = some (w', bus') ∧
      ((line.length = 0 ∨ decode line = none) → w' = w ∧ bus' = audioBus) ∧
      (∀ frame, line.length ≠ 0 → decode line = some frame →
        w'.Stats.FramesReceived = (w.Stats.FramesReceived + 1) % 2 ^ 64 ∧
        w'.Stats.BytesReceived
          = (w.Stats.BytesReceived + frame.Data.length % 2 ^ 64) % 2 ^ 64 ∧
        (w.Stats.FramesReceived + 1 < 2 ^ 64 →
          w'.Stats.FramesReceived = w.Stats.FramesReceived + 1) ∧
        (w.Stats.BytesReceived + frame.Data.length < 2 ^ 64 →
          w'.Stats.BytesReceived = w.Stats.BytesReceived + frame.Data.length) ∧
        (audioBus = none → w'.Stats.FramesDropped = w.Stats.FramesDropped) ∧
        (∀ b, audioBus = some b →
          ∃ b' r, b.Publish w.MeetingID frame pubNow clock = some (b', r) ∧ bus' = some b' ∧
            w'.Stats.FramesDropped =
              if r then w.Stats.FramesDropped else (w.Stats.FramesDropped + 1) % 2 ^ 64)) ∧
      (w.Stats.FramesReceived + 1 < 2 ^ 64 →
        w.Stats.FramesReceived ≤ w'.Stats.FramesReceived) ∧
      (w.Stats.FramesDropped + 1 < 2 ^ 64 →
        w.Stats.FramesDropped ≤ w'.Stats.FramesDropped) ∧
      ((∀ frame, decode line = some frame →
          w.Stats.BytesReceived + frame.Data.length < 2 ^ 64) →
        w.Stats.BytesReceived ≤ w'.Stats.BytesReceived) ∧
      (∀ (rest : List Bytes) (nows pubNows : Nat → Time) (clocks : Nat → Nat → Time),
        w.stopChan = false → (line.length = 0 ∨ decode line = none) →
        WorkerProcess.relayLines decode (line :: rest) w audioBus nows pubNows clocks =
          WorkerProcess.relayLines decode rest w audioBus (fun i => nows (i + 1))
            (fun i => pubNows (i + 1)) (fun i => clocks (i + 1))) ∧
      (∀ (m : MeetingInstance) (frame : AudioFrame) (rest : List AudioFrame),
        m.audioChannel.queue = frame :: rest →
        ∃ m' bus2, m.processAudioFrames audioBus now pubNow clock = some (m', bus2) ∧
          m'.audioChannel.queue = rest ∧
          m'.stats.FramesReceived = (m.stats.FramesReceived + 1) % 2 ^ 64 ∧
          m'.stats.BytesReceived
            = (m.stats.BytesReceived + frame.Data.length % 2 ^ 64) % 2 ^ 64 ∧
          (audioBus = none → m'.stats.FramesDropped = m.stats.FramesDropped) ∧
          (∀ b, audioBus = some b →
            ∃ b' r, b.Publish m.meetingID frame pubNow clock = some (b', r) ∧
              bus2 = some b' ∧
              m'.stats.FramesDropped =
                if r then m.stats.FramesDropped
                else (m.stats.FramesDropped + 1) % 2 ^ 64)) := by
  have hloop : ∀ (rest : List Bytes) (nows pubNows : Nat → Time) (clocks : Nat → Nat → Time),
      w.stopChan = false → (line.length = 0 ∨ decode line = none) →
      WorkerProcess.relayLines decode (line :: rest) w audioBus nows pubNows clocks =
        WorkerProcess.relayLines decode rest w audioBus (fun i => nows (i + 1))
          (fun i => pubNows (i + 1)) (fun i => clocks (i + 1)) := by
    intro rest nows pubNows clocks hc hs
    rw [WorkerProcess.relayLines]
    simp only [hc, Bool.false_eq_true, if_false, relayLine_skip decode w audioBus line _ _ _ hs]
  have hproc := fun (m : MeetingInstance) (frame : AudioFrame) (rest : List AudioFrame)
      (hq : m.audioChannel.queue = frame :: rest) =>
    processAudioFrames_spec m audioBus hbus frame rest hq now pubNow clock
  by_cases hskip : line.length = 0 ∨ decode line = none
  · refine ⟨w, audioBus, relayLine_skip decode w audioBus line now pubNow clock hskip,
      fun _ => ⟨rfl, rfl⟩, fun frame hl hd => ?_, fun _ => le_refl _, fun _ => le_refl _,
      fun _ => le_refl _, hloop, hproc⟩
    rcases hskip with h | h
    · exact absurd h hl
    · rw [hd] at h; exact Option.noConfusion h
  · have hl : line.length ≠ 0 := fun h => hskip (Or.inl h)
    obtain ⟨frame, hd⟩ : ∃ frame, decode line = some frame := by
      cases hdl : decode line with
      | none => exact absurd (Or.inr hdl) hskip
      | some f => exact ⟨f, rfl⟩
    have hrecv : ∀ st : MeetingStats,
        (st.received frame now).FramesReceived = (st.FramesReceived + 1) % 2 ^ 64 ∧
        (st.received frame now).BytesReceived
          = (st.BytesReceived + frame.Data.length % 2 ^ 64) % 2 ^ 64 ∧
        (st.received frame now).FramesDropped = st.FramesDropped := fun _ => ⟨rfl, rfl, rfl⟩
    have hnum1 : w.Stats.FramesReceived + 1 < 2 ^ 64 →
        (w.Stats.FramesReceived + 1) % 2 ^ 64 = w.Stats.FramesReceived + 1 :=
      fun h => Nat.mod_eq_of_lt h
    have hnum2 : w.Stats.BytesReceived + frame.Data.length < 2 ^ 64 →
        (w.Stats.BytesReceived + frame.Data.length % 2 ^ 64) % 2 ^ 64
          = w.Stats.BytesReceived + frame.Data.length := by
      intro h
      rw [Nat.mod_eq_of_lt (show frame.Data.length < 2 ^ 64 by omega), Nat.mod_eq_of_lt h]
    have hnum3 : w.Stats.FramesDropped + 1 < 2 ^ 64 →
        (w.Stats.FramesDropped + 1) % 2 ^ 64 = w.Stats.FramesDropped + 1 :=
      fun h => Nat.mod_eq_of_lt h
    cases audioBus with
    | none =>
      refine ⟨{ w with Stats := w.Stats.received frame now }, none,
        relayLine_nobus decode w line frame now pubNow clock hl hd,
        fun h => absurd h hskip, fun f _ hf => ?_, fun h => ?_, fun _ => le_refl _,
        fun h => ?_, hloop, hproc⟩
      · rw [hd] at hf
        obtain rfl := Option.some.inj hf
        exact ⟨rfl, rfl, hnum1, hnum2, fun _ => rfl, fun b hb => Option.noConfusion hb⟩
      · show w.Stats.FramesReceived ≤ (w.Stats.FramesReceived + 1) % 2 ^ 64
        rw [hnum1 h]; exact Nat.le_succ _
      · show w.Stats.BytesReceived
          ≤ (w.Stats.BytesReceived + frame.Data.length % 2 ^ 64) % 2 ^ 64
        rw [hnum2 (h frame hd)]; exact Nat.le_add_right _ _
    | some b =>
      obtain ⟨b', r, hp⟩ := publish_returns b (hbus b rfl) w.MeetingID frame pubNow clock
      refine ⟨_, some b', relayLine_bus decode w b b' r line frame now pubNow clock hl hd hp,
        fun h => absurd h hskip, fun f _ hf => ?_, fun h => ?_, fun h => ?_, fun h => ?_,
        hloop, hproc⟩
      · rw [hd] at hf
        obtain rfl := Option.some.inj hf
        refine ⟨by cases r <;> rfl, by cases r <;> rfl,
          fun h => by cases r <;> exact hnum1 h, fun h => by cases r <;> exact hnum2 h,
          fun hn => Option.noConfusion hn, fun b0 hb0 => ?_⟩
        obtain rfl := Option.some.inj hb0
        exact ⟨b', r, hp, rfl, by cases r <;> rfl⟩
      · have : ∀ st : MeetingStats, st = (if !r then (w.Stats.received frame now).dropped
            else w.Stats.received frame now) →
            st.FramesReceived = (w.Stats.FramesReceived + 1) % 2 ^ 64 := by
          intro st hst; subst hst; cases r <;> rfl
        show w.Stats.FramesReceived ≤ _
        rw [this _ rfl, hnum1 h]; exact Nat.le_succ _
      · have : ∀ st : MeetingStats, st = (if !r then (w.Stats.received frame now).dropped
            else w.Stats.received frame now) →
            st.FramesDropped = w.Stats.FramesDropped ∨
            st.FramesDropped = (w.Stats.FramesDropped + 1) % 2 ^ 64 := by
          intro st hst; subst hst
          cases r
          · exact Or.inr rfl
          · exact Or.inl rfl
        show w.Stats.FramesDropped ≤ _
        rcases this _ rfl with h1 | h1
        · rw [h1]
        · rw [h1, hnum3 h]; exact Nat.le_succ _
      · have : ∀ st : MeetingStats, st = (if !r then (w.Stats.received frame now).dropped
            else w.Stats.received frame now) →
            st.BytesReceived
              = (w.Stats.BytesReceived + frame.Data.length % 2 ^ 64) % 2 ^ 64 := by
          intro st hst; subst hst; cases r <;> rfl
        show w.Stats.BytesReceived ≤ _
        rw [this _ rfl, hnum2 (h frame hd)]; exact Nat.le_add_right _ _

end Main

/-! # The audio callback: properties -/

namespace Zoomsdk

open Audio

/-- On an open queue that is full the `select` takes its default case: the
instance is returned as it was. -/
theorem enqueue_full (inst : MeetingInstance) (frame : AudioFrame)
    (hc : inst.audioChannel.closed = false)
    (hfull : inst.audioChannel.cap ≤ inst.audioChannel.queue.length) :
    inst.enqueue frame = some inst := by
  simp only [MeetingInstance.enqueue, Chan.trySend, hc, Bool.false_eq_true, if_false,
    Nat.not_lt.mpr hfull]

/-- On an open queue with room the frame is appended behind the queued ones. -/
theorem enqueue_room (inst : MeetingInstance) (frame : AudioFrame)
    (hc : inst.audioChannel.closed = false)
    (hroom : inst.audioChannel.queue.length < inst.audioChannel.cap) :
    inst.enqueue frame = some { inst with
      audioChannel := { inst.audioChannel with queue := inst.audioChannel.queue ++ [frame] } } := by
  simp only [MeetingInstance.enqueue, Chan.trySend, hc, Bool.false_eq_true, if_false, hroom,
    if_true]

/-- The callback on a handle that routes to an open instance with a full queue. -/
theorem callback_full (reg : GoMap Nat MeetingInstance) (h : Nat) (inst : MeetingInstance)
    (hget : reg.get? h = some inst) (hc : inst.audioChannel.closed = false)
    (hfull : inst.audioChannel.cap ≤ inst.audioChannel.queue.length)
    (audioData : Bytes) (audioType : Int) (nodeID : Nat) :
    goOnAudioDataReceived reg h audioData audioType nodeID = some (reg.set h inst) := by
  simp only [goOnAudioDataReceived, hget, enqueue_full inst _ hc hfull]

/-- The queue of `fullInstance` is open and holds as many frames as its capacity. -/
theorem fullInstance_full :
    fullInstance.audioChannel.closed = false ∧
    fullInstance.audioChannel.cap ≤ fullInstance.audioChannel.queue.length := by
  refine ⟨rfl, ?_⟩
  show 1000 ≤ (List.replicate 1000 oneWayFrame).length
  rw [List.length_replicate]

/-- C20, counterexample: handle 1 routes to an instance whose queue holds 1000
frames, its capacity, and whose `FramesDropped` is 0. The callback returns, and
afterwards handle 1 routes to the same instance: `FramesDropped` is still 0 and
no other counter of the statistics has changed. -/
theorem callback_drop_counter_counterexample :
    fullRegistry.get? 1 = some fullInstance ∧
    fullInstance.audioChannel.queue.length = 1000 ∧
    fullInstance.stats.FramesDropped = 0 ∧
    ∃ reg', goOnAudioDataReceived fullRegistry 1 [1, 2] 1 7 = some reg' ∧
      reg'.get? 1 = some fullInstance ∧
      ¬ ∃ inst', reg'.get? 1 = some inst' ∧
          inst'.stats.FramesDropped = (fullInstance.stats.FramesDropped + 1) % 2 ^ 64 := by
  have hget : fullRegistry.get? 1 = some fullInstance := rfl
  have hafter : (fullRegistry.set 1 fullInstance).get? 1 = some fullInstance := rfl
  refine ⟨hget, by show (List.replicate 1000 oneWayFrame).length = 1000
                   rw [List.length_replicate], rfl, fullRegistry.set 1 fullInstance,
    callback_full fullRegistry 1 fullInstance hget fullInstance_full.1 fullInstance_full.2 _ _ _,
    hafter, ?_⟩
  rintro ⟨inst', h1, h2⟩
  rw [hafter] at h1
  obtain rfl := Option.some.inj h1
  exact absurd h2 (by decide)

/-- C20, amended: when the handle routes to an open instance whose intake queue
is full, the callback returns (the producer does not block); afterwards the
handle routes to an instance with the same queue, so the new frame is the one
lost, and with the same statistics, so no counter has changed; the other handles
route as before. -/
theorem callback_drops_newest_uncounted (reg : GoMap Nat MeetingInstance) (h : Nat)
    (inst : MeetingInstance) (hget : reg.get? h = some inst)
    (hc : inst.audioChannel.closed = false)
    (hfull : inst.audioChannel.cap ≤ inst.audioChannel.queue.length)
    (audioData : Bytes) (audioType : Int) (nodeID : Nat) :
    ∃ reg', goOnAudioDataReceived reg h audioData audioType nodeID = some reg' ∧
      (∃ inst', reg'.get? h = some inst' ∧
        inst'.audioChannel.queue = inst.audioChannel.queue ∧ inst'.stats = inst.stats) ∧
      (∀ k, reg'.get? k = reg.get? k) := by
  refine ⟨reg.set h inst, callback_full reg h inst hget hc hfull audioData audioType nodeID,
    ⟨inst, AList.lookup_insert _, rfl, rfl⟩, fun k => ?_⟩
  by_cases hk : k = h
  · subst hk
    rw [hget]; exact AList.lookup_insert _
  · exact AList.lookup_insert_ne hk

/-- Witness of C20 (amended): the callback on `fullRegistry`, handle 1. -/
theorem callback_drops_newest_uncounted_witness :
    fullRegistry.get? 1 = some fullInstance ∧
    fullInstance.audioChannel.closed = false ∧
    fullInstance.audioChannel.cap ≤ fullInstance.audioChannel.queue.length ∧
    ∃ reg', goOnAudioDataReceived fullRegistry 1 [1, 2] 1 7 = some reg' ∧
      (∃ inst', reg'.get? 1 = some inst' ∧
        inst'.audioChannel.queue = fullInstance.audioChannel.queue ∧
        inst'.stats = fullInstance.stats) ∧
      (∀ k, reg'.get? k = fullRegistry.get? k) :=
  ⟨rfl, fullInstance_full.1, fullInstance_full.2,
    callback_drops_newest_uncounted fullRegistry 1 fullInstance rfl fullInstance_full.1
      fullInstance_full.2 [1, 2] 1 7⟩

end Zoomsdk

/-! # The names of the audio types -/

namespace Audio

/-- C25: for every audio type `t`, `t.String()` is "mixed" for 0, "one_way" for
1, "share" for 2 and "unknown" for every other value, 999 among them. -/
theorem audioType_string (t : Nat) :
    (t = 0 → AudioType.String t = "mixed") ∧
    (t = 1 → AudioType.String t = "one_way") ∧
    (t = 2 → AudioType.String t = "share") ∧
    (t ≠ 0 → t ≠ 1 → t ≠ 2 → AudioType.String t = "unknown") ∧
    AudioType.String AudioTypeMixed = "mixed" ∧
    AudioType.String AudioTypeOneWay = "one_way" ∧
    AudioType.String AudioTypeShare = "share" ∧
    AudioType.String 999 = "unknown" := by
  refine ⟨?_, ?_, ?_, ?_, rfl, rfl, rfl, rfl⟩
  · rintro rfl; rfl
  · rintro rfl; rfl
  · rintro rfl; rfl
  · intro h0 h1 h2
    simp [AudioType.String, AudioTypeMixed, AudioTypeOneWay, AudioTypeShare, h0, h1, h2]

end Audio

/-! # Process manager: capacity and cleanup -/

namespace Main

open Audio Zoomsdk

/-! ### The number of workers of the default port range -/

/-- On the default range, with the counter at `k < 999` and the candidates of
the first `k` calls claimed, `allocatePort` claims and returns the candidate of
call `k + 1`. -/
theorem allocatePort_default_step (pm : ProcessManager) (k : Nat) (hb : pm.basePort = 9000)
    (hm : pm.maxPort = 9999) (hn : pm.nextPort = k) (hk : k < 999)
    (hinv : ∀ p, pm.usedPorts.get? p ≠ none ↔ ∃ i, 1 ≤ i ∧ i ≤ k ∧ p = 9000 + i % 999) :
    pm.allocatePort.2 = 9000 + (k + 1) % 999 ∧
    pm.allocatePort.1.basePort = 9000 ∧ pm.allocatePort.1.maxPort = 9999 ∧
    pm.allocatePort.1.nextPort = k + 1 ∧
    (∀ p, pm.allocatePort.1.usedPorts.get? p ≠ none ↔
      ∃ i, 1 ≤ i ∧ i ≤ k + 1 ∧ p = 9000 + i % 999) := by
  have hfree : pm.usedPorts.get? (9000 + (k + 1) % 999) = none := by
    by_contra h
    obtain ⟨i, h1, h2, h3⟩ := (hinv _).mp h
    omega
  have hnext : (k + 1) % 2 ^ 32 = k + 1 := Nat.mod_eq_of_lt (by omega)
  have e : pm.allocatePort =
      ({ pm with nextPort := k + 1,
                 usedPorts := pm.usedPorts.set (9000 + (k + 1) % 999) true },
        9000 + (k + 1) % 999) := by
    unfold ProcessManager.allocatePort
    rw [hm, hb]
    show ProcessManager.allocatePortLoop (998 + 1) pm = _
    unfold ProcessManager.allocatePortLoop
    simp only [hm, hb, hn, hnext, hfree]
  rw [e]
  refine ⟨rfl, hb, hm, rfl, fun p => ?_⟩
  show (pm.usedPorts.set (9000 + (k + 1) % 999) true).get? p ≠ none ↔ _
  by_cases hp : p = 9000 + (k + 1) % 999
  · subst hp
    rw [get_set_self]
    exact ⟨fun _ => ⟨k + 1, by omega, le_refl _, rfl⟩, fun _ => by simp⟩
  · rw [get_set_ne _ _ _ _ hp, hinv]
    constructor
    · rintro ⟨i, h1, h2, h3⟩
      exact ⟨i, h1, by omega, h3⟩
    · rintro ⟨i, h1, h2, h3⟩
      have : i ≠ k + 1 := by
        rintro rfl
        exact hp h3
      exact ⟨i, h1, by omega, h3⟩

/-- On the default range, once the candidates of 999 calls are claimed,
`allocatePort` returns 0. -/
theorem allocatePort_default_exhausted (pm : ProcessManager) (hb : pm.basePort = 9000)
    (hm : pm.maxPort = 9999) (hn : pm.nextPort = 999)
    (hinv : ∀ p, pm.usedPorts.get? p ≠ none ↔ ∃ i, 1 ≤ i ∧ i ≤ 999 ∧ p = 9000 + i % 999) :
    pm.allocatePort.2 = 0 := by
  unfold ProcessManager.allocatePort
  rw [hm, hb]
  refine (allocatePortLoop_fails 999 pm (fun i h1 h2 => ?_)).1
  rw [hm, hb, hn]
  refine (hinv _).mpr ⟨if i = 999 then 999 else i, ?_, ?_, ?_⟩
  · split_ifs <;> omega
  · split_ifs <;> omega
  · have : (999 + i) % 2 ^ 32 = 999 + i := Nat.mod_eq_of_lt (by omega)
    rw [this]
    split_ifs with h
    · subst h; rfl
    · omega

/-- The ports returned by the calls that follow the first `k` calls on the
default manager, up to call 1000. -/
theorem allocatePorts_default (n : Nat) :
    ∀ (k : Nat) (pm : ProcessManager), pm.basePort = 9000 → pm.maxPort = 9999 →
      pm.nextPort = k →
      (∀ p, pm.usedPorts.get? p ≠ none ↔ ∃ i, 1 ≤ i ∧ i ≤ k ∧ p = 9000 + i % 999) →
      k + (n + 1) = 1000 →
      (ProcessManager.allocatePorts (n + 1) pm).2 =
        (List.range n).map (fun i => 9000 + (k + i + 1) % 999) ++ [0] := by
  induction n with
  | zero =>
    intro k pm hb hm hn hinv hk
    have hk9 : k = 999 := by omega
    subst hk9
    show [pm.allocatePort.2] = [0]
    rw [allocatePort_default_exhausted pm hb hm hn hinv]
  | succ n ih =>
    intro k pm hb hm hn hinv hk
    obtain ⟨h2, hb', hm', hn', hinv'⟩ :=
      allocatePort_default_step pm k hb hm hn (by omega) hinv
    have hrest := ih (k + 1) pm.allocatePort.1 hb' hm' hn' hinv' (by omega)
    show pm.allocatePort.2 :: (ProcessManager.allocatePorts (n + 1) pm.allocatePort.1).2 = _
    rw [hrest, h2, List.range_succ_eq_map, List.map_cons, List.map_map, List.cons_append]
    congr 2
    refine List.map_congr_left (fun i _ => ?_)
    show 9000 + (k + 1 + i + 1) % 999 = 9000 + (k + (i + 1) + 1) % 999
    rw [show k + 1 + i + 1 = k + (i + 1) + 1 by omega]

/-- C26, at the failing input: on the manager made by `NewProcessManager`
(ports 9000 to 9999, nothing claimed), 1000 successive calls of `allocatePort`
with no release in between return 9001, ..., 9998, 9000 and then 0: the first
999 calls return pairwise distinct ports and call 1000 fails, so 999 workers are
allowed, not 1000. Port 9999 is never returned. -/
theorem allocatePorts_default_range_999 :
    freshManager.basePort = 9000 ∧ freshManager.maxPort = 9999 ∧
    freshManager.usedPorts.len = 0 ∧
    (ProcessManager.allocatePorts 1000 freshManager).2 =
      (List.range 999).map (fun i => 9000 + (i + 1) % 999) ++ [0] ∧
    ((List.range 999).map (fun i => 9000 + (i + 1) % 999)).Nodup ∧
    (∀ p ∈ (List.range 999).map (fun i => 9000 + (i + 1) % 999), 9000 ≤ p ∧ p ≤ 9998) ∧
    (ProcessManager.allocatePorts 1000 freshManager).2.getLast? = some 0 := by
  have hlist : (ProcessManager.allocatePorts 1000 freshManager).2 =
      (List.range 999).map (fun i => 9000 + (i + 1) % 999) ++ [0] := by
    have h := allocatePorts_default 999 0 freshManager rfl rfl rfl (fun p => by
      constructor
      · intro h; exact absurd rfl h
      · rintro ⟨i, h1, h2, -⟩; omega) rfl
    rw [h]
    congr 2
    funext i
    rw [Nat.zero_add]
  refine ⟨rfl, rfl, rfl, hlist, ?_, ?_, ?_⟩
  · refine List.Nodup.map_on (fun a ha b hb hab => ?_) (List.nodup_range 999)
    have ha' := List.mem_range.mp ha
    have hb' := List.mem_range.mp hb
    omega
  · intro p hp
    obtain ⟨i, hi, rfl⟩ := List.mem_map.mp hp
    have := List.mem_range.mp hi
    omega
  · rw [hlist, List.getLast?_append_of_ne_nil _ (by simp)]
    rfl

/-! ### Whose resources the monitor releases -/

/-- C28, at the failing input: after `JoinMeeting("m1")`, `LeaveMeeting("m1")`
and a second `JoinMeeting("m1")`, the registry maps "m1" to the new worker
(worker 1, running, port 9002). When the monitor of the old worker (worker 0,
meeting "m1") observes its exit, the entry of "m1" is removed although it is the
entry of the new worker, which is left running and unregistered with its port
claimed. On the manager with three ports, the port 9001 of the old worker is by
then held by the worker of "m4", and the monitor of the old worker un-claims
it. -/
theorem monitor_removes_rejoined_entry :
    rejoinedManager.workers.get? "m1" = some 1 ∧
    (rejoinedManager.heap 0).MeetingID = "m1" ∧ (rejoinedManager.heap 0).stopped = true ∧
    (rejoinedManager.heap 1).stopped = false ∧ (rejoinedManager.heap 1).Port = 9002 ∧
    (rejoinedManager.monitorWorker 0 false).map (fun pm => pm.workers.get? "m1") = some none ∧
    (rejoinedManager.monitorWorker 0 false).map
      (fun pm => ((pm.heap 1).stopped, pm.usedPorts.get? 9002)) = some (false, some true) ∧
    reusedPortManager.workers.get? "m4" = some 3 ∧
    (reusedPortManager.heap 3).Port = 9001 ∧ (reusedPortManager.heap 3).stopped = false ∧
    (reusedPortManager.heap 0).Port = 9001 ∧
    reusedPortManager.usedPorts.get? 9001 = some true ∧
    (reusedPortManager.monitorWorker 0 false).map
      (fun pm => (pm.workers.get? "m4", pm.usedPorts.get? 9001)) = some (some 3, none) := by
  refine ⟨by decide, by decide, by decide, by decide, by decide, by decide, by decide,
    by decide, by decide, by decide, by decide, by decide, by decide⟩

end Main

/-! # Streaming server: properties -/

namespace Server

open Audio

/-! ### ParseConnectionConfig -/

theorem foldl_addType (types : List String) :
    ∀ config : ConnectionConfig,
      types.foldl ParseConnectionConfig.addType config =
        { config with AudioTypes := config.AudioTypes ++ types.filterMap audioTypeOfString } := by
  induction types with
  | nil => intro config; simp
  | cons typeStr rest ih =>
    intro config
    rw [List.foldl_cons, ih]
    unfold ParseConnectionConfig.addType audioTypeOfString
    by_cases h1 : typeStr = "mixed"
    · simp [h1, AudioTypeMixed, audioTypeOfString]
    · by_cases h2 : typeStr = "one_way"
      · simp [h2, AudioTypeOneWay, audioTypeOfString]
      · by_cases h3 : typeStr = "share"
        · simp [h3, AudioTypeShare, audioTypeOfString]
        · simp [h1, h2, h3, audioTypeOfString]

theorem foldl_addUserID (sscanf : String → Option Nat) (userIDs : List String) :
    ∀ config : ConnectionConfig,
      userIDs.foldl (ParseConnectionConfig.addUserID sscanf) config =
        { config with UserIDs := config.UserIDs ++ userIDs.filterMap sscanf } := by
  induction userIDs with
  | nil => intro config; simp
  | cons s rest ih =>
    intro config
    rw [List.foldl_cons, ih]
    unfold ParseConnectionConfig.addUserID
    cases h : sscanf s with
    | none => simp [h]
    | some v => simp [h]

/-- The configuration returned by `ParseConnectionConfig`, field by field. -/
theorem parseConnectionConfig_eq (sscanf : String → Option Nat)
    (params : GoMap String (List String)) :
    ParseConnectionConfig sscanf params =
      { MeetingID := (match params.get? "meeting_id" with
                      | some (meetingID :: _) => meetingID
                      | _ => "")
        AudioTypes := ((params.get? "type").getD []).filterMap audioTypeOfString
        UserIDs := ((params.get? "user_id").getD []).filterMap sscanf
        QueueSize := 1000
        EnableHeartbeat := true
        HeartbeatInterval := 30 } := by
  unfold ParseConnectionConfig
  have hm : ∀ o : Option (List String),
      (match o with
        | some (meetingID :: _) =>
          ({ MeetingID := meetingID, AudioTypes := [], UserIDs := [], QueueSize := 1000,
             EnableHeartbeat := true, HeartbeatInterval := 30 } : ConnectionConfig)
        | _ => { MeetingID := "", AudioTypes := [], UserIDs := [], QueueSize := 1000,
                 EnableHeartbeat := true, HeartbeatInterval := 30 }) =
      { MeetingID := (match o with
                      | some (meetingID :: _) => meetingID
                      | _ => "")
        AudioTypes := [], UserIDs := [], QueueSize := 1000, EnableHeartbeat := true,
        HeartbeatInterval := 30 } := by
    intro o
    split <;> rfl
  simp only [hm]
  cases params.get? "type" with
  | none =>
    cases params.get? "user_id" with
    | none => simp
    | some us => simp [foldl_addUserID]
  | some ts =>
    cases params.get? "user_id" with
    | none => simp [foldl_addType]
    | some us => simp [foldl_addUserID, foldl_addType]

/-- C23: for every set of query parameters, `ParseConnectionConfig` returns
`QueueSize` 1000, `EnableHeartbeat` true and `HeartbeatInterval` 30; without a
`type` and without a `user_id` parameter both allow-lists are empty. -/
theorem parseConnectionConfig_defaults (sscanf : String → Option Nat)
    (params : GoMap String (List String)) :
    (ParseConnectionConfig sscanf params).QueueSize = 1000 ∧
    (ParseConnectionConfig sscanf params).EnableHeartbeat = true ∧
    (ParseConnectionConfig sscanf params).HeartbeatInterval = 30 ∧
    (params.get? "type" = none → params.get? "user_id" = none →
      (ParseConnectionConfig sscanf params).AudioTypes = [] ∧
      (ParseConnectionConfig sscanf params).UserIDs = []) := by
  rw [parseConnectionConfig_eq]
  refine ⟨rfl, rfl, rfl, fun ht hu => ?_⟩
  simp [ht, hu]

/-- A subscriber made from a configuration with an empty list of audio types
treats two frames that differ in their type only alike. -/
theorem subscriber_ignores_type (id : String) (config : ConnectionConfig) (now : Time)
    (h : config.AudioTypes = []) (meetingID : String) (frame : AudioFrame) (t : Nat) :
    (Client.subscriber id config now).ShouldReceive meetingID frame =
      (Client.subscriber id config now).ShouldReceive meetingID { frame with Typ := t } := by
  simp [Client.subscriber, Subscriber.ShouldReceive, Subscriber.SetUserIDFilter,
    Subscriber.SetAudioTypeFilter, Subscriber.SetMeetingFilter, NewSubscriber, h, GoMap.len]

/-- C29: for every list of values of the parameter `type`, the allow-list of
audio types is the list of the codes of the recognised values ("mixed" 0,
"one_way" 1, "share" 2), in order, every other value being skipped. When no
value is recognised the allow-list is empty, the configuration is the one parsed
from the parameters without `type`, and the subscriber made from it (for any
meeting) treats a frame alike whatever its audio type. -/
theorem parse_types_recognised_only (sscanf : String → Option Nat)
    (params : GoMap String (List String)) (types : List String)
    (h : params.get? "type" = some types) :
    (ParseConnectionConfig sscanf params).AudioTypes = types.filterMap audioTypeOfString ∧
    audioTypeOfString "mixed" = some AudioTypeMixed ∧
    audioTypeOfString "one_way" = some AudioTypeOneWay ∧
    audioTypeOfString "share" = some AudioTypeShare ∧
    (∀ s, s ≠ "mixed" → s ≠ "one_way" → s ≠ "share" → audioTypeOfString s = none) ∧
    ((∀ s ∈ types, s ≠ "mixed" ∧ s ≠ "one_way" ∧ s ≠ "share") →
      (ParseConnectionConfig sscanf params).AudioTypes = [] ∧
      ParseConnectionConfig sscanf params = ParseConnectionConfig sscanf (params.delete "type") ∧
      (∀ (id meetingID target : String) (now : Time) (frame : AudioFrame) (t : Nat),
        (Client.subscriber id
            { ParseConnectionConfig sscanf params with MeetingID := meetingID } now).ShouldReceive
            target frame =
          (Client.subscriber id
            { ParseConnectionConfig sscanf params with MeetingID := meetingID } now).ShouldReceive
            target { frame with Typ := t })) := by
  have hnone : ∀ s, s ≠ "mixed" → s ≠ "one_way" → s ≠ "share" → audioTypeOfString s = none := by
    intro s h1 h2 h3
    simp [audioTypeOfString, h1, h2, h3]
  have htypes : (ParseConnectionConfig sscanf params).AudioTypes
      = types.filterMap audioTypeOfString := by
    rw [parseConnectionConfig_eq]
    simp [h]
  refine ⟨htypes, rfl, rfl, rfl, hnone, fun hall => ?_⟩
  have hempty : types.filterMap audioTypeOfString = [] := by
    rw [List.filterMap_eq_nil_iff]
    intro s hs
    obtain ⟨h1, h2, h3⟩ := hall s hs
    exact hnone s h1 h2 h3
  have hA : (ParseConnectionConfig sscanf params).AudioTypes = [] := by rw [htypes, hempty]
  refine ⟨hA, ?_, fun id meetingID target now frame t => ?_⟩
  · rw [parseConnectionConfig_eq, parseConnectionConfig_eq]
    have e1 : (params.delete "type").get? "meeting_id" = params.get? "meeting_id" :=
      AList.lookup_erase_ne (by decide)
    have e2 : (params.delete "type").get? "user_id" = params.get? "user_id" :=
      AList.lookup_erase_ne (by decide)
    have e3 : (params.delete "type").get? "type" = none := AList.lookup_erase _ _
    rw [e1, e2, e3, h]
    simp [hempty]
  · refine subscriber_ignores_type id _ now ?_ target frame t
    exact hA

/-- Three values of `type`, of which "one_way" alone is recognised. -/
theorem parse_types_recognised_only_witness :
    typeParams.get? "type" = some ["stereo", "one_way", "MIXED"] ∧
    (ParseConnectionConfig (fun _ => none) typeParams).AudioTypes = [1] := by
  refine ⟨rfl, ?_⟩
  have h := (parse_types_recognised_only (fun _ => none) typeParams
    ["stereo", "one_way", "MIXED"] rfl).1
  rw [h]
  decide

/-! ### The join handler -/

/-- C24: for every request body: when the body does not decode into a request,
or decodes into one whose `meeting_id` is empty, the response is 400, the manager
is left as it was and `JoinMeeting` is not called; otherwise `JoinMeeting` is
called once, with the meeting id, password, display name and token of the
request, and the response is 202 with the document `status: "joining"` when it
returns nil and 500 with the text of the error when it returns an error. -/
theorem handleJoinMeeting_responses {σ : Type} (JoinMeeting : JoinMeetingMethod σ)
    (decode : Bytes → Option JoinMeetingRequest) (meetingManager : σ) (body : Bytes) :
    ((decode body = none ∨ ∃ req, decode body = some req ∧ req.MeetingID = "") →
      (HTTPServer.handleJoinMeeting JoinMeeting decode meetingManager body).2.code = 400 ∧
      (HTTPServer.handleJoinMeeting JoinMeeting decode meetingManager body).1 = meetingManager ∧
      (∀ (result : Option String) (calls : List JoinMeetingRequest),
        (HTTPServer.handleJoinMeeting (recordingJoin result) decode calls body).1 = calls)) ∧
    (∀ req, decode body = some req → req.MeetingID ≠ "" →
      (HTTPServer.handleJoinMeeting JoinMeeting decode meetingManager body).1 =
        (JoinMeeting meetingManager req.MeetingID req.Password req.DisplayName req.JoinToken
          true false).1 ∧
      ((JoinMeeting meetingManager req.MeetingID req.Password req.DisplayName req.JoinToken
          true false).2 = none →
        (HTTPServer.handleJoinMeeting JoinMeeting decode meetingManager body).2.code = 202 ∧
        (HTTPServer.handleJoinMeeting JoinMeeting decode meetingManager body).2.body =
          ResponseBody.json [("status", JsonValue.str "joining")]) ∧
      (∀ err, (JoinMeeting meetingManager req.MeetingID req.Password req.DisplayName
          req.JoinToken true false).2 = some err →
        (HTTPServer.handleJoinMeeting JoinMeeting decode meetingManager body).2.code = 500 ∧
        (HTTPServer.handleJoinMeeting JoinMeeting decode meetingManager body).2.body =
          ResponseBody.text err) ∧
      (∀ (result : Option String) (calls : List JoinMeetingRequest),
        (HTTPServer.handleJoinMeeting (recordingJoin result) decode calls body).1 =
          calls ++ [req])) := by
  refine ⟨fun h => ?_, fun req hd hid => ?_⟩
  · rcases h with h | ⟨req, h, hid⟩
    · simp [HTTPServer.handleJoinMeeting, h, httpError, StatusBadRequest]
    · simp [HTTPServer.handleJoinMeeting, h, hid, httpError, StatusBadRequest]
  · refine ⟨?_, fun hr => ?_, fun err hr => ?_, fun result calls => ?_⟩
    · simp only [HTTPServer.handleJoinMeeting, hd, hid, if_false]
      split <;> simp_all
    · simp only [HTTPServer.handleJoinMeeting, hd, hid, if_false]
      split <;> simp_all [StatusAccepted]
    · simp only [HTTPServer.handleJoinMeeting, hd, hid, if_false]
      split <;> simp_all [StatusInternalServerError, httpError]
    · simp only [HTTPServer.handleJoinMeeting, hd, hid, if_false, recordingJoin]
      cases result <;> rfl

/-! ### The buffers of the writer -/

theorem index_set_self {κ ν : Type} [DecidableEq κ] [Inhabited ν] (m : GoMap κ ν) (k : κ)
    (v : ν) : (m.set k v).index k = v := by
  simp [GoMap.index, GoMap.set, AList.lookup_insert]

theorem index_set_ne {κ ν : Type} [DecidableEq κ] [Inhabited ν] (m : GoMap κ ν) (k k' : κ)
    (v : ν) (h : k' ≠ k) : (m.set k v).index k' = m.index k' := by
  simp [GoMap.index, GoMap.set, AList.lookup_insert_ne h]

theorem index_of_none {κ ν : Type} [DecidableEq κ] [Inhabited ν] (m : GoMap κ ν) (k : κ)
    (h : m.get? k = none) : m.index k = default := by
  unfold GoMap.get? at h
  simp [GoMap.index, h]

theorem index_of_some {κ ν : Type} [DecidableEq κ] [Inhabited ν] (m : GoMap κ ν) (k : κ)
    (v : ν) (h : m.get? k = some v) : m.index k = v := by
  unfold GoMap.get? at h
  simp [GoMap.index, h]

theorem index_empty (t : Nat) : (∅ : GoMap Nat Bytes).index t = [] := rfl

/-- Receiving a frame appends its payload to the buffer of its speaker and type
and changes no other buffer. -/
theorem buffer_accumulate (ub : GoMap Nat (GoMap Nat Bytes)) (msg : AudioFrame) (u t : Nat) :
    ((accumulate ub msg).index u).index t =
      (ub.index u).index t ++ (if msg.UserID = u ∧ msg.Typ = t then msg.Data else []) := by
  have hkey : ∀ (ub1 : GoMap Nat (GoMap Nat Bytes)), ub1.index msg.UserID = ub.index msg.UserID →
      (∀ u', u' ≠ msg.UserID → ub1.index u' = ub.index u') →
      ((ub1.set msg.UserID ((ub1.index msg.UserID).set msg.Typ
          ((ub1.index msg.UserID).index msg.Typ ++ msg.Data))).index u).index t =
        (ub.index u).index t ++ (if msg.UserID = u ∧ msg.Typ = t then msg.Data else []) := by
    intro ub1 h1 h2
    by_cases hu : u = msg.UserID
    · subst hu
      rw [index_set_self, h1]
      by_cases ht : t = msg.Typ
      · subst ht
        rw [index_set_self]
        simp
      · rw [index_set_ne _ _ _ _ ht]
        have : ¬ (msg.UserID = msg.UserID ∧ msg.Typ = t) := fun h => ht h.2.symm
        rw [if_neg this, List.append_nil]
    · rw [index_set_ne _ _ _ _ hu, h2 u hu]
      have : ¬ (msg.UserID = u ∧ msg.Typ = t) := fun h => hu h.1.symm
      rw [if_neg this, List.append_nil]
  unfold accumulate
  cases h : ub.get? msg.UserID with
  | none =>
    refine hkey _ ?_ (fun u' hu' => index_set_ne _ _ _ _ hu')
    rw [index_set_self, index_of_none ub _ h]
    rfl
  | some inner => exact hkey ub rfl (fun _ _ => rfl)

/-- Emptying one buffer changes no other buffer. -/
theorem buffer_reset (ub : GoMap Nat (GoMap Nat Bytes)) (u0 t0 u t : Nat) :
    ((ub.set u0 ((ub.index u0).set t0 [])).index u).index t =
      if u = u0 ∧ t = t0 then [] else (ub.index u).index t := by
  by_cases hu : u = u0
  · subst hu
    rw [index_set_self]
    by_cases ht : t = t0
    · subst ht
      rw [index_set_self]
      simp
    · rw [index_set_ne _ _ _ _ ht]
      simp [ht]
  · rw [index_set_ne _ _ _ _ hu]
    simp [hu]

theorem payload_append (a b : List AudioFrame) (u t : Nat) :
    payload (a ++ b) u t = payload a u t ++ payload b u t := by
  induction a with
  | nil => rfl
  | cons f rest ih => simp [payload, ih]

theorem buffer_foldl (frames : List AudioFrame) :
    ∀ (ub : GoMap Nat (GoMap Nat Bytes)) (u t : Nat),
      ((frames.foldl accumulate ub).index u).index t = (ub.index u).index t ++ payload frames u t := by
  induction frames with
  | nil => intro ub u t; simp [payload]
  | cons f rest ih =>
    intro ub u t
    rw [List.foldl_cons, ih, buffer_accumulate, payload, List.append_assoc]

/-! ### The loop of the writer -/

theorem writePump_returned (evs : List PumpEvent) (st : PumpState) (h : st.returned = true) :
    Client.writePump evs st = st := by
  cases evs with
  | nil => rfl
  | cons ev rest => simp [Client.writePump, h]

theorem writePump_append (evs1 : List PumpEvent) :
    ∀ (evs2 : List PumpEvent) (st : PumpState),
      Client.writePump (evs1 ++ evs2) st = Client.writePump evs2 (Client.writePump evs1 st) := by
  induction evs1 with
  | nil => intro evs2 st; rfl
  | cons ev rest ih =>
    intro evs2 st
    by_cases h : st.returned = true
    · rw [writePump_returned _ _ h, writePump_returned _ _ h, writePump_returned _ _ h]
    · simp only [List.cons_append, Client.writePump, h]
      exact ih evs2 _

theorem writePump_recvFrames (frames : List AudioFrame) :
    ∀ st : PumpState, st.returned = false →
      Client.writePump (recvFrames frames) st =
        { st with userBuffers := frames.foldl accumulate st.userBuffers } := by
  induction frames with
  | nil => intro st _; rfl
  | cons f rest ih =>
    intro st h
    have e : Client.writePump (recvFrames (f :: rest)) st =
        Client.writePump (recvFrames rest) (st.step (PumpEvent.recv (SendItem.frame f))) := by
      show (if st.returned then st else _) = _
      rw [h]; rfl
    rw [e, ih (st.step (PumpEvent.recv (SendItem.frame f))) h]
    rfl

theorem write_ok (c : Conn) (h : c.failAt = none) (m : WsMessage) :
    c.WriteMessage m = ({ c with written := c.written ++ [m] }, true) := by
  simp [Conn.WriteMessage, h]

/-! ### The flush -/

theorem mem_pendingTypes (userID : Nat) (entries : List (Sigma (fun _ : Nat => Bytes)))
    (f : AudioFrame) (h : f ∈ pendingTypes userID entries) : f.UserID = userID := by
  induction entries with
  | nil => simp [pendingTypes] at h
  | cons e rest ih =>
    obtain ⟨t, buf⟩ := e
    unfold pendingTypes at h
    split_ifs at h
    · exact ih h
    · rcases List.mem_cons.mp h with rfl | h
      · rfl
      · exact ih h

/-- The inner loop of the flush, when no write fails: one message for every
buffer that is not empty, and these buffers are emptied. -/
theorem flushTypes_spec (userID : Nat) (entries : List (Sigma (fun _ : Nat => Bytes))) :
    ∀ st : PumpState, st.conn.failAt = none →
      (flushTypes userID entries st).conn.written =
        st.conn.written ++
          (pendingTypes userID entries).map (fun f => WsMessage.binary f.Encode) ∧
      (flushTypes userID entries st).conn.failAt = none ∧
      (flushTypes userID entries st).returned = st.returned ∧
      ∀ u t, (flushTypes userID entries st).buffer u t =
        if u = userID ∧ ∃ f ∈ pendingTypes userID entries, f.Typ = t then []
        else st.buffer u t := by
  induction entries with
  | nil => intro st h; simp [flushTypes, pendingTypes, h]
  | cons e rest ih =>
    obtain ⟨t0, buf⟩ := e
    intro st h
    unfold flushTypes pendingTypes
    by_cases hb : buf.length = 0
    · simp only [hb, if_true]
      exact ih st h
    · simp only [hb, if_false, write_ok st.conn h]
      obtain ⟨h1, h2, h3, h4⟩ := ih
        { st with conn := { st.conn with written := st.conn.written ++
                              [WsMessage.binary (AudioFrame.mk t0 userID buf).Encode] }
                  userBuffers := st.userBuffers.set userID
                      ((st.userBuffers.index userID).set t0 []) } h
      refine ⟨?_, h2, h3, fun u t => ?_⟩
      · rw [h1]; simp
      · rw [h4]
        show (if u = userID ∧ ∃ f ∈ pendingTypes userID rest, f.Typ = t then []
          else ((st.userBuffers.set userID ((st.userBuffers.index userID).set t0 [])).index
            u).index t) = _
        rw [buffer_reset]
        by_cases hu : u = userID
        · by_cases ht : t = t0
          · simp [hu, ht]
          · have hne : ¬ t0 = t := fun h => ht h.symm
            simp [hu, ht, hne, PumpState.buffer]
        · simp [hu, PumpState.buffer]

/-- The flush, when no write fails: one message for every buffer that is not
empty, and these buffers are emptied. -/
theorem flushUsers_spec (entries : List (Sigma (fun _ : Nat => GoMap Nat Bytes))) :
    ∀ st : PumpState, st.conn.failAt = none → st.returned = false →
      (flushUsers entries st).conn.written =
        st.conn.written ++ (pendingFrames entries).map (fun f => WsMessage.binary f.Encode) ∧
      (flushUsers entries st).conn.failAt = none ∧
      (flushUsers entries st).returned = false ∧
      ∀ u t, (flushUsers entries st).buffer u t =
        if ∃ f ∈ pendingFrames entries, f.UserID = u ∧ f.Typ = t then [] else st.buffer u t := by
  induction entries with
  | nil => intro st h hr; simp [flushUsers, pendingFrames, h, hr]
  | cons e rest ih =>
    obtain ⟨u0, typeMap⟩ := e
    intro st h hr
    obtain ⟨h1, h2, h3, h4⟩ := flushTypes_spec u0 typeMap.entries st h
    rw [hr] at h3
    obtain ⟨k1, k2, k3, k4⟩ := ih (flushTypes u0 typeMap.entries st) h2 h3
    unfold flushUsers pendingFrames
    simp only [h3, Bool.false_eq_true, if_false]
    refine ⟨?_, k2, k3, fun u t => ?_⟩
    · rw [k1, h1]; simp
    · rw [k4, h4]
      by_cases hrest : ∃ f ∈ pendingFrames rest, f.UserID = u ∧ f.Typ = t
      · obtain ⟨f, hf, hfu⟩ := hrest
        have : ∃ f ∈ pendingTypes u0 typeMap.entries ++ pendingFrames rest,
            f.UserID = u ∧ f.Typ = t := ⟨f, List.mem_append_right _ hf, hfu⟩
        rw [if_pos ⟨f, hf, hfu⟩, if_pos this]
      · rw [if_neg hrest]
        by_cases hfirst : u = u0 ∧ ∃ f ∈ pendingTypes u0 typeMap.entries, f.Typ = t
        · obtain ⟨hu, f, hf, hft⟩ := hfirst
          have : ∃ f ∈ pendingTypes u0 typeMap.entries ++ pendingFrames rest,
              f.UserID = u ∧ f.Typ = t :=
            ⟨f, List.mem_append_left _ hf, by rw [hu]; exact mem_pendingTypes _ _ _ hf, hft⟩
          rw [if_pos ⟨hu, f, hf, hft⟩, if_pos this]
        · rw [if_neg hfirst, if_neg]
          rintro ⟨f, hf, hfu, hft⟩
          rcases List.mem_append.mp hf with hf | hf
          · exact hfirst ⟨by rw [← hfu]; exact mem_pendingTypes _ _ _ hf, f, hf, hft⟩
          · exact hrest ⟨f, hf, hfu, hft⟩

/-- Among the frames built from the entries of one speaker's map, the frames of
a given speaker and type: the one frame of the buffer, when it is not empty. -/
theorem filter_pendingTypes (u' u t : Nat) (entries : List (Sigma (fun _ : Nat => Bytes)))
    (hnd : entries.NodupKeys) :
    (pendingTypes u' entries).filter (fun f => decide (f.UserID = u ∧ f.Typ = t)) =
      if u' = u ∧ (entries.dlookup t).getD [] ≠ [] then
        [{ Typ := t, UserID := u, Data := (entries.dlookup t).getD [] }]
      else [] := by
  induction entries with
  | nil => simp [pendingTypes]
  | cons e rest ih =>
    obtain ⟨t0, buf⟩ := e
    obtain ⟨hnot, hrest⟩ := List.nodupKeys_cons.mp hnd
    have ih := ih hrest
    unfold pendingTypes
    by_cases ht : t0 = t
    · subst ht
      have hnone : rest.dlookup t0 = none := List.dlookup_eq_none.mpr hnot
      rw [hnone] at ih
      simp only [Option.getD_none, ne_eq, not_true_eq_false, and_false, if_false] at ih
      rw [List.dlookup_cons_eq, Option.getD_some]
      by_cases hb : buf.length = 0
      · have hbuf : buf = [] := List.length_eq_zero.mp hb
        rw [if_pos hb, ih, if_neg (fun h => h.2 hbuf)]
      · have hbuf : buf ≠ [] := fun h => hb (by rw [h]; rfl)
        rw [if_neg hb, List.filter_cons, ih]
        by_cases hu : u' = u
        · subst hu
          rw [if_pos (by simp), if_pos ⟨rfl, hbuf⟩]
        · rw [if_neg (by simp [hu]), if_neg (fun h => hu h.1)]
    · rw [List.dlookup_cons_ne _ _ (fun h => ht h.symm), ← ih]
      by_cases hb : buf.length = 0
      · rw [if_pos hb]
      · rw [if_neg hb, List.filter_cons, if_neg (by simp [ht])]

/-- Among the frames a flush builds, the frames of a given speaker and type:
the one frame of the buffer, when it is not empty. -/
theorem filter_pendingFrames (u t : Nat)
    (entries : List (Sigma (fun _ : Nat => GoMap Nat Bytes))) (hnd : entries.NodupKeys) :
    (pendingFrames entries).filter (fun f => decide (f.UserID = u ∧ f.Typ = t)) =
      if (((entries.dlookup u).getD ∅).lookup t).getD [] ≠ [] then
        [{ Typ := t, UserID := u, Data := (((entries.dlookup u).getD ∅).lookup t).getD [] }]
      else [] := by
  induction entries with
  | nil => simp [pendingFrames]
  | cons e rest ih =>
    obtain ⟨u0, typeMap⟩ := e
    obtain ⟨hnot, hrest⟩ := List.nodupKeys_cons.mp hnd
    have ih := ih hrest
    unfold pendingFrames
    rw [List.filter_append, filter_pendingTypes u0 u t typeMap.entries typeMap.nodupKeys]
    by_cases hu : u0 = u
    · subst hu
      have hnone : rest.dlookup u0 = none := List.dlookup_eq_none.mpr hnot
      rw [hnone] at ih
      have hempty : ((∅ : GoMap Nat Bytes).lookup t).getD [] = [] := rfl
      rw [Option.getD_none, hempty] at ih
      simp only [ne_eq, not_true_eq_false, if_false] at ih
      rw [ih, List.dlookup_cons_eq, List.append_nil]
      simp only [true_and, Option.getD_some]
      rfl
    · rw [List.dlookup_cons_ne _ _ (fun h => hu h.symm), ← ih]
      simp [hu]

theorem filter_pending (st : PumpState) (u t : Nat) :
    (pendingFrames st.userBuffers.entries).filter (fun f => decide (f.UserID = u ∧ f.Typ = t)) =
      if st.buffer u t ≠ [] then [{ Typ := t, UserID := u, Data := st.buffer u t }] else [] :=
  filter_pendingFrames u t st.userBuffers.entries st.userBuffers.nodupKeys

/-- A flush tick on a running writer whose writes succeed: one message for
every buffer that is not empty, after which every buffer is empty. -/
theorem flush_spec (st : PumpState) (h : st.conn.failAt = none) (hr : st.returned = false) :
    (st.step PumpEvent.flush).conn.written =
      st.conn.written ++
        (pendingFrames st.userBuffers.entries).map (fun f => WsMessage.binary f.Encode) ∧
    (st.step PumpEvent.flush).conn.failAt = none ∧
    (st.step PumpEvent.flush).returned = false ∧
    ∀ u t, (st.step PumpEvent.flush).buffer u t = [] := by
  obtain ⟨h1, h2, h3, h4⟩ := flushUsers_spec st.userBuffers.entries st h hr
  refine ⟨h1, h2, h3, fun u t => ?_⟩
  show (flushUsers st.userBuffers.entries st).buffer u t = []
  rw [h4]
  split_ifs with hex
  · rfl
  · by_contra hne
    have hf := filter_pending st u t
    rw [if_pos hne] at hf
    have hmem : (AudioFrame.mk t u (st.buffer u t)) ∈
        (pendingFrames st.userBuffers.entries).filter
          (fun f => decide (f.UserID = u ∧ f.Typ = t)) := by
      rw [hf]; exact List.mem_singleton.mpr rfl
    exact hex ⟨_, (List.mem_filter.mp hmem).1, rfl, rfl⟩

theorem payload_filter (l : List AudioFrame) (u t : Nat) :
    payload l u t = payload (l.filter (fun f => decide (f.UserID = u ∧ f.Typ = t))) u t := by
  induction l with
  | nil => rfl
  | cons f rest ih =>
    by_cases h : f.UserID = u ∧ f.Typ = t
    · rw [List.filter_cons, if_pos (by simpa using h)]
      show (if f.UserID = u ∧ f.Typ = t then f.Data else []) ++ payload rest u t =
        (if f.UserID = u ∧ f.Typ = t then f.Data else []) ++ payload _ u t
      rw [← ih]
    · rw [List.filter_cons, if_neg (by simpa using h)]
      show (if f.UserID = u ∧ f.Typ = t then f.Data else []) ++ payload rest u t = _
      rw [if_neg h, List.nil_append, ← ih]

/-- The payload that a flush emits for a speaker and a type is the content of
the buffer. -/
theorem payload_pending (st : PumpState) (u t : Nat) :
    payload (pendingFrames st.userBuffers.entries) u t = st.buffer u t := by
  rw [payload_filter, filter_pending]
  split_ifs with h
  · simp [payload]
  · push_neg at h
    simp [payload, h]

/-! ### One frame for each buffer -/

/-- C21: on a running writer whose buffers are empty (as they are at the start
and after every flush) and whose writes succeed, for every sequence of frames
received before the next flush tick, that flush writes the binary messages
`Encode` of a list of frames in which, for every speaker and audio type, the
frames of that pair are: the one frame holding the concatenation of the pair's
payloads in arrival order when this is not empty, and none otherwise.
Afterwards every buffer is empty and the writer is still running. -/
theorem flush_emits_one_frame_per_pair (st : PumpState) (hempty : ∀ u t, st.buffer u t = [])
    (hr : st.returned = false) (hok : st.conn.failAt = none) (frames : List AudioFrame) :
    ∃ fl : List AudioFrame,
      (Client.writePump (recvFrames frames ++ [PumpEvent.flush]) st).conn.written =
        st.conn.written ++ fl.map (fun f => WsMessage.binary f.Encode) ∧
      (∀ u t, fl.filter (fun f => decide (f.UserID = u ∧ f.Typ = t)) =
        if payload frames u t ≠ [] then
          [{ Typ := t, UserID := u, Data := payload frames u t }]
        else []) ∧
      (∀ u t, (Client.writePump (recvFrames frames ++ [PumpEvent.flush]) st).buffer u t = []) ∧
      (Client.writePump (recvFrames frames ++ [PumpEvent.flush]) st).returned = false := by
  have hrun : Client.writePump (recvFrames frames ++ [PumpEvent.flush]) st =
      PumpState.step { st with userBuffers := frames.foldl accumulate st.userBuffers }
        PumpEvent.flush := by
    rw [writePump_append, writePump_recvFrames frames st hr]
    show (if st.returned then _ else _) = _
    rw [hr]; rfl
  rw [hrun]
  obtain ⟨h1, -, h3, h4⟩ :=
    flush_spec { st with userBuffers := frames.foldl accumulate st.userBuffers } hok hr
  refine ⟨_, h1, fun u t => ?_, h4, h3⟩
  have hbuf : PumpState.buffer { st with userBuffers := frames.foldl accumulate st.userBuffers }
      u t = payload frames u t := by
    show ((frames.foldl accumulate st.userBuffers).index u).index t = _
    rw [buffer_foldl]
    have := hempty u t
    unfold PumpState.buffer at this
    rw [this, List.nil_append]
  have := filter_pending { st with userBuffers := frames.foldl accumulate st.userBuffers } u t
  rw [hbuf] at this
  exact this

/-- Three packets of speaker 7 and type one-way within one interval: one binary
message, holding the five bytes in order. -/
theorem flush_emits_one_frame_per_pair_witness :
    (∀ u t, (PumpState.init none).buffer u t = []) ∧
    (PumpState.init none).returned = false ∧ (PumpState.init none).conn.failAt = none ∧
    payload threePackets 7 AudioTypeOneWay = [1, 2, 3, 4, 5] ∧
    (Client.writePump (recvFrames threePackets ++ [PumpEvent.flush])
        (PumpState.init none)).conn.written =
      [WsMessage.binary (AudioFrame.mk AudioTypeOneWay 7 [1, 2, 3, 4, 5]).Encode] ∧
    ∃ fl : List AudioFrame,
      (Client.writePump (recvFrames threePackets ++ [PumpEvent.flush])
          (PumpState.init none)).conn.written =
        (PumpState.init none).conn.written ++ fl.map (fun f => WsMessage.binary f.Encode) ∧
      (∀ u t, fl.filter (fun f => decide (f.UserID = u ∧ f.Typ = t)) =
        if payload threePackets u t ≠ [] then
          [{ Typ := t, UserID := u, Data := payload threePackets u t }]
        else []) ∧
      (∀ u t, (Client.writePump (recvFrames threePackets ++ [PumpEvent.flush])
          (PumpState.init none)).buffer u t = []) ∧
      (Client.writePump (recvFrames threePackets ++ [PumpEvent.flush])
          (PumpState.init none)).returned = false :=
  ⟨fun _ _ => rfl, rfl, rfl, by decide, by decide,
    flush_emits_one_frame_per_pair (PumpState.init none) (fun _ _ => rfl) rfl rfl threePackets⟩

/-! ### No byte lost, duplicated or mixed -/

/-- What frames and flush ticks keep true of a running writer whose writes
succeed: for every speaker and type, the payloads written followed by the
content of the buffer are the payloads received. -/
theorem writePump_audio_invariant (evs : List PumpEvent) :
    ∀ (st : PumpState) (fl recvd : List AudioFrame), st.conn.failAt = none →
      st.returned = false → st.conn.written = fl.map (fun f => WsMessage.binary f.Encode) →
      (∀ u t, payload fl u t ++ st.buffer u t = payload recvd u t) →
      (∀ ev ∈ evs, ev.isAudio = true) →
      ∃ fl' : List AudioFrame,
        (Client.writePump evs st).conn.failAt = none ∧
        (Client.writePump evs st).returned = false ∧
        (Client.writePump evs st).conn.written = fl'.map (fun f => WsMessage.binary f.Encode) ∧
        ∀ u t, payload fl' u t ++ (Client.writePump evs st).buffer u t =
          payload (recvd ++ framesOf evs) u t := by
  induction evs with
  | nil =>
    intro st fl recvd h1 h2 h3 h4 _
    exact ⟨fl, h1, h2, h3, by simpa [framesOf] using h4⟩
  | cons ev rest ih =>
    intro st fl recvd h1 h2 h3 h4 hev
    have hrest : ∀ ev ∈ rest, ev.isAudio = true := fun e he => hev e (List.mem_cons_of_mem _ he)
    have hstep : Client.writePump (ev :: rest) st = Client.writePump rest (st.step ev) := by
      show (if st.returned then _ else _) = _
      rw [h2]; rfl
    rw [hstep]
    have hthis := hev ev (List.mem_cons_self _ _)
    cases ev with
    | recv item =>
      cases item with
      | text msg => exact Bool.noConfusion hthis
      | frame f =>
        obtain ⟨fl', k1, k2, k3, k4⟩ := ih (st.step (PumpEvent.recv (SendItem.frame f))) fl
          (recvd ++ [f]) h1 h2 h3 (fun u t => by
            show payload fl u t ++ ((accumulate st.userBuffers f).index u).index t = _
            rw [buffer_accumulate, payload_append, ← List.append_assoc]
            have := h4 u t
            unfold PumpState.buffer at this
            rw [this]
            simp [payload]) hrest
        refine ⟨fl', k1, k2, k3, fun u t => ?_⟩
        rw [k4, List.append_assoc]
        rfl
    | flush =>
      obtain ⟨f1, f2, f3, f4⟩ := flush_spec st h1 h2
      obtain ⟨fl', k1, k2, k3, k4⟩ := ih (st.step PumpEvent.flush)
        (fl ++ pendingFrames st.userBuffers.entries) recvd f2 f3
        (by rw [f1, h3, List.map_append]) (fun u t => by
          rw [f4, List.append_nil, payload_append, payload_pending]
          exact h4 u t) hrest
      exact ⟨fl', k1, k2, k3, k4⟩
    | closed => exact Bool.noConfusion hthis
    | ping => exact Bool.noConfusion hthis
    | stop => exact Bool.noConfusion hthis

/-- C30: for every sequence of frames and flush ticks followed by a final flush
tick, on a writer whose writes succeed, the binary messages written are the
encodings of a list of frames such that, for every speaker and audio type, the
payloads of the frames of that pair, concatenated in the order written, are the
payloads of the frames received for that pair, concatenated in the order of
arrival. -/
theorem writer_preserves_payload (evs : List PumpEvent)
    (hev : ∀ ev ∈ evs, ev.isAudio = true) :
    ∃ fl : List AudioFrame,
      (Client.writePump (evs ++ [PumpEvent.flush]) (PumpState.init none)).conn.written =
        fl.map (fun f => WsMessage.binary f.Encode) ∧
      ∀ u t, payload fl u t = payload (framesOf evs) u t := by
  obtain ⟨fl, k1, k2, k3, k4⟩ := writePump_audio_invariant evs (PumpState.init none) [] []
    rfl rfl rfl (fun _ _ => rfl) hev
  have hrun : Client.writePump (evs ++ [PumpEvent.flush]) (PumpState.init none) =
      (Client.writePump evs (PumpState.init none)).step PumpEvent.flush := by
    rw [writePump_append]
    show (if (Client.writePump evs (PumpState.init none)).returned then _ else _) = _
    rw [k2]; rfl
  obtain ⟨f1, -, -, -⟩ := flush_spec _ k1 k2
  refine ⟨fl ++ pendingFrames (Client.writePump evs (PumpState.init none)).userBuffers.entries,
    ?_, fun u t => ?_⟩
  · rw [hrun, f1, k3, List.map_append]
  · rw [payload_append, payload_pending, k4, List.nil_append]

/-- Frames of two speakers around a flush tick: two messages at the first
flush, one at the final flush. -/
theorem writer_preserves_payload_witness :
    (∀ ev ∈ audioEvents, ev.isAudio = true) ∧
    (Client.writePump (audioEvents ++ [PumpEvent.flush]) (PumpState.init none)).conn.written.length
      = 3 ∧
    ∃ fl : List AudioFrame,
      (Client.writePump (audioEvents ++ [PumpEvent.flush]) (PumpState.init none)).conn.written =
        fl.map (fun f => WsMessage.binary f.Encode) ∧
      ∀ u t, payload fl u t = payload (framesOf audioEvents) u t :=
  ⟨by decide, by decide, writer_preserves_payload audioEvents (by decide)⟩

/-! ### The audio-format message -/

theorem process_eq (cfg : Config) (frames : List AudioFrame) (room : Nat → Bool) :
    Client.Process cfg frames room =
      SendItem.text (formatMessage cfg) :: Client.forward frames room := rfl

theorem forward_frames (frames : List AudioFrame) :
    ∀ (room : Nat → Bool), ∀ item ∈ Client.forward frames room, ∃ f, item = SendItem.frame f := by
  induction frames with
  | nil => intro room item h; simp [Client.forward] at h
  | cons f rest ih =>
    intro room item h
    unfold Client.forward at h
    rcases List.mem_append.mp h with h | h
    · split_ifs at h
      · exact ⟨f, List.mem_singleton.mp h⟩
      · simp at h
    · exact ih _ item h

/-- The inner loop of the flush writes binary messages only. -/
theorem flushTypes_extends (userID : Nat) (entries : List (Sigma (fun _ : Nat => Bytes))) :
    ∀ st : PumpState, ∃ extra,
      (flushTypes userID entries st).conn.written = st.conn.written ++ extra ∧
      ∀ m ∈ extra, ∃ data, m = WsMessage.binary data := by
  induction entries with
  | nil => intro st; exact ⟨[], by simp [flushTypes], by simp⟩
  | cons e rest ih =>
    obtain ⟨t0, buf⟩ := e
    intro st
    unfold flushTypes
    by_cases hb : buf.length = 0
    · simp only [hb, if_true]
      exact ih st
    · simp only [hb, if_false]
      unfold Conn.WriteMessage
      by_cases hf : st.conn.failAt = some st.conn.written.length
      · simp only [hf, if_true]
        exact ⟨[], by simp, by simp⟩
      · simp only [hf, if_false]
        obtain ⟨extra, h1, h2⟩ := ih
          { st with conn := { st.conn with written := st.conn.written ++
                                [WsMessage.binary (AudioFrame.mk t0 userID buf).Encode] }
                    userBuffers := st.userBuffers.set userID
                        ((st.userBuffers.index userID).set t0 []) }
        refine ⟨WsMessage.binary (AudioFrame.mk t0 userID buf).Encode :: extra, ?_, ?_⟩
        · rw [h1]; simp
        · intro m hm
          rcases List.mem_cons.mp hm with rfl | hm
          · exact ⟨_, rfl⟩
          · exact h2 m hm

/-- The flush writes binary messages only. -/
theorem flushUsers_extends (entries : List (Sigma (fun _ : Nat => GoMap Nat Bytes))) :
    ∀ st : PumpState, ∃ extra,
      (flushUsers entries st).conn.written = st.conn.written ++ extra ∧
      ∀ m ∈ extra, ∃ data, m = WsMessage.binary data := by
  induction entries with
  | nil => intro st; exact ⟨[], by simp [flushUsers], by simp⟩
  | cons e rest ih =>
    obtain ⟨u0, typeMap⟩ := e
    intro st
    obtain ⟨e1, h1, h2⟩ := flushTypes_extends u0 typeMap.entries st
    unfold flushUsers
    by_cases hr : (flushTypes u0 typeMap.entries st).returned = true
    · simp only [hr, if_true]
      exact ⟨e1, h1, h2⟩
    · rw [if_neg hr]
      obtain ⟨e2, k1, k2⟩ := ih (flushTypes u0 typeMap.entries st)
      refine ⟨e1 ++ e2, by rw [k1, h1, List.append_assoc], fun m hm => ?_⟩
      rcases List.mem_append.mp hm with hm | hm
      · exact h2 m hm
      · exact k2 m hm

/-- One turn of the loop appends to the messages written, and appends a text
message only when it receives that message. -/
theorem step_extends (st : PumpState) (ev : PumpEvent) :
    ∃ extra, (st.step ev).conn.written = st.conn.written ++ extra ∧
      ∀ msg, WsMessage.text msg ∈ extra → ev = PumpEvent.recv (SendItem.text msg) := by
  cases ev with
  | recv item =>
    cases item with
    | text msg =>
      unfold PumpState.step Conn.WriteMessage
      by_cases hf : st.conn.failAt = some st.conn.written.length
      · simp only [hf, if_true]
        exact ⟨[], by simp, by simp⟩
      · simp only [hf, if_false]
        refine ⟨[WsMessage.text msg], rfl, fun msg' h => ?_⟩
        have := List.mem_singleton.mp h
        injection this with this
        rw [this]
    | frame f => exact ⟨[], by simp [PumpState.step], by simp⟩
  | closed =>
    unfold PumpState.step Conn.WriteMessage
    by_cases hf : st.conn.failAt = some st.conn.written.length
    · simp only [hf, if_true]
      exact ⟨[], by simp, by simp⟩
    · simp only [hf, if_false]
      exact ⟨[WsMessage.close], rfl, by simp⟩
  | flush =>
    obtain ⟨extra, h1, h2⟩ := flushUsers_extends st.userBuffers.entries st
    refine ⟨extra, h1, fun msg h => ?_⟩
    obtain ⟨data, hd⟩ := h2 _ h
    exact WsMessage.noConfusion hd
  | ping =>
    unfold PumpState.step Conn.WriteMessage
    by_cases hf : st.conn.failAt = some st.conn.written.length
    · simp only [hf, if_true]
      exact ⟨[], by simp, by simp⟩
    · simp only [hf, if_false]
      exact ⟨[WsMessage.ping], rfl, by simp⟩
  | stop => exact ⟨[], by simp [PumpState.step], by simp⟩

/-- The writer appends to the messages written, and the text messages it
appends are messages it received. -/
theorem writePump_extends (evs : List PumpEvent) :
    ∀ st : PumpState, ∃ extra,
      (Client.writePump evs st).conn.written = st.conn.written ++ extra ∧
      ∀ msg, WsMessage.text msg ∈ extra → SendItem.text msg ∈ itemsOf evs := by
  induction evs with
  | nil => intro st; exact ⟨[], by simp [Client.writePump], by simp⟩
  | cons ev rest ih =>
    intro st
    by_cases hr : st.returned = true
    · rw [writePump_returned _ _ hr]
      exact ⟨[], by simp, by simp⟩
    · have hstep : Client.writePump (ev :: rest) st = Client.writePump rest (st.step ev) := by
        show (if st.returned then _ else _) = _
        rw [if_neg hr]
      rw [hstep]
      obtain ⟨e1, h1, h2⟩ := step_extends st ev
      obtain ⟨e2, k1, k2⟩ := ih (st.step ev)
      refine ⟨e1 ++ e2, by rw [k1, h1, List.append_assoc], fun msg hm => ?_⟩
      rcases List.mem_append.mp hm with hm | hm
      · rw [h2 msg hm]
        exact List.mem_cons_self _ _
      · have := k2 msg hm
        cases ev with
        | recv item => exact List.mem_cons_of_mem _ this
        | closed => exact this
        | flush => exact this
        | ping => exact this
        | stop => exact this

theorem dataMessages_append (a b : List WsMessage) :
    dataMessages (a ++ b) = dataMessages a ++ dataMessages b := List.filter_append _ _

/-- The data messages of a list without text messages are binary messages. -/
theorem dataMessages_binary (extra : List WsMessage)
    (h : ∀ msg, WsMessage.text msg ∉ extra) :
    ∀ m ∈ dataMessages extra, ∃ data, m = WsMessage.binary data := by
  intro m hm
  obtain ⟨hmem, hdata⟩ := List.mem_filter.mp hm
  cases m with
  | text msg => exact absurd hmem (h msg)
  | binary data => exact ⟨data, rfl⟩
  | ping => simp at hdata
  | close => simp at hdata

/-- Until the writer receives the first value sent by `Process`, it writes no
data message; the first data message it writes is the audio-format message, and
every later one is a binary message. -/
theorem writePump_format_first (cfg : Config) (evs : List PumpEvent) :
    ∀ (st : PumpState) (tail : List SendItem), st.userBuffers = ∅ →
      itemsOf evs <+: SendItem.text (formatMessage cfg) :: tail →
      (∀ item ∈ tail, ∃ f, item = SendItem.frame f) →
      ∃ extra, (Client.writePump evs st).conn.written = st.conn.written ++ extra ∧
        (dataMessages extra = [] ∨
          ∃ rest, dataMessages extra = WsMessage.text (formatMessage cfg) :: rest ∧
            ∀ m ∈ rest, ∃ data, m = WsMessage.binary data) := by
  induction evs with
  | nil => intro st tail _ _ _; exact ⟨[], by simp [Client.writePump], Or.inl rfl⟩
  | cons ev rest ih =>
    intro st tail hub hitems htail
    by_cases hr : st.returned = true
    · rw [writePump_returned _ _ hr]
      exact ⟨[], by simp, Or.inl rfl⟩
    · have hstep : Client.writePump (ev :: rest) st = Client.writePump rest (st.step ev) := by
        show (if st.returned then _ else _) = _
        rw [if_neg hr]
      rw [hstep]
      cases ev with
      | recv item =>
        have hitems' : item :: itemsOf rest <+: SendItem.text (formatMessage cfg) :: tail :=
          hitems
        obtain ⟨hitem, hrest⟩ := List.cons_prefix_cons.mp hitems'
        subst hitem
        obtain ⟨e2, k1, k2⟩ := writePump_extends rest
          (st.step (PumpEvent.recv (SendItem.text (formatMessage cfg))))
        have hnotext : ∀ msg, WsMessage.text msg ∉ e2 := by
          intro msg hm
          obtain ⟨f, hf⟩ := htail _ (hrest.subset (k2 msg hm))
          exact SendItem.noConfusion hf
        obtain ⟨e1, h1, -⟩ :=
          step_extends st (PumpEvent.recv (SendItem.text (formatMessage cfg)))
        have he1 : e1 = [] ∨ e1 = [WsMessage.text (formatMessage cfg)] := by
          have hw : (st.step (PumpEvent.recv (SendItem.text (formatMessage cfg)))).conn.written
              = st.conn.written ∨
              (st.step (PumpEvent.recv (SendItem.text (formatMessage cfg)))).conn.written
              = st.conn.written ++ [WsMessage.text (formatMessage cfg)] := by
            unfold PumpState.step Conn.WriteMessage
            by_cases hf : st.conn.failAt = some st.conn.written.length
            · simp [hf]
            · simp [hf]
          rcases hw with hw | hw
          · left
            rw [hw] at h1
            exact (List.append_cancel_left (by rw [List.append_nil]; exact h1)).symm
          · right
            rw [hw] at h1
            exact (List.append_cancel_left h1).symm
        refine ⟨e1 ++ e2, by rw [k1, h1, List.append_assoc], ?_⟩
        rcases he1 with he1 | he1
        · subst he1
          have hret : (st.step (PumpEvent.recv (SendItem.text (formatMessage cfg)))).conn.written
              = st.conn.written := by rw [h1, List.append_nil]
          rw [List.nil_append]
          by_cases hd : dataMessages e2 = []
          · exact Or.inl hd
          · -- the write failed: the writer has returned, nothing more is written
            have hreturned :
                (st.step (PumpEvent.recv (SendItem.text (formatMessage cfg)))).returned
                  = true := by
              revert hret
              unfold PumpState.step Conn.WriteMessage
              by_cases hf : st.conn.failAt = some st.conn.written.length
              · simp [hf]
              · simp [hf]
            rw [writePump_returned _ _ hreturned] at k1
            have : e2 = [] := by
              have := List.append_cancel_left (by rw [List.append_nil]; exact k1.symm :
                (st.step (PumpEvent.recv (SendItem.text (formatMessage cfg)))).conn.written ++ e2
                  = (st.step (PumpEvent.recv (SendItem.text (formatMessage cfg)))).conn.written
                    ++ [])
              exact this
            subst this
            exact Or.inl rfl
        · subst he1
          right
          refine ⟨dataMessages e2, ?_, dataMessages_binary e2 hnotext⟩
          rw [dataMessages_append]
          rfl
      | closed =>
        have hreturned : (st.step PumpEvent.closed).returned = true := rfl
        rw [writePump_returned _ _ hreturned]
        obtain ⟨e1, h1, h2⟩ := step_extends st PumpEvent.closed
        refine ⟨e1, h1, Or.inl ?_⟩
        have hw : (st.step PumpEvent.closed).conn.written = st.conn.written ∨
            (st.step PumpEvent.closed).conn.written = st.conn.written ++ [WsMessage.close] := by
          unfold PumpState.step Conn.WriteMessage
          by_cases hf : st.conn.failAt = some st.conn.written.length
          · simp [hf]
          · simp [hf]
        rcases hw with hw | hw
        · rw [hw] at h1
          have : e1 = [] := (List.append_cancel_left (by rw [List.append_nil]; exact h1)).symm
          rw [this]; rfl
        · rw [hw] at h1
          have : e1 = [WsMessage.close] := (List.append_cancel_left h1).symm
          rw [this]; rfl
      | flush =>
        have hsame : st.step PumpEvent.flush = st := by
          show flushUsers st.userBuffers.entries st = st
          rw [hub]; rfl
        rw [hsame]
        exact ih st tail hub hitems htail
      | ping =>
        obtain ⟨e2, k1, k2⟩ := ih (st.step PumpEvent.ping) tail (by
          show (st.step PumpEvent.ping).userBuffers = ∅
          simp only [PumpState.step]
          split <;> exact hub) hitems htail
        have hw : (st.step PumpEvent.ping).conn.written = st.conn.written ∨
            (st.step PumpEvent.ping).conn.written = st.conn.written ++ [WsMessage.ping] := by
          unfold PumpState.step Conn.WriteMessage
          by_cases hf : st.conn.failAt = some st.conn.written.length
          · simp [hf]
          · simp [hf]
        rcases hw with hw | hw
        · exact ⟨e2, by rw [k1, hw], k2⟩
        · refine ⟨WsMessage.ping :: e2, by rw [k1, hw]; simp, ?_⟩
          have : dataMessages (WsMessage.ping :: e2) = dataMessages e2 := rfl
          rw [this]
          exact k2
      | stop =>
        have hreturned : (st.step PumpEvent.stop).returned = true := rfl
        rw [writePump_returned _ _ hreturned]
        exact ⟨[], by simp [PumpState.step], Or.inl rfl⟩

theorem itemsOf_append (a b : List PumpEvent) : itemsOf (a ++ b) = itemsOf a ++ itemsOf b := by
  induction a with
  | nil => rfl
  | cons ev rest ih =>
    cases ev with
    | recv item => simp [itemsOf, ih]
    | closed => simpa [itemsOf] using ih
    | flush => simpa [itemsOf] using ih
    | ping => simpa [itemsOf] using ih
    | stop => simpa [itemsOf] using ih

theorem itemsOf_flushes (pre : List PumpEvent) (h : ∀ ev ∈ pre, ev = PumpEvent.flush) :
    itemsOf pre = [] := by
  induction pre with
  | nil => rfl
  | cons ev rest ih =>
    have := h ev (List.mem_cons_self _ _)
    subst this
    exact ih (fun e he => h e (List.mem_cons_of_mem _ he))

/-- Flush ticks on a writer without buffers do nothing. -/
theorem writePump_flushes (pre : List PumpEvent) (h : ∀ ev ∈ pre, ev = PumpEvent.flush)
    (st : PumpState) (hub : st.userBuffers = ∅) : Client.writePump pre st = st := by
  induction pre with
  | nil => rfl
  | cons ev rest ih =>
    have := h ev (List.mem_cons_self _ _)
    subst this
    by_cases hr : st.returned = true
    · exact writePump_returned _ _ hr
    · have hsame : st.step PumpEvent.flush = st := by
        show flushUsers st.userBuffers.entries st = st
        rw [hub]; rfl
      show (if st.returned then _ else _) = _
      rw [if_neg hr, hsame]
      exact ih (fun e he => h e (List.mem_cons_of_mem _ he))

/-- On a running writer whose writes succeed and which is neither stopped nor
finds `sendChan` closed, the audio-format message is written once it is
received. -/
theorem writePump_format_written (cfg : Config) (evs : List PumpEvent) :
    ∀ (st : PumpState) (tail : List SendItem), st.userBuffers = ∅ → st.conn.failAt = none →
      st.returned = false → (∀ ev ∈ evs, ev ≠ PumpEvent.closed ∧ ev ≠ PumpEvent.stop) →
      itemsOf evs <+: SendItem.text (formatMessage cfg) :: tail → itemsOf evs ≠ [] →
      WsMessage.text (formatMessage cfg) ∈ (Client.writePump evs st).conn.written := by
  induction evs with
  | nil => intro st tail _ _ _ _ _ hne; exact absurd rfl hne
  | cons ev rest ih =>
    intro st tail hub hok hr hev hitems hne
    have hrest : ∀ ev ∈ rest, ev ≠ PumpEvent.closed ∧ ev ≠ PumpEvent.stop :=
      fun e he => hev e (List.mem_cons_of_mem _ he)
    have hstep : Client.writePump (ev :: rest) st = Client.writePump rest (st.step ev) := by
      show (if st.returned then _ else _) = _
      rw [hr]; rfl
    rw [hstep]
    cases ev with
    | recv item =>
      have hitems' : item :: itemsOf rest <+: SendItem.text (formatMessage cfg) :: tail :=
        hitems
      obtain ⟨hitem, -⟩ := List.cons_prefix_cons.mp hitems'
      subst hitem
      obtain ⟨e2, k1, -⟩ := writePump_extends rest
        (st.step (PumpEvent.recv (SendItem.text (formatMessage cfg))))
      rw [k1]
      refine List.mem_append_left _ ?_
      show WsMessage.text (formatMessage cfg) ∈
        (match st.conn.WriteMessage (WsMessage.text (formatMessage cfg)) with
          | (conn, false) => ({ st with conn := conn, returned := true } : PumpState)
          | (conn, true) => { st with conn := conn }).conn.written
      rw [write_ok st.conn hok]
      exact List.mem_append_right _ (List.mem_singleton.mpr rfl)
    | closed => exact absurd rfl (hev _ (List.mem_cons_self _ _)).1
    | flush =>
      have hsame : st.step PumpEvent.flush = st := by
        show flushUsers st.userBuffers.entries st = st
        rw [hub]; rfl
      rw [hsame]
      exact ih st tail hub hok hr hrest hitems hne
    | ping =>
      have hping : st.step PumpEvent.ping =
          { st with conn := { st.conn with written := st.conn.written ++ [WsMessage.ping] } } := by
        show (match st.conn.WriteMessage WsMessage.ping with
          | (conn, false) => ({ st with conn := conn, returned := true } : PumpState)
          | (conn, true) => { st with conn := conn }) = _
        rw [write_ok st.conn hok]
      rw [hping]
      exact ih _ tail hub hok hr hrest hitems hne
    | stop => exact absurd rfl (hev _ (List.mem_cons_self _ _)).2

/-- C22: in every session, whatever the order in which the writer takes the
values sent by `Process` (the audio-format message, then frames) and its ticks,
and whichever write fails: the text and binary messages written are none, or
the audio-format message followed by binary messages only, so that one format
message at most is written and no binary message precedes it. When no write
fails, the writer is not stopped and it has received a value, the format message
is written. When only flush ticks are taken before the first value and the
first write succeeds, the format message is the first message written, pings
included. The format message holds the type "audio_format", the configured
sample rate and channel count, and the sample format "s16le". -/
theorem format_message_first (cfg : Config) (frames : List AudioFrame) (room : Nat → Bool)
    (evs : List PumpEvent) (failAt : Option Nat)
    (hitems : itemsOf evs <+: Client.Process cfg frames room) :
    (dataMessages (Client.writePump evs (PumpState.init failAt)).conn.written = [] ∨
      ∃ rest, dataMessages (Client.writePump evs (PumpState.init failAt)).conn.written =
          WsMessage.text (formatMessage cfg) :: rest ∧
        ∀ m ∈ rest, ∃ data, m = WsMessage.binary data) ∧
    (failAt = none → (∀ ev ∈ evs, ev ≠ PumpEvent.closed ∧ ev ≠ PumpEvent.stop) →
      itemsOf evs ≠ [] →
      ∃ rest, dataMessages (Client.writePump evs (PumpState.init failAt)).conn.written =
          WsMessage.text (formatMessage cfg) :: rest ∧
        ∀ m ∈ rest, ∃ data, m = WsMessage.binary data) ∧
    (∀ pre post item, evs = pre ++ PumpEvent.recv item :: post →
      (∀ ev ∈ pre, ev = PumpEvent.flush) → failAt ≠ some 0 →
      ∃ rest, (Client.writePump evs (PumpState.init failAt)).conn.written =
        WsMessage.text (formatMessage cfg) :: rest) ∧
    CreateAudioFormatMessage cfg.AudioSampleRate cfg.AudioChannels =
      Except.ok (formatMessage cfg) ∧
    formatMessage cfg =
      [("type", JsonValue.str "audio_format"), ("sample_rate", JsonValue.num cfg.AudioSampleRate),
        ("channels", JsonValue.num cfg.AudioChannels),
        ("sample_format", JsonValue.str "s16le")] := by
  rw [process_eq] at hitems
  have htail := forward_frames frames room
  obtain ⟨extra, h1, h2⟩ := writePump_format_first cfg evs (PumpState.init failAt) _ rfl
    hitems htail
  have hW : (Client.writePump evs (PumpState.init failAt)).conn.written = extra := by
    rw [h1]; rfl
  refine ⟨by rw [hW]; exact h2, fun hok hev hne => ?_, fun pre post item he hpre hfail => ?_,
    rfl, rfl⟩
  · subst hok
    have hmem := writePump_format_written cfg evs (PumpState.init none) _ rfl rfl rfl hev
      hitems hne
    rw [hW] at hmem ⊢
    rcases h2 with h2 | h2
    · have : WsMessage.text (formatMessage cfg) ∈ dataMessages extra :=
        List.mem_filter.mpr ⟨hmem, rfl⟩
      rw [h2] at this
      exact absurd this (List.not_mem_nil _)
    · exact h2
  · subst he
    have hitem : item = SendItem.text (formatMessage cfg) := by
      rw [itemsOf_append, itemsOf_flushes pre hpre, List.nil_append] at hitems
      exact (List.cons_prefix_cons.mp hitems).1
    subst hitem
    rw [writePump_append, writePump_flushes pre hpre _ rfl]
    have hstep : Client.writePump (PumpEvent.recv (SendItem.text (formatMessage cfg)) :: post)
        (PumpState.init failAt) =
        Client.writePump post ((PumpState.init failAt).step
          (PumpEvent.recv (SendItem.text (formatMessage cfg)))) := rfl
    rw [hstep]
    obtain ⟨e2, k1, -⟩ := writePump_extends post
      ((PumpState.init failAt).step (PumpEvent.recv (SendItem.text (formatMessage cfg))))
    have hfirst : ((PumpState.init failAt).step
        (PumpEvent.recv (SendItem.text (formatMessage cfg)))).conn.written =
        [WsMessage.text (formatMessage cfg)] := by
      cases failAt with
      | none => rfl
      | some n =>
        have hn : n ≠ 0 := fun h => hfail (by rw [h])
        simp [PumpState.step, PumpState.init, Conn.WriteMessage, hn]
    rw [k1, hfirst]
    exact ⟨e2, rfl⟩

/-- A session on the default configuration: a ping tick and a flush tick come
first, then the format message, three frames and two flush ticks. -/
theorem format_message_first_witness :
    itemsOf sessionEvents <+: Client.Process defaultConfig threePackets (fun _ => true) ∧
    dataMessages (Client.writePump sessionEvents (PumpState.init none)).conn.written =
      [WsMessage.text (formatMessage defaultConfig),
       WsMessage.binary (AudioFrame.mk AudioTypeOneWay 7 [1, 2, 3]).Encode,
       WsMessage.binary (AudioFrame.mk AudioTypeOneWay 7 [4, 5]).Encode] ∧
    (dataMessages (Client.writePump sessionEvents (PumpState.init none)).conn.written = [] ∨
      ∃ rest, dataMessages (Client.writePump sessionEvents (PumpState.init none)).conn.written =
          WsMessage.text (formatMessage defaultConfig) :: rest ∧
        ∀ m ∈ rest, ∃ data, m = WsMessage.binary data) :=
  ⟨by decide, by decide,
    (format_message_first defaultConfig threePackets (fun _ => true) sessionEvents none
      (by decide)).1⟩

/-! ### The parameter router -/

theorem segmentsMatch_length (pps : List String) :
    ∀ ips : List String, segmentsMatch pps ips = true → pps.length = ips.length := by
  induction pps with
  | nil =>
    intro ips h
    cases ips with
    | nil => rfl
    | cons ip ips => exact Bool.noConfusion h
  | cons pp pps ih =>
    intro ips h
    cases ips with
    | nil => exact Bool.noConfusion h
    | cons ip ips =>
      simp only [segmentsMatch, Bool.and_eq_true] at h
      simp [ih ips h.2]

/-- What `segmentsMatch` says: as many segments, and every segment of the route
that is not a parameter equals the segment of the path at its position. -/
theorem segmentsMatch_iff (pps : List String) :
    ∀ ips : List String, segmentsMatch pps ips = true ↔
      pps.length = ips.length ∧
      ∀ i pp ip, pps.get? i = some pp → ips.get? i = some ip → isParam pp = false → pp = ip := by
  induction pps with
  | nil =>
    intro ips
    cases ips with
    | nil => simp [segmentsMatch]
    | cons ip ips => simp [segmentsMatch]
  | cons pp0 pps ih =>
    intro ips
    cases ips with
    | nil => simp [segmentsMatch]
    | cons ip0 ips =>
      simp only [segmentsMatch, Bool.and_eq_true, Bool.or_eq_true, beq_iff_eq, ih ips,
        List.length_cons, Nat.add_right_cancel_iff]
      constructor
      · rintro ⟨h0, hlen, hrest⟩
        refine ⟨hlen, fun i pp ip hp hi hnp => ?_⟩
        cases i with
        | zero =>
          simp only [List.get?_cons_zero, Option.some.injEq] at hp hi
          subst hp; subst hi
          rcases h0 with h0 | h0
          · rw [h0] at hnp; exact Bool.noConfusion hnp
          · exact h0
        | succ i =>
          simp only [List.get?_cons_succ] at hp hi
          exact hrest i pp ip hp hi hnp
      · rintro ⟨hlen, hall⟩
        refine ⟨?_, hlen, fun i pp ip hp hi hnp => hall (i + 1) pp ip (by simpa using hp)
          (by simpa using hi) hnp⟩
        cases hpar : isParam pp0 with
        | true => exact Or.inl rfl
        | false => exact Or.inr (hall 0 pp0 ip0 rfl rfl hpar)

/-- On lists of the same length the inner loop ends with `matched` true exactly
when the segments match. -/
theorem matchParts_isSome (pps : List String) :
    ∀ (ips : List String) (params0 : Params), pps.length = ips.length →
      (matchParts pps ips params0).isSome = segmentsMatch pps ips := by
  induction pps with
  | nil =>
    intro ips params0 h
    cases ips with
    | nil => rfl
    | cons ip ips => simp at h
  | cons pp pps ih =>
    intro ips params0 h
    cases ips with
    | nil => simp at h
    | cons ip ips =>
      have hlen : pps.length = ips.length := by simpa using h
      unfold matchParts segmentsMatch
      cases hpar : isParam pp with
      | true => simp [ih ips _ hlen]
      | false =>
        by_cases heq : pp = ip
        · simp [heq, ih ips _ hlen]
        · simp [heq]

/-- The parameters bound by the inner loop: a parameter segment binds its name
to the segment of the path at its position (the last such segment wins when a
name occurs twice), and no other name is bound. -/
theorem matchParts_binds (pps : List String) :
    ∀ (ips : List String) (params0 params : Params), pps.length = ips.length →
      matchParts pps ips params0 = some params →
      (∀ i pp ip, pps.get? i = some pp → ips.get? i = some ip → isParam pp = true →
        (∀ j pp', i < j → pps.get? j = some pp' → isParam pp' = true →
          paramName pp' ≠ paramName pp) →
        params.get? (paramName pp) = some ip) ∧
      (∀ name, (∀ pp ∈ pps, isParam pp = true → paramName pp ≠ name) →
        params.get? name = params0.get? name) := by
  induction pps with
  | nil =>
    intro ips params0 params h hm
    cases ips with
    | nil =>
      simp only [matchParts, Option.some.injEq] at hm
      subst hm
      exact ⟨fun i pp ip hp => by simp at hp, fun _ _ => rfl⟩
    | cons ip ips => simp at h
  | cons pp0 pps ih =>
    intro ips params0 params h hm
    cases ips with
    | nil => simp at h
    | cons ip0 ips =>
      have hlen : pps.length = ips.length := by simpa using h
      unfold matchParts at hm
      cases hpar : isParam pp0 with
      | true =>
        simp only [hpar, if_true] at hm
        obtain ⟨hb, hf⟩ := ih ips _ params hlen hm
        refine ⟨fun i pp ip hp hi hisp hlast => ?_, fun name hname => ?_⟩
        · cases i with
          | zero =>
            simp only [List.get?_cons_zero, Option.some.injEq] at hp hi
            subst hp; subst hi
            rw [hf (paramName pp0) (fun pp' hmem hisp' => by
              obtain ⟨j, hj⟩ := List.get?_of_mem hmem
              exact hlast (j + 1) pp' (Nat.succ_pos j) (by simpa using hj) hisp')]
            exact AList.lookup_insert _
          | succ i =>
            simp only [List.get?_cons_succ] at hp hi
            exact hb i pp ip hp hi hisp (fun j pp' hij hj hisp' =>
              hlast (j + 1) pp' (Nat.succ_lt_succ hij) (by simpa using hj) hisp')
        · rw [hf name (fun pp hmem => hname pp (List.mem_cons_of_mem _ hmem))]
          exact AList.lookup_insert_ne
            (fun h => hname pp0 (List.mem_cons_self _ _) hpar h.symm)
      | false =>
        simp only [hpar, Bool.false_eq_true, if_false] at hm
        by_cases heq : pp0 = ip0
        · simp only [heq, bne_self_eq_false, Bool.false_eq_true, if_false] at hm
          obtain ⟨hb, hf⟩ := ih ips _ params hlen hm
          refine ⟨fun i pp ip hp hi hisp hlast => ?_, fun name hname => ?_⟩
          · cases i with
            | zero =>
              simp only [List.get?_cons_zero, Option.some.injEq] at hp
              subst hp
              rw [hpar] at hisp
              exact Bool.noConfusion hisp
            | succ i =>
              simp only [List.get?_cons_succ] at hp hi
              exact hb i pp ip hp hi hisp (fun j pp' hij hj hisp' =>
                hlast (j + 1) pp' (Nat.succ_lt_succ hij) (by simpa using hj) hisp')
          · exact hf name (fun pp hmem => hname pp (List.mem_cons_of_mem _ hmem))
        · have : (pp0 != ip0) = true := by simpa using heq
          simp only [this, if_true] at hm
          exact Option.noConfusion hm

/-- The loop over the routes answers 404 when no route matches. -/
theorem serveRoutes_none {η : Type} (routes : List (route η)) (inParts : List String)
    (h : ∀ rt ∈ routes, segmentsMatch rt.parts inParts = false) :
    serveRoutes routes inParts = Served.notFound := by
  induction routes with
  | nil => rfl
  | cons rt rest ih =>
    have hrt := h rt (List.mem_cons_self _ _)
    have hrest := ih (fun r hr => h r (List.mem_cons_of_mem _ hr))
    unfold serveRoutes
    by_cases hlen : rt.parts.length = inParts.length
    · have hm := matchParts_isSome rt.parts inParts ∅ hlen
      rw [hrt] at hm
      have hnone : matchParts rt.parts inParts ∅ = none := by
        cases hmp : matchParts rt.parts inParts ∅ with
        | none => rfl
        | some p => rw [hmp] at hm; exact Bool.noConfusion hm
      simp [hlen, hnone, hrest]
    · simp [hlen, hrest]

/-- The loop over the routes calls the handler of the first route that
matches. -/
theorem serveRoutes_first {η : Type} (pre : List (route η)) (rt : route η)
    (post : List (route η)) (inParts : List String)
    (hpre : ∀ r ∈ pre, segmentsMatch r.parts inParts = false)
    (hrt : segmentsMatch rt.parts inParts = true) :
    ∃ params, serveRoutes (pre ++ rt :: post) inParts = Served.handled rt.handler params ∧
      matchParts rt.parts inParts ∅ = some params := by
  induction pre with
  | nil =>
    have hlen := segmentsMatch_length _ _ hrt
    have hm := matchParts_isSome rt.parts inParts ∅ hlen
    rw [hrt] at hm
    cases hmp : matchParts rt.parts inParts ∅ with
    | none => rw [hmp] at hm; exact Bool.noConfusion hm
    | some params =>
      refine ⟨params, ?_, rfl⟩
      simp [serveRoutes, hlen, hmp]
  | cons r rest ih =>
    have hr := hpre r (List.mem_cons_self _ _)
    obtain ⟨params, h1, h2⟩ := ih (fun r' hr' => hpre r' (List.mem_cons_of_mem _ hr'))
    refine ⟨params, ?_, h2⟩
    rw [List.cons_append]
    unfold serveRoutes
    by_cases hlen : r.parts.length = inParts.length
    · have hm := matchParts_isSome r.parts inParts ∅ hlen
      rw [hr] at hm
      have hnone : matchParts r.parts inParts ∅ = none := by
        cases hmp : matchParts r.parts inParts ∅ with
        | none => rfl
        | some p => rw [hmp] at hm; exact Bool.noConfusion hm
      simp [hlen, hnone, h1]
    · simp [hlen, h1]

theorem splitChars_of_not_mem (sep : Char) (cs : List Char) (h : sep ∉ cs) :
    splitChars sep cs = [cs] := by
  induction cs with
  | nil => rfl
  | cons c cs ih =>
    have hc : c ≠ sep := fun e => h (by rw [e]; exact List.mem_cons_self _ _)
    have := ih (fun hm => h (List.mem_cons_of_mem _ hm))
    simp [splitChars, hc, this]

/-- A list that ends in a character other than `sep` does not have `sep` as a
suffix. -/
theorem not_isSuffixOf (sep : Char) (l xs : List Char) (hne : xs ≠ []) (h : sep ∉ xs) :
    [sep].isSuffixOf (l ++ xs) = false := by
  by_contra hs
  have hs' : [sep].isSuffixOf (l ++ xs) = true := by simpa using hs
  obtain ⟨t, ht⟩ := List.isSuffixOf_iff_suffix.mp hs'
  have h1 : (t ++ [sep]).getLast? = some sep := by simp
  rw [ht, List.getLast?_append_of_ne_nil _ hne] at h1
  exact h (List.mem_of_getLast?_eq_some h1)

/-- For a path that starts with a slash and is not the slash alone,
`splitPath` is `strings.Split` on the slash. -/
theorem splitPath_of_slash (p : String) (h : HasPrefix p "/" = true) (hne : p ≠ "/") :
    splitPath p = Split p '/' := by
  have hne0 : p ≠ "" := by
    rintro rfl
    exact Bool.noConfusion h
  simp [splitPath, hne0, hne, h]

/-- The route of the audio stream: for every segment `x` that is not empty the
path `/ws/audio/x` reaches the handler with `meeting_id` bound to `x`. -/
theorem serve_ws_audio {η : Type} (handler : η) (x : String) (hx : x ≠ "")
    (hslash : '/' ∉ x.data) :
    ((NewParamRouter η).Handle "/ws/audio/\x7bmeeting_id\x7d" handler).ServeHTTP
        ("/ws/audio/" ++ x) =
      Served.handled handler ((∅ : Params).set "meeting_id" x) := by
  have hxd : x.data ≠ [] := fun h => hx (String.ext h)
  have hdata : ("/ws/audio/" ++ x).data = "/ws/audio/".data ++ x.data := String.data_append _ _
  have hsuf : HasSuffix ("/ws/audio/" ++ x) "/" = false := by
    unfold HasSuffix
    rw [hdata]
    exact not_isSuffixOf '/' _ _ hxd hslash
  have htrim : TrimSuffix ("/ws/audio/" ++ x) "/" = "/ws/audio/" ++ x := by
    simp [TrimSuffix, hsuf]
  have hpre : HasPrefix ("/ws/audio/" ++ x) "/" = true := by
    unfold HasPrefix
    rw [hdata]
    rfl
  have hne : "/ws/audio/" ++ x ≠ "/" := by
    intro h
    have := congrArg String.length h
    rw [String.length_append] at this
    have h10 : "/ws/audio/".length = 10 := by decide
    have h1 : "/".length = 1 := by decide
    omega
  have hsplit : splitPath ("/ws/audio/" ++ x) = ["", "ws", "audio", x] := by
    rw [splitPath_of_slash _ hpre hne]
    unfold Split
    rw [hdata]
    show List.map String.mk (splitChars '/' ('/' :: 'w' :: 's' :: '/' :: 'a' :: 'u' :: 'd' ::
      'i' :: 'o' :: '/' :: x.data)) = _
    simp [splitChars, splitChars_of_not_mem '/' x.data hslash]
  have hparts : ((NewParamRouter η).Handle "/ws/audio/\x7bmeeting_id\x7d" handler).routes =
      [{ pattern := "/ws/audio/\x7bmeeting_id\x7d"
         parts := ["", "ws", "audio", "\x7bmeeting_id\x7d"], handler := handler }] := by
    have h1 : TrimSuffix "/ws/audio/\x7bmeeting_id\x7d" "/" = "/ws/audio/\x7bmeeting_id\x7d" := by
      decide
    have h2 : splitPath "/ws/audio/\x7bmeeting_id\x7d"
        = ["", "ws", "audio", "\x7bmeeting_id\x7d"] := by decide
    simp [ParamRouter.Handle, NewParamRouter, h1, h2]
  have p0 : isParam "" = false := by decide
  have p1 : isParam "ws" = false := by decide
  have p2 : isParam "audio" = false := by decide
  have p3 : isParam "\x7bmeeting_id\x7d" = true := by decide
  have p4 : paramName "\x7bmeeting_id\x7d" = "meeting_id" := by decide
  unfold ParamRouter.ServeHTTP
  simp only [htrim, hsplit, hparts]
  simp [serveRoutes, matchParts, p0, p1, p2, p3, p4]

/-- The function `strings.TrimSuffix` removes one trailing slash. -/
theorem trimSuffix_slash (s : String) : TrimSuffix (s ++ "/") "/" = s := by
  have hdata : (s ++ "/").data = s.data ++ ['/'] := String.data_append _ _
  have hsuf : HasSuffix (s ++ "/") "/" = true := by
    unfold HasSuffix
    rw [hdata]
    exact List.isSuffixOf_iff_suffix.mpr ⟨s.data, rfl⟩
  unfold TrimSuffix
  rw [if_pos hsuf, hdata]
  have : ("/" : String).data.length = 1 := rfl
  simp [this]

/-- C27: `ServeHTTP` removes one trailing slash from the path and splits it
with `splitPath`, as `Handle` did with the pattern of every route. It calls the
handler of the first route whose segments match those of the path: as many
segments, and every segment that is not a parameter equal to the segment of the
path at its position. The handler then sees, for every parameter segment, its
name bound to the segment of the path at that position (the last position when
a name occurs twice) and the empty string for any other name. When no route
matches, the answer is 404 and no handler is called. For the route
`/ws/audio/{meeting_id}` and every segment `x` that is not empty, the handler
sees `meeting_id` bound to `x` on the path `/ws/audio/x`. -/
theorem router_dispatches_first_match {η : Type} (rtr : ParamRouter η) (urlPath : String) :
    (∀ (pattern : String) (handler : η),
      (rtr.Handle pattern handler).routes = rtr.routes ++
        [{ pattern := TrimSuffix pattern "/", parts := splitPath (TrimSuffix pattern "/"),
           handler := handler }]) ∧
    ((∀ rt ∈ rtr.routes,
        segmentsMatch rt.parts (splitPath (TrimSuffix urlPath "/")) = false) →
      rtr.ServeHTTP urlPath = Served.notFound) ∧
    (∀ (pre : List (route η)) (rt : route η) (post : List (route η)),
      rtr.routes = pre ++ rt :: post →
      (∀ r ∈ pre, segmentsMatch r.parts (splitPath (TrimSuffix urlPath "/")) = false) →
      segmentsMatch rt.parts (splitPath (TrimSuffix urlPath "/")) = true →
      ∃ params, rtr.ServeHTTP urlPath = Served.handled rt.handler params ∧
        (∀ i pp ip, rt.parts.get? i = some pp →
          (splitPath (TrimSuffix urlPath "/")).get? i = some ip → isParam pp = true →
          (∀ j pp', i < j → rt.parts.get? j = some pp' → isParam pp' = true →
            paramName pp' ≠ paramName pp) →
          GetPathParam (some params) (paramName pp) = ip) ∧
        (∀ name, (∀ pp ∈ rt.parts, isParam pp = true → paramName pp ≠ name) →
          GetPathParam (some params) name = "")) ∧
    (∀ pps ips : List String, segmentsMatch pps ips = true ↔
      pps.length = ips.length ∧
      ∀ i pp ip, pps.get? i = some pp → ips.get? i = some ip → isParam pp = false → pp = ip) ∧
    (∀ s : String, TrimSuffix (s ++ "/") "/" = s) ∧
    (∀ s : String, HasSuffix s "/" = false → TrimSuffix s "/" = s) ∧
    (∀ p : String, HasPrefix p "/" = true → p ≠ "/" → splitPath p = Split p '/') ∧
    (∀ (handler : η) (x : String), x ≠ "" → '/' ∉ x.data →
      ∃ params,
        ((NewParamRouter η).Handle "/ws/audio/\x7bmeeting_id\x7d" handler).ServeHTTP
            ("/ws/audio/" ++ x) = Served.handled handler params ∧
        GetPathParam (some params) "meeting_id" = x) ∧
    (∀ handler : η,
      ((NewParamRouter η).Handle "/ws/audio/\x7bmeeting_id\x7d" handler).ServeHTTP
        "/ws/audio/" = Served.notFound) := by
  refine ⟨fun _ _ => rfl, fun h => serveRoutes_none _ _ h, fun pre rt post hroutes hpre hrt => ?_,
    segmentsMatch_iff, trimSuffix_slash, fun s hs => by simp [TrimSuffix, hs],
    splitPath_of_slash, fun handler x hx hslash => ?_, fun handler => rfl⟩
  · obtain ⟨params, h1, h2⟩ := serveRoutes_first pre rt post _ hpre hrt
    obtain ⟨hb, hf⟩ := matchParts_binds rt.parts _ ∅ params (segmentsMatch_length _ _ hrt) h2
    refine ⟨params, ?_, fun i pp ip hp hi hisp hlast => ?_, fun name hname => ?_⟩
    · unfold ParamRouter.ServeHTTP
      rw [hroutes]
      exact h1
    · exact index_of_some params _ ip (hb i pp ip hp hi hisp hlast)
    · have := hf name hname
      exact index_of_none params name this
  · refine ⟨_, serve_ws_audio handler x hx hslash, ?_⟩
    exact index_set_self _ _ _

end Server

/-! # Process manager: the stale release and the relay loop -/

namespace Main

open Audio Zoomsdk

/-! ### The stale release of a port -/

/-- On the default range with no port claimed, a `JoinMeeting("f")` whose
process does not start moves the counter on and leaves everything else as it
was: the port it claimed is deleted again. -/
theorem failedJoin_of_empty (pm : ProcessManager) (hu : pm.usedPorts = ∅)
    (hw : pm.workers.get? "f" = none) (hb : pm.basePort = 9000) (hm : pm.maxPort = 9999) :
    pm.JoinMeeting "f" SpawnOutcome.startFailed 0 =
      some ({ pm with nextPort := (pm.nextPort + 1) % 2 ^ 32 },
        some ManagerError.failedToSpawn) := by
  have hfree : pm.usedPorts.get? (9000 + (pm.nextPort + 1) % 2 ^ 32 % 999) = none := by
    rw [hu]; rfl
  have e : pm.allocatePort =
      ({ pm with nextPort := (pm.nextPort + 1) % 2 ^ 32,
                 usedPorts := pm.usedPorts.set (9000 + (pm.nextPort + 1) % 2 ^ 32 % 999) true },
        9000 + (pm.nextPort + 1) % 2 ^ 32 % 999) := by
    unfold ProcessManager.allocatePort
    rw [hm, hb]
    show ProcessManager.allocatePortLoop (998 + 1) pm = _
    unfold ProcessManager.allocatePortLoop
    simp only [hm, hb, hfree]
  have hne : 9000 + (pm.nextPort + 1) % 2 ^ 32 % 999 ≠ 0 := by omega
  unfold ProcessManager.JoinMeeting
  simp only [hw, e, hne, if_false, ProcessManager.spawnWorker]
  rw [goMap_delete_set _ _ _ hfree]

/-- Any number of such calls moves the counter on and changes nothing else. -/
theorem failedJoins_of_empty (n : Nat) :
    ∀ pm : ProcessManager, pm.usedPorts = ∅ → pm.workers.get? "f" = none →
      pm.basePort = 9000 → pm.maxPort = 9999 → pm.nextPort + n < 2 ^ 32 →
      ProcessManager.failedJoins n pm = { pm with nextPort := pm.nextPort + n } := by
  induction n with
  | zero => intro pm _ _ _ _ _; rfl
  | succ n ih =>
    intro pm hu hw hb hm hn
    have hmod : (pm.nextPort + 1) % 2 ^ 32 = pm.nextPort + 1 := Nat.mod_eq_of_lt (by omega)
    unfold ProcessManager.failedJoins
    rw [failedJoin_of_empty pm hu hw hb hm, hmod]
    simp only []
    rw [ih { pm with nextPort := pm.nextPort + 1 } hu hw hb hm (by show pm.nextPort + 1 + n < _; omega)]
    show ({ pm with nextPort := pm.nextPort + 1 + n } : ProcessManager) = _
    rw [show pm.nextPort + 1 + n = pm.nextPort + (n + 1) by omega]

/-- C11, at the failing input: on the default manager, `JoinMeeting("x")` gives
port 9001 to worker 0 and `LeaveMeeting("x")` deletes the port and stops the
worker. After 998 joins whose process does not start, `JoinMeeting("y")` gives
port 9001 to worker 1. Then the process of worker 0 exits and its monitor
deletes port 9001 a second time, although worker 1 holds it. After 998 more
joins whose process does not start, `JoinMeeting("z")` finds port 9001 unclaimed
and gives it to worker 2: the workers of "y" and "z" are both registered and
running, and both have port 9001. -/
theorem stale_release_double_assigns :
    (staleLeft.heap 0).MeetingID = "x" ∧ (staleLeft.heap 0).Port = 9001 ∧
    (staleLeft.heap 0).stopped = true ∧ (staleLeft.heap 0).stopChan = false ∧
    staleLeft.workers.get? "x" = none ∧ staleLeft.usedPorts.get? 9001 = none ∧
    staleRejoined.workers.get? "y" = some 1 ∧ (staleRejoined.heap 1).Port = 9001 ∧
    (staleRejoined.heap 1).stopped = false ∧ staleRejoined.usedPorts.get? 9001 = some true ∧
    staleReleased.workers.get? "y" = some 1 ∧ (staleReleased.heap 1).stopped = false ∧
    staleReleased.usedPorts.get? 9001 = none ∧
    staleDoubled.workers.get? "y" = some 1 ∧ staleDoubled.workers.get? "z" = some 2 ∧
    (staleDoubled.heap 1).Port = 9001 ∧ (staleDoubled.heap 2).Port = 9001 ∧
    (staleDoubled.heap 1).stopped = false ∧ (staleDoubled.heap 2).stopped = false ∧
    (staleDoubled.heap 1).Status = StatusInMeeting ∧
    (staleDoubled.heap 2).Status = StatusInMeeting := by
  have e1 : ProcessManager.failedJoins 998 staleLeft =
      { staleLeft with nextPort := staleLeft.nextPort + 998 } :=
    failedJoins_of_empty 998 staleLeft rfl rfl rfl rfl (by decide)
  have hR : staleRejoined =
      ({ staleLeft with nextPort := staleLeft.nextPort + 998 } : ProcessManager).joined "y" 2 := by
    unfold staleRejoined; rw [e1]
  have hS : staleReleased =
      (match (({ staleLeft with nextPort := staleLeft.nextPort + 998 } : ProcessManager).joined
          "y" 2).monitorWorker 0 false with
        | some pm => pm
        | none => ({ staleLeft with nextPort := staleLeft.nextPort + 998 } :
            ProcessManager).joined "y" 2) := by
    unfold staleReleased; rw [hR]
  have e2 : ProcessManager.failedJoins 998 staleReleased =
      { staleReleased with nextPort := staleReleased.nextPort + 998 } :=
    failedJoins_of_empty 998 staleReleased (by rw [hS]; rfl) (by rw [hS]; rfl)
      (by rw [hS]; rfl) (by rw [hS]; rfl) (by rw [hS]; decide)
  have hD : staleDoubled =
      ({ staleReleased with nextPort := staleReleased.nextPort + 998 } : ProcessManager).joined
        "z" 3 := by
    unfold staleDoubled; rw [e2]
  refine ⟨by decide, by decide, by decide, by decide, by decide, by decide,
    by rw [hR]; decide, by rw [hR]; decide, by rw [hR]; decide, by rw [hR]; decide,
    by rw [hS]; decide, by rw [hS]; decide, by rw [hS]; decide,
    by rw [hD, hS]; decide, by rw [hD, hS]; decide, by rw [hD, hS]; decide,
    by rw [hD, hS]; decide, by rw [hD, hS]; decide, by rw [hD, hS]; decide,
    by rw [hD, hS]; decide, by rw [hD, hS]; decide⟩

/-! ### The relay loop -/

/-- Once `stopChan` is closed the relay reads no further line. -/
theorem relayLines_stopped (decode : Bytes → Option AudioFrame) (lines : List Bytes)
    (w : WorkerProcess) (audioBus : Option Bus) (now pubNow : Nat → Time)
    (clock : Nat → Nat → Time) (h : w.stopChan = true) :
    WorkerProcess.relayLines decode lines w audioBus now pubNow clock = some (w, audioBus) := by
  cases lines with
  | nil => rfl
  | cons line rest => simp [WorkerProcess.relayLines, h]

/-- While `stopChan` is open the relay handles the first line and goes on with
the others. -/
theorem relayLines_cons (decode : Bytes → Option AudioFrame) (line : Bytes) (rest : List Bytes)
    (w : WorkerProcess) (audioBus : Option Bus) (now pubNow : Nat → Time)
    (clock : Nat → Nat → Time) (h : w.stopChan = false) :
    WorkerProcess.relayLines decode (line :: rest) w audioBus now pubNow clock =
      match w.relayLine decode audioBus line (now 0) (pubNow 0) (clock 0) with
      | none => none
      | some (w1, b1) =>
        WorkerProcess.relayLines decode rest w1 b1 (fun i => now (i + 1))
          (fun i => pubNow (i + 1)) (fun i => clock (i + 1)) := by
  rw [WorkerProcess.relayLines]
  simp only [h, Bool.false_eq_true, if_false]

/-- One turn of the relay on a well-formed bus, or without bus: it returns,
changes the statistics of the worker only, keeps the bus well formed, and
counts the frame of the line, if the line holds one. -/
theorem relayLine_turn (decode : Bytes → Option AudioFrame) (w : WorkerProcess)
    (audioBus : Option Bus) (hbus : ∀ b, audioBus = some b → b.WF) (line : Bytes)
    (now pubNow : Time) (clock : Nat → Time) :
    ∃ w' bus', w.relayLine decode audioBus line now pubNow clock = some (w', bus') ∧
      w'.stopChan = w.stopChan ∧ w'.MeetingID = w.MeetingID ∧
      (∀ b, bus' = some b → b.WF) ∧ (audioBus = none → bus' = none) ∧
      ((line.length = 0 ∨ decode line = none) → w' = w ∧ bus' = audioBus) ∧
      (∀ frame, line.length ≠ 0 → decode line = some frame →
        w'.Stats.FramesReceived = (w.Stats.FramesReceived + 1) % 2 ^ 64 ∧
        w'.Stats.BytesReceived
          = (w.Stats.BytesReceived + frame.Data.length % 2 ^ 64) % 2 ^ 64 ∧
        (audioBus = none → w'.Stats.FramesDropped = w.Stats.FramesDropped) ∧
        (∀ b, audioBus = some b →
          ∃ b' r, b.Publish w.MeetingID frame pubNow clock = some (b', r) ∧ bus' = some b' ∧
            w'.Stats.FramesDropped =
              if r then w.Stats.FramesDropped else (w.Stats.FramesDropped + 1) % 2 ^ 64)) := by
  by_cases hskip : line.length = 0 ∨ decode line = none
  · refine ⟨w, audioBus, relayLine_skip decode w audioBus line now pubNow clock hskip, rfl, rfl,
      hbus, fun h => h, fun _ => ⟨rfl, rfl⟩, fun frame hl hd => ?_⟩
    rcases hskip with h | h
    · exact absurd h hl
    · rw [hd] at h; exact Option.noConfusion h
  · have hl : line.length ≠ 0 := fun h => hskip (Or.inl h)
    obtain ⟨frame, hd⟩ : ∃ frame, decode line = some frame := by
      cases hdl : decode line with
      | none => exact absurd (Or.inr hdl) hskip
      | some f => exact ⟨f, rfl⟩
    cases audioBus with
    | none =>
      refine ⟨{ w with Stats := w.Stats.received frame now }, none,
        relayLine_nobus decode w line frame now pubNow clock hl hd, rfl, rfl,
        fun b hb => Option.noConfusion hb, fun _ => rfl, fun h => absurd h hskip,
        fun f _ hf => ?_⟩
      rw [hd] at hf
      obtain rfl := Option.some.inj hf
      exact ⟨rfl, rfl, fun _ => rfl, fun b hb => Option.noConfusion hb⟩
    | some b =>
      obtain ⟨b', r, hp⟩ := publish_returns b (hbus b rfl) w.MeetingID frame pubNow clock
      have hwf : b'.WF := wf_publish b b' (hbus b rfl) w.MeetingID frame pubNow clock r hp
      refine ⟨_, some b', relayLine_bus decode w b b' r line frame now pubNow clock hl hd hp,
        rfl, rfl, fun b0 hb0 => by obtain rfl := Option.some.inj hb0; exact hwf,
        fun h => Option.noConfusion h, fun h => absurd h hskip, fun f _ hf => ?_⟩
      rw [hd] at hf
      obtain rfl := Option.some.inj hf
      refine ⟨by cases r <;> rfl, by cases r <;> rfl, fun hn => Option.noConfusion hn,
        fun b0 hb0 => ?_⟩
      obtain rfl := Option.some.inj hb0
      exact ⟨b', r, hp, rfl, by cases r <;> rfl⟩

theorem relayFrames_cons_skip (decode : Bytes → Option AudioFrame) (line : Bytes)
    (rest : List Bytes) (h : line.length = 0 ∨ decode line = none) :
    relayFrames decode (line :: rest) = relayFrames decode rest := by
  unfold relayFrames
  rw [List.filterMap_cons]
  by_cases hl : line.length = 0
  · rw [if_pos hl]
  · rcases h with h | h
    · exact absurd h hl
    · rw [if_neg hl, h]

theorem relayFrames_cons_frame (decode : Bytes → Option AudioFrame) (line : Bytes)
    (rest : List Bytes) (frame : AudioFrame) (hl : line.length ≠ 0)
    (hd : decode line = some frame) :
    relayFrames decode (line :: rest) = frame :: relayFrames decode rest := by
  unfold relayFrames
  rw [List.filterMap_cons, if_neg hl, hd]

theorem payloadBytes_cons (frame : AudioFrame) (frames : List AudioFrame) :
    payloadBytes (frame :: frames) = frame.Data.length + payloadBytes frames := by
  simp [payloadBytes]

/-- The relay over any lines, on a worker whose `stopChan` is open: it returns,
and the counters have grown by the number of frames decoded and by the number
of their payload bytes; the drop counter has grown by at most the number of
frames, and not at all without bus. -/
theorem relayLines_totals (decode : Bytes → Option AudioFrame) (lines : List Bytes) :
    ∀ (w : WorkerProcess) (audioBus : Option Bus) (now pubNow : Nat → Time)
      (clock : Nat → Nat → Time), (∀ b, audioBus = some b → b.WF) → w.stopChan = false →
      w.Stats.WF →
      ∃ w1 b1, WorkerProcess.relayLines decode lines w audioBus now pubNow clock = some (w1, b1) ∧
        w1.stopChan = false ∧ w1.MeetingID = w.MeetingID ∧ w1.Stats.WF ∧
        (∀ b, b1 = some b → b.WF) ∧ (audioBus = none → b1 = none) ∧
        w1.Stats.FramesReceived
          = (w.Stats.FramesReceived + (relayFrames decode lines).length) % 2 ^ 64 ∧
        w1.Stats.BytesReceived
          = (w.Stats.BytesReceived + payloadBytes (relayFrames decode lines)) % 2 ^ 64 ∧
        (∃ d, d ≤ (relayFrames decode lines).length ∧
          w1.Stats.FramesDropped = (w.Stats.FramesDropped + d) % 2 ^ 64) ∧
        (audioBus = none → w1.Stats.FramesDropped = w.Stats.FramesDropped) := by
  induction lines with
  | nil =>
    intro w audioBus now pubNow clock hbus hopen hst
    obtain ⟨h1, h2, h3⟩ := hst
    refine ⟨w, audioBus, rfl, hopen, rfl, ⟨h1, h2, h3⟩, hbus, fun h => h, ?_, ?_,
      ⟨0, le_refl _, ?_⟩, fun _ => rfl⟩
    · show w.Stats.FramesReceived = (w.Stats.FramesReceived + 0) % 2 ^ 64
      rw [Nat.add_zero, Nat.mod_eq_of_lt h1]
    · show w.Stats.BytesReceived = (w.Stats.BytesReceived + 0) % 2 ^ 64
      rw [Nat.add_zero, Nat.mod_eq_of_lt h3]
    · rw [Nat.add_zero, Nat.mod_eq_of_lt h2]
  | cons line rest ih =>
    intro w audioBus now pubNow clock hbus hopen hst
    obtain ⟨w', bus', hrun, hsc, hid, hwf', hnone', hskip, hframe⟩ :=
      relayLine_turn decode w audioBus hbus line (now 0) (pubNow 0) (clock 0)
    rw [relayLines_cons decode line rest w audioBus now pubNow clock hopen, hrun]
    simp only []
    by_cases hs : line.length = 0 ∨ decode line = none
    · obtain ⟨rfl, rfl⟩ := hskip hs
      rw [relayFrames_cons_skip decode line rest hs]
      exact ih w' bus' _ _ _ hbus hopen hst
    · have hl : line.length ≠ 0 := fun h => hs (Or.inl h)
      obtain ⟨frame, hd⟩ : ∃ frame, decode line = some frame := by
        cases hdl : decode line with
        | none => exact absurd (Or.inr hdl) hs
        | some f => exact ⟨f, rfl⟩
      obtain ⟨f1, f2, f3, f4⟩ := hframe frame hl hd
      have hst' : w'.Stats.WF := by
        refine ⟨by rw [f1]; exact Nat.mod_lt _ (by norm_num), ?_,
          by rw [f2]; exact Nat.mod_lt _ (by norm_num)⟩
        cases hb : audioBus with
        | none => rw [f3 hb]; exact hst.2.1
        | some b =>
          obtain ⟨b', r, -, -, hdrop⟩ := f4 b hb
          rw [hdrop]
          split_ifs
          · exact hst.2.1
          · exact Nat.mod_lt _ (by norm_num)
      obtain ⟨w1, b1, k1, k2, k3, k4, k5, k6, k7, k8, ⟨d, hd1, hd2⟩, k10⟩ :=
        ih w' bus' (fun i => now (i + 1)) (fun i => pubNow (i + 1)) (fun i => clock (i + 1))
          hwf' (by rw [hsc]; exact hopen) hst'
      rw [relayFrames_cons_frame decode line rest frame hl hd]
      refine ⟨w1, b1, k1, k2, by rw [k3, hid], k4, k5, fun h => k6 (hnone' h), ?_, ?_, ?_,
        fun h => ?_⟩
      · rw [k7, f1, List.length_cons]
        omega
      · rw [k8, f2, payloadBytes_cons]
        omega
      · cases hb : audioBus with
        | none =>
          refine ⟨d, by rw [List.length_cons]; omega, ?_⟩
          rw [hd2, f3 hb]
        | some b =>
          obtain ⟨b', r, -, -, hdrop⟩ := f4 b hb
          cases r with
          | true =>
            refine ⟨d, by rw [List.length_cons]; omega, ?_⟩
            rw [hd2, hdrop]
            rfl
          | false =>
            refine ⟨d + 1, by rw [List.length_cons]; omega, ?_⟩
            rw [hd2, hdrop]
            simp only [Bool.false_eq_true, if_false]
            omega
      · rw [k10 (hnone' h), f3 h]

/-- The relay over `pre ++ rest` is the relay over `rest` after the relay over
`pre`, with the clocks of the lines of `rest`. -/
theorem relayLines_append (decode : Bytes → Option AudioFrame) (pre : List Bytes) :
    ∀ (rest : List Bytes) (w : WorkerProcess) (audioBus : Option Bus) (now pubNow : Nat → Time)
      (clock : Nat → Nat → Time),
      WorkerProcess.relayLines decode (pre ++ rest) w audioBus now pubNow clock =
        match WorkerProcess.relayLines decode pre w audioBus now pubNow clock with
        | none => none
        | some (w1, b1) =>
          WorkerProcess.relayLines decode rest w1 b1 (fun i => now (i + pre.length))
            (fun i => pubNow (i + pre.length)) (fun i => clock (i + pre.length)) := by
  induction pre with
  | nil => intro rest w audioBus now pubNow clock; rfl
  | cons line pre ih =>
    intro rest w audioBus now pubNow clock
    by_cases hopen : w.stopChan = true
    · rw [relayLines_stopped _ _ _ _ _ _ _ hopen, relayLines_stopped _ _ _ _ _ _ _ hopen]
      simp only []
      rw [relayLines_stopped _ _ _ _ _ _ _ hopen]
    · have hopen' : w.stopChan = false := by simpa using hopen
      rw [List.cons_append, relayLines_cons _ _ _ _ _ _ _ _ hopen',
        relayLines_cons _ _ _ _ _ _ _ _ hopen']
      cases w.relayLine decode audioBus line (now 0) (pubNow 0) (clock 0) with
      | none => rfl
      | some r =>
        obtain ⟨w1, b1⟩ := r
        simp only []
        rw [ih]
        rfl

/-- A single line is handled by one turn of the relay. -/
theorem relayLines_single (decode : Bytes → Option AudioFrame) (line : Bytes)
    (w : WorkerProcess) (audioBus : Option Bus) (now pubNow : Nat → Time)
    (clock : Nat → Nat → Time) (h : w.stopChan = false) :
    WorkerProcess.relayLines decode [line] w audioBus now pubNow clock =
      w.relayLine decode audioBus line (now 0) (pubNow 0) (clock 0) := by
  rw [relayLines_cons _ _ _ _ _ _ _ _ h]
  cases w.relayLine decode audioBus line (now 0) (pubNow 0) (clock 0) with
  | none => rfl
  | some r => rfl

/-! ### The frame processor over several turns -/

/-- The frame processor over the frames at the head of the queue: it returns,
removes them from the queue, and the counters have grown by their number and by
the number of their payload bytes; the drop counter has grown by at most their
number, and not at all without bus. -/
theorem processTurns_totals (frames : List AudioFrame) :
    ∀ (m : MeetingInstance) (audioBus : Option Bus) (rest : List AudioFrame)
      (now pubNow : Nat → Time) (clock : Nat → Nat → Time),
      (∀ b, audioBus = some b → b.WF) → m.stats.WF → m.audioChannel.queue = frames ++ rest →
      ∃ m1 b1, m.processTurns frames.length audioBus now pubNow clock = some (m1, b1) ∧
        m1.audioChannel.queue = rest ∧
        m1.stats.FramesReceived = (m.stats.FramesReceived + frames.length) % 2 ^ 64 ∧
        m1.stats.BytesReceived = (m.stats.BytesReceived + payloadBytes frames) % 2 ^ 64 ∧
        (∃ d, d ≤ frames.length ∧
          m1.stats.FramesDropped = (m.stats.FramesDropped + d) % 2 ^ 64) ∧
        (audioBus = none → m1.stats.FramesDropped = m.stats.FramesDropped) := by
  induction frames with
  | nil =>
    intro m audioBus rest now pubNow clock hbus hst hq
    obtain ⟨h1, h2, h3⟩ := hst
    refine ⟨m, audioBus, rfl, hq, ?_, ?_, ⟨0, le_refl _, ?_⟩, fun _ => rfl⟩
    · show m.stats.FramesReceived = (m.stats.FramesReceived + 0) % 2 ^ 64
      rw [Nat.add_zero, Nat.mod_eq_of_lt h1]
    · show m.stats.BytesReceived = (m.stats.BytesReceived + 0) % 2 ^ 64
      rw [Nat.add_zero, Nat.mod_eq_of_lt h3]
    · rw [Nat.add_zero, Nat.mod_eq_of_lt h2]
  | cons frame frames ih =>
    intro m audioBus rest now pubNow clock hbus hst hq
    obtain ⟨m', bus', hrun, g1, g2, g3, g4, g5⟩ :=
      processAudioFrames_spec m audioBus hbus frame (frames ++ rest) hq (now 0) (pubNow 0)
        (clock 0)
    have hbus' : ∀ b, bus' = some b → b.WF := by
      intro b0 hb0
      cases hb : audioBus with
      | none =>
        subst hb
        have : bus' = none := by
          simp only [MeetingInstance.processAudioFrames, hq] at hrun
          exact (Prod.mk.inj (Option.some.inj hrun)).2.symm
        rw [this] at hb0
        exact Option.noConfusion hb0
      | some b =>
        obtain ⟨b', r, hp, hb', -⟩ := g5 b hb
        rw [hb'] at hb0
        have hbb : b' = b0 := Option.some.inj hb0
        rw [← hbb]
        exact wf_publish b b' (hbus b (by rw [hb])) _ _ _ _ r hp
    have hnone' : audioBus = none → bus' = none := by
      intro hb
      subst hb
      simp only [MeetingInstance.processAudioFrames, hq] at hrun
      exact (Prod.mk.inj (Option.some.inj hrun)).2.symm
    have hst' : m'.stats.WF := by
      refine ⟨by rw [g2]; exact Nat.mod_lt _ (by norm_num), ?_,
        by rw [g3]; exact Nat.mod_lt _ (by norm_num)⟩
      cases hb : audioBus with
      | none => rw [g4 hb]; exact hst.2.1
      | some b =>
        obtain ⟨b', r, -, -, hdrop⟩ := g5 b hb
        rw [hdrop]
        split_ifs
        · exact hst.2.1
        · exact Nat.mod_lt _ (by norm_num)
    obtain ⟨m1, b1, k1, k2, k3, k4, ⟨d, hd1, hd2⟩, k6⟩ :=
      ih m' bus' rest (fun i => now (i + 1)) (fun i => pubNow (i + 1)) (fun i => clock (i + 1))
        hbus' hst' g1
    refine ⟨m1, b1, ?_, k2, ?_, ?_, ?_, fun h => ?_⟩
    · show (match m.processAudioFrames audioBus (now 0) (pubNow 0) (clock 0) with
        | none => none
        | some (m, audioBus) =>
          MeetingInstance.processTurns frames.length m audioBus (fun i => now (i + 1))
            (fun i => pubNow (i + 1)) (fun i => clock (i + 1))) = _
      rw [hrun]
      exact k1
    · rw [k3, g2, List.length_cons]
      omega
    · rw [k4, g3, payloadBytes_cons]
      omega
    · cases hb : audioBus with
      | none =>
        refine ⟨d, by rw [List.length_cons]; omega, ?_⟩
        rw [hd2, g4 hb]
      | some b =>
        obtain ⟨b', r, -, -, hdrop⟩ := g5 b hb
        cases r with
        | true =>
          refine ⟨d, by rw [List.length_cons]; omega, ?_⟩
          rw [hd2, hdrop]
          rfl
        | false =>
          refine ⟨d + 1, by rw [List.length_cons]; omega, ?_⟩
          rw [hd2, hdrop]
          simp only [Bool.false_eq_true, if_false]
          omega
    · rw [k6 (hnone' h), g4 h]

/-- C19: the relay on a worker whose `stopChan` is open (on a well-formed bus,
or without bus), over any lines `pre` followed by a line `line`: it returns;
after `pre`, `FramesReceived` has grown by the number of frames decoded from
`pre` and `BytesReceived` by the number of their payload bytes (in `uint64`
arithmetic), and `FramesDropped` by at most the number of frames. The line
`line` is then handled by one turn: when it is empty or does not decode,
nothing changes and the relay goes on; when it decodes into a frame,
`FramesReceived` grows by one and `BytesReceived` by the payload length (exactly
so when the counter does not wrap), and `FramesDropped` grows by one exactly
when `Bus.Publish` returned false; without wrap no counter decreases. The frame
processor of a meeting instance counts the frames it takes from its queue in
the same way, turn by turn and over any number of turns. -/
theorem relay_updates_stats (decode : Bytes → Option AudioFrame) (w : WorkerProcess)
    (audioBus : Option Bus) (hbus : ∀ b, audioBus = some b → b.WF)
    (hopen : w.stopChan = false) (hst : w.Stats.WF) (pre : List Bytes) (line : Bytes)
    (now pubNow : Nat → Time) (clock : Nat → Nat → Time) :
    ∃ w1 b1 w2 b2,
      WorkerProcess.relayLines decode pre w audioBus now pubNow clock = some (w1, b1) ∧
      WorkerProcess.relayLines decode (pre ++ [line]) w audioBus now pubNow clock
        = some (w2, b2) ∧
      w1.relayLine decode b1 line (now pre.length) (pubNow pre.length) (clock pre.length)
        = some (w2, b2) ∧
      w1.MeetingID = w.MeetingID ∧ (audioBus = none → b1 = none) ∧
      w1.Stats.FramesReceived
        = (w.Stats.FramesReceived + (relayFrames decode pre).length) % 2 ^ 64 ∧
      w1.Stats.BytesReceived
        = (w.Stats.BytesReceived + payloadBytes (relayFrames decode pre)) % 2 ^ 64 ∧
      (∃ d, d ≤ (relayFrames decode pre).length ∧
        w1.Stats.FramesDropped = (w.Stats.FramesDropped + d) % 2 ^ 64) ∧
      (audioBus = none → w1.Stats.FramesDropped = w.Stats.FramesDropped) ∧
      ((line.length = 0 ∨ decode line = none) → w2 = w1 ∧ b2 = b1) ∧
      (∀ frame, line.length ≠ 0 → decode line = some frame →
        w2.Stats.FramesReceived = (w1.Stats.FramesReceived + 1) % 2 ^ 64 ∧
        w2.Stats.BytesReceived
          = (w1.Stats.BytesReceived + frame.Data.length % 2 ^ 64) % 2 ^ 64 ∧
        (w1.Stats.FramesReceived + 1 < 2 ^ 64 →
          w2.Stats.FramesReceived = w1.Stats.FramesReceived + 1) ∧
        (w1.Stats.BytesReceived + frame.Data.length < 2 ^ 64 →
          w2.Stats.BytesReceived = w1.Stats.BytesReceived + frame.Data.length) ∧
        (b1 = none → w2.Stats.FramesDropped = w1.Stats.FramesDropped) ∧
        (∀ b, b1 = some b →
          ∃ b' r, b.Publish w.MeetingID frame (pubNow pre.length) (clock pre.length)
              = some (b', r) ∧ b2 = some b' ∧
            w2.Stats.FramesDropped =
              if r then w1.Stats.FramesDropped
              else (w1.Stats.FramesDropped + 1) % 2 ^ 64)) ∧
      (w1.Stats.FramesReceived + 1 < 2 ^ 64 →
        w1.Stats.FramesReceived ≤ w2.Stats.FramesReceived) ∧
      (w1.Stats.FramesDropped + 1 < 2 ^ 64 →
        w1.Stats.FramesDropped ≤ w2.Stats.FramesDropped) ∧
      ((∀ frame, decode line = some frame →
          w1.Stats.BytesReceived + frame.Data.length < 2 ^ 64) →
        w1.Stats.BytesReceived ≤ w2.Stats.BytesReceived) ∧
      (∀ (m : MeetingInstance) (frame : AudioFrame) (rest : List AudioFrame),
        m.audioChannel.queue = frame :: rest →
        ∃ m' bus2, m.processAudioFrames audioBus (now 0) (pubNow 0) (clock 0)
            = some (m', bus2) ∧
          m'.audioChannel.queue = rest ∧
          m'.stats.FramesReceived = (m.stats.FramesReceived + 1) % 2 ^ 64 ∧
          m'.stats.BytesReceived
            = (m.stats.BytesReceived + frame.Data.length % 2 ^ 64) % 2 ^ 64 ∧
          (audioBus = none → m'.stats.FramesDropped = m.stats.FramesDropped) ∧
          (∀ b, audioBus = some b →
            ∃ b' r, b.Publish m.meetingID frame (pubNow 0) (clock 0) = some (b', r) ∧
              bus2 = some b' ∧
              m'.stats.FramesDropped =
                if r then m.stats.FramesDropped
                else (m.stats.FramesDropped + 1) % 2 ^ 64)) ∧
      (∀ (m : MeetingInstance) (frames rest : List AudioFrame), m.stats.WF →
        m.audioChannel.queue = frames ++ rest →
        ∃ m1 bus1, m.processTurns frames.length audioBus now pubNow clock = some (m1, bus1) ∧
          m1.audioChannel.queue = rest ∧
          m1.stats.FramesReceived = (m.stats.FramesReceived + frames.length) % 2 ^ 64 ∧
          m1.stats.BytesReceived = (m.stats.BytesReceived + payloadBytes frames) % 2 ^ 64 ∧
          (∃ d, d ≤ frames.length ∧
            m1.stats.FramesDropped = (m.stats.FramesDropped + d) % 2 ^ 64) ∧
          (audioBus = none → m1.stats.FramesDropped = m.stats.FramesDropped)) := by
  obtain ⟨w1, b1, k1, k2, k3, -, k5, k6, k7, k8, k9, k10⟩ :=
    relayLines_totals decode pre w audioBus now pubNow clock hbus hopen hst
  obtain ⟨w2, b2, hrun, hskip, hframe, hm1, hm2, hm3, -, -⟩ :=
    relayLine_updates_stats decode w1 b1 k5 line (now pre.length) (pubNow pre.length)
      (clock pre.length)
  have happ : WorkerProcess.relayLines decode (pre ++ [line]) w audioBus now pubNow clock =
      some (w2, b2) := by
    rw [relayLines_append, k1]
    simp only []
    rw [relayLines_single _ _ _ _ _ _ _ k2]
    simp only [Nat.zero_add]
    exact hrun
  refine ⟨w1, b1, w2, b2, k1, happ, hrun, k3, k6, k7, k8, k9, k10, hskip, ?_, hm1, hm2, hm3,
    fun m frame rest hq =>
      processAudioFrames_spec m audioBus hbus frame rest hq (now 0) (pubNow 0) (clock 0),
    fun m frames rest hms hq =>
      processTurns_totals frames m audioBus rest now pubNow clock hbus hms hq⟩
  intro frame hl hd
  obtain ⟨f1, f2, f3, f4, f5, f6⟩ := hframe frame hl hd
  refine ⟨f1, f2, f3, f4, f5, fun b hb => ?_⟩
  rw [← k3]
  exact f6 b hb

/-- Worker m1 relays five lines onto a bus whose only subscriber has a full
queue: three of them hold a frame of two bytes, and every frame is dropped. The
instance with three queued frames counts them over three turns. -/
theorem relay_updates_stats_witness :
    (∀ b, some onlyFullBus = some b → b.WF) ∧ workerM1.stopChan = false ∧
    workerM1.Stats.WF ∧
    (WorkerProcess.relayLines sampleDecode (relayedLines ++ [[3]]) workerM1 (some onlyFullBus)
        (fun _ => 5) (fun _ => 5) (fun _ _ => 6)).map
      (fun r => (r.1.Stats.FramesReceived, r.1.Stats.FramesDropped, r.1.Stats.BytesReceived))
      = some (3, 3, 6) ∧
    (queuedInstance.processTurns 3 (some onlyFullBus) (fun _ => 5) (fun _ => 5)
        (fun _ _ => 6)).map
      (fun r => (r.1.stats.FramesReceived, r.1.stats.FramesDropped, r.1.stats.BytesReceived,
        r.1.audioChannel.queue.length)) = some (3, 3, 6, 0) ∧
    ∃ w1 b1 w2 b2,
      WorkerProcess.relayLines sampleDecode relayedLines workerM1 (some onlyFullBus)
        (fun _ => 5) (fun _ => 5) (fun _ _ => 6) = some (w1, b1) ∧
      WorkerProcess.relayLines sampleDecode (relayedLines ++ [[3]]) workerM1 (some onlyFullBus)
        (fun _ => 5) (fun _ => 5) (fun _ _ => 6) = some (w2, b2) ∧
      w1.Stats.FramesReceived = 2 ∧ w1.Stats.BytesReceived = 4 ∧
      w2.Stats.FramesReceived = 3 ∧ w2.Stats.BytesReceived = 6 := by
  have hb : ∀ b, some onlyFullBus = some b → b.WF := by
    intro b hb
    obtain rfl := Option.some.inj hb
    decide
  refine ⟨hb, rfl, by decide, by decide, by decide, ?_⟩
  obtain ⟨w1, b1, w2, b2, h1, h2, -, -, -, t1, t2, -, -, -, hframe, -⟩ :=
    relay_updates_stats sampleDecode workerM1 (some onlyFullBus) hb rfl (by decide)
      relayedLines [3] (fun _ => 5) (fun _ => 5) (fun _ _ => 6)
  obtain ⟨f1, f2, -⟩ := hframe oneWayFrame (by decide) rfl
  have e1 : w1.Stats.FramesReceived = 2 := by rw [t1]; decide
  have e2 : w1.Stats.BytesReceived = 4 := by rw [t2]; decide
  refine ⟨w1, b1, w2, b2, h1, h2, e1, e2, ?_, ?_⟩
  · rw [f1, e1]; decide
  · rw [f2, e2]; decide

end Main
